import Mathlib

/-!
The container `partial_vector`: a chunked dynamic array.

Shallow embedding of `src/partial_vector.h`.

* `std::vector<T>` is a `List T`; `std::vector<std::vector<T>>` is a `List (List T)`.
* The counters (`size_t`, `uint32_t`, `uint64_t`, the `int` loop variables) are natural
  numbers.  Containers are assumed to fit the counters' ranges, so additions and casts
  do not wrap; subtractions that can go below zero wrap the way the unsigned C++ types
  do (`u32_sub`, `u64_sub`), and the "not found" location is `UINT32_MAX`.
* `max_part_size` is a data member set from `sizeof(ElementT)`; the `enable_if` of the
  class template keeps it at 2 or more, so the divisions by it are by a positive number.
* A member function that only reads or writes the container becomes a function from
  the container to `Except (Fault _) (result × container)`.
  `Fault.runtime_error s` is `throw std::runtime_error(..)` raised in state `s`;
  `Fault.undefined` is undefined behaviour (an out-of-bounds `operator[]` on a
  `std::vector`, or an iterator past the end of one); `Fault.diverges` is a loop that
  never ends.
* `find_element` is a `const` member that writes the `mutable` offset cache, so it
  returns the container with the extended cache.
-/

set_option autoImplicit false

/-- The outcome of a member function that does not return normally. -/
inductive Fault (σ : Type) where
  | runtime_error : σ → Fault σ
  | undefined : Fault σ
  | diverges : Fault σ
deriving DecidableEq

deriving instance DecidableEq for Except

def PARTIAL_VECTOR_PART_MAX_BYTE_SIZE : Nat := 16384

def UINT32_MAX : Nat := 4294967295

/-- Subtraction of `uint32_t` values: wraps below zero. -/
def u32_sub (a b : Nat) : Nat := if b ≤ a then a - b else a + 4294967296 - b

/-- Subtraction of `size_t` / `uint64_t` values: wraps below zero. -/
def u64_sub (a b : Nat) : Nat := if b ≤ a then a - b else a + 18446744073709551616 - b

/-- The access `v[i]` of a `std::vector`: undefined behaviour out of bounds. -/
def vec_at {σ β : Type} (v : List β) (i : Nat) : Except (Fault σ) β :=
  match v[i]? with
  | some x => Except.ok x
  | none => Except.error Fault.undefined

/-- The call `v.resize(n)` of a `std::vector`, `d` being the value-initialised element. -/
def vec_resize {β : Type} (v : List β) (n : Nat) (d : β) : List β :=
  v.take n ++ List.replicate (n - v.length) d

/-- The call `v.insert(v.begin() + k, x)`. -/
def vec_insert {σ β : Type} (v : List β) (k : Nat) (x : β) : Except (Fault σ) (List β) :=
  if k ≤ v.length then Except.ok (v.take k ++ x :: v.drop k) else Except.error Fault.undefined

/-- The call `v.erase(v.begin() + k)`. -/
def vec_erase {σ β : Type} (v : List β) (k : Nat) : Except (Fault σ) (List β) :=
  if k < v.length then Except.ok (v.eraseIdx k) else Except.error Fault.undefined

/-- The assignment `v[i] = x` through the reference returned by `operator[]`. -/
def vec_set {σ β : Type} (v : List β) (i : Nat) (x : β) : Except (Fault σ) (List β) :=
  if i < v.length then Except.ok (v.set i x) else Except.error Fault.undefined

/-- Source: `struct ElementInfo`: index from parts, offset relative to part. -/
structure ElementInfo where
  part_index : Nat
  element_offset : Nat
deriving DecidableEq

/-- The data members of `class partial_vector`. -/
structure partial_vector (ElementT : Type) where
  max_part_size : Nat
  parts : List (List ElementT)
  size : Nat
  part_count : Nat
  part_offsets : List Nat
deriving DecidableEq

/-- Source: `struct iterator` (and `const_iterator`); the container pointer is the container
the operation is applied to. -/
structure iterator where
  elem_info : ElementInfo
  elem_index : Nat
deriving DecidableEq

namespace partial_vector

variable {ElementT : Type}

/-- The result type of a member function. -/
abbrev Run (ElementT : Type) (ρ : Type) : Type := Except (Fault (partial_vector ElementT)) ρ

/-- The member initialiser `max_part_size = PARTIAL_VECTOR_PART_MAX_BYTE_SIZE / sizeof(ElementT)`
together with the default initialisers of the other members. -/
def init (sizeof_ElementT : Nat) : partial_vector ElementT :=
  { max_part_size := PARTIAL_VECTOR_PART_MAX_BYTE_SIZE / sizeof_ElementT
    parts := []
    size := 0
    part_count := 0
    part_offsets := [] }

/-- The backward scan of `find_element`: `n` is `i + 1` for the loop variable `i`. -/
def find_element_backward (parts : List (List ElementT)) (element_index : Nat) :
    Nat → Nat → Run ElementT ElementInfo
  | 0, _ => Except.ok { part_index := UINT32_MAX, element_offset := UINT32_MAX }
  | i + 1, estimate_part_offset =>
    match parts[i]? with
    | none => Except.error Fault.undefined
    | some part =>
      let estimate_part_offset := u64_sub estimate_part_offset part.length
      if element_index ≥ estimate_part_offset ∧ element_index < estimate_part_offset + part.length then
        Except.ok { part_index := i, element_offset := element_index - estimate_part_offset }
      else find_element_backward parts element_index i estimate_part_offset

/-- The forward scan of `find_element`: `fuel` is `part_count - i`. -/
def find_element_forward (parts : List (List ElementT)) (element_index : Nat) :
    Nat → Nat → Nat → List Nat → Run ElementT (ElementInfo × List Nat)
  | 0, _, _, part_offsets =>
    Except.ok ({ part_index := UINT32_MAX, element_offset := UINT32_MAX }, part_offsets)
  | fuel + 1, i, estimate_part_offset, part_offsets =>
    match parts[i]? with
    | none => Except.error Fault.undefined
    | some part =>
      let part_offsets :=
        if i ≥ part_offsets.length then part_offsets ++ [estimate_part_offset] else part_offsets
      if element_index ≥ estimate_part_offset ∧ element_index < estimate_part_offset + part.length then
        Except.ok ({ part_index := i, element_offset := element_index - estimate_part_offset },
          part_offsets)
      else
        find_element_forward parts element_index fuel (i + 1)
          (estimate_part_offset + part.length) part_offsets

/-- Source: `ElementInfo find_element(size_t element_index) const`. -/
def find_element (p : partial_vector ElementT) (element_index : Nat) :
    Run ElementT (ElementInfo × partial_vector ElementT) :=
  let estimate_part_index :=
    if p.part_offsets.length = 0 then 0
    else min (p.part_offsets.length - 1) (element_index / p.max_part_size)
  match (if estimate_part_index = 0 then some 0 else p.part_offsets[estimate_part_index]?) with
  | none => Except.error Fault.undefined
  | some estimate_part_offset =>
    if estimate_part_offset > element_index then
      match find_element_backward p.parts element_index estimate_part_index estimate_part_offset with
      | Except.ok info => Except.ok (info, p)
      | Except.error e => Except.error e
    else
      match find_element_forward p.parts element_index (p.part_count - estimate_part_index)
          estimate_part_index estimate_part_offset p.part_offsets with
      | Except.ok (info, part_offsets) => Except.ok (info, { p with part_offsets := part_offsets })
      | Except.error e => Except.error e

/-- Source: `ElementT& operator[](size_t index)`, read through the returned reference. -/
def operator_index (p : partial_vector ElementT) (index : Nat) :
    Run ElementT (ElementT × partial_vector ElementT) :=
  if index ≥ p.size then Except.error (Fault.runtime_error p)
  else
    match find_element p index with
    | Except.error e => Except.error e
    | Except.ok (elem_info, p) =>
      match vec_at p.parts elem_info.part_index with
      | Except.error e => Except.error e
      | Except.ok part =>
        match vec_at part elem_info.element_offset with
        | Except.error e => Except.error e
        | Except.ok x => Except.ok (x, p)

/-- Source: `ElementInfo next_element(ElementInfo const& current_element) const`. -/
def next_element (p : partial_vector ElementT) (current_element : ElementInfo) :
    Run ElementT ElementInfo :=
  match vec_at p.parts current_element.part_index with
  | Except.error e => Except.error e
  | Except.ok part =>
    if current_element.element_offset + 1 < part.length then
      Except.ok { part_index := current_element.part_index,
                  element_offset := current_element.element_offset + 1 }
    else
      Except.ok { part_index := current_element.part_index + 1, element_offset := 0 }

/-- Source: `ElementInfo previous_element(ElementInfo const& current_element) const`. -/
def previous_element (p : partial_vector ElementT) (current_element : ElementInfo) :
    Run ElementT ElementInfo :=
  if current_element.element_offset > 0 then
    Except.ok { part_index := current_element.part_index,
                element_offset := current_element.element_offset - 1 }
  else
    match vec_at p.parts (u32_sub current_element.part_index 1) with
    | Except.error e => Except.error e
    | Except.ok part =>
      Except.ok { part_index := u32_sub current_element.part_index 1,
                  element_offset := u32_sub part.length 1 }

/-- Source: `iterator begin() noexcept`. -/
def begin_ (_p : partial_vector ElementT) : iterator :=
  { elem_info := { part_index := 0, element_offset := 0 }, elem_index := 0 }

/-- Source: `iterator end() noexcept`. -/
def end_ (p : partial_vector ElementT) : Run ElementT iterator :=
  match vec_at p.parts (u32_sub p.part_count 1) with
  | Except.error e => Except.error e
  | Except.ok part =>
    Except.ok { elem_info := { part_index := u32_sub p.part_count 1, element_offset := part.length },
                elem_index := p.size }

/-- Source: `ElementT& iterator::operator*()`. -/
def iterator_deref (p : partial_vector ElementT) (it : iterator) : Run ElementT ElementT :=
  match vec_at p.parts it.elem_info.part_index with
  | Except.error e => Except.error e
  | Except.ok part => vec_at part it.elem_info.element_offset

/-- Source: `iterator iterator::operator+(uint64_t n) const`. -/
def iterator_add (p : partial_vector ElementT) (it : iterator) (n : Nat) :
    Run ElementT (iterator × partial_vector ElementT) :=
  match find_element p (it.elem_index + n) with
  | Except.error e => Except.error e
  | Except.ok (info, p) => Except.ok ({ elem_info := info, elem_index := it.elem_index + n }, p)

/-- Source: `iterator iterator::operator-(uint64_t n) const`. -/
def iterator_sub (p : partial_vector ElementT) (it : iterator) (n : Nat) :
    Run ElementT (iterator × partial_vector ElementT) :=
  match find_element p (u64_sub it.elem_index n) with
  | Except.error e => Except.error e
  | Except.ok (info, p) => Except.ok ({ elem_info := info, elem_index := u64_sub it.elem_index n }, p)

/-- Source: `iterator& iterator::operator++()`. -/
def iterator_inc (p : partial_vector ElementT) (it : iterator) : Run ElementT iterator :=
  match next_element p it.elem_info with
  | Except.error e => Except.error e
  | Except.ok info => Except.ok { elem_info := info, elem_index := it.elem_index + 1 }

/-- Source: `iterator& iterator::operator--()`. -/
def iterator_dec (p : partial_vector ElementT) (it : iterator) : Run ElementT iterator :=
  match previous_element p it.elem_info with
  | Except.error e => Except.error e
  | Except.ok info => Except.ok { elem_info := info, elem_index := u64_sub it.elem_index 1 }

/-- Source: `void reserve(size_t r_size) noexcept`.  The part count
`std::ceil(static_cast<double>(r_size) / max_part_size)` is the rounded-up quotient;
capacities (`part.reserve`, `part_offsets.reserve`) are not part of the state. -/
def reserve (p : partial_vector ElementT) (r_size : Nat) : partial_vector ElementT :=
  let parts_to_reserve := (r_size + p.max_part_size - 1) / p.max_part_size
  { p with parts := vec_resize p.parts parts_to_reserve [] }

/-- Source: `void shrink_to_fit() noexcept`: releases capacity only. -/
def shrink_to_fit (p : partial_vector ElementT) : partial_vector ElementT := p

/-- Source: `void push_back(ElementT element)`. -/
def push_back (p : partial_vector ElementT) (element : ElementT) :
    Run ElementT (partial_vector ElementT) :=
  if p.size = 0 then
    let part_count := 1
    let parts := vec_resize p.parts part_count []
    match vec_at parts 0 with
    | Except.error e => Except.error e
    | Except.ok part =>
      Except.ok { p with part_count := part_count
                         parts := parts.set 0 (part ++ [element])
                         size := p.size + 1 }
  else
    match vec_at p.parts (u32_sub p.part_count 1) with
    | Except.error e => Except.error e
    | Except.ok part =>
      if part.length < p.max_part_size then
        Except.ok { p with parts := p.parts.set (u32_sub p.part_count 1) (part ++ [element])
                           size := p.size + 1 }
      else
        let part_count := p.part_count + 1
        let parts := vec_resize p.parts part_count []
        match vec_at parts (part_count - 1) with
        | Except.error e => Except.error e
        | Except.ok part =>
          Except.ok { p with part_count := part_count
                             parts := parts.set (part_count - 1) (part ++ [element])
                             size := p.size + 1 }

/-- The loop `for (i = 0; i < parts_to_alloc; i++) parts[i].resize(max_part_size)` of
`resize`: `fuel` is `parts_to_alloc - i`. -/
def resize_fill [Inhabited ElementT] (max_part_size : Nat) :
    Nat → Nat → List (List ElementT) → Run ElementT (List (List ElementT))
  | 0, _, parts => Except.ok parts
  | fuel + 1, i, parts =>
    match vec_at parts i with
    | Except.error e => Except.error e
    | Except.ok part =>
      resize_fill max_part_size fuel (i + 1) (parts.set i (vec_resize part max_part_size default))

/-- The loop `while (size_to_alloc > 0)` of `resize`; it ends within `size_to_alloc`
rounds unless `max_part_size` is 0. -/
def resize_append [Inhabited ElementT] (max_part_size : Nat) :
    Nat → Nat → List (List ElementT) → Nat → Run ElementT (List (List ElementT) × Nat)
  | _, 0, parts, part_count => Except.ok (parts, part_count)
  | 0, _ + 1, _, _ => Except.error Fault.diverges
  | fuel + 1, size_to_alloc + 1, parts, part_count =>
    let alloc_size := min (size_to_alloc + 1) max_part_size
    resize_append max_part_size fuel (size_to_alloc + 1 - alloc_size)
      (parts ++ [List.replicate alloc_size default]) (part_count + 1)

/-- The loop `for (int i = part_count - 1; i >= 0; i--)` of `resize`: `n` is `i + 1`. -/
def resize_shrink [Inhabited ElementT] :
    Nat → Nat → List (List ElementT) → Nat → Run ElementT (List (List ElementT) × Nat)
  | 0, _, parts, part_count => Except.ok (parts, part_count)
  | i + 1, size_to_remove, parts, part_count =>
    match vec_at parts i with
    | Except.error e => Except.error e
    | Except.ok part =>
      let part_size := part.length
      if part_size ≤ size_to_remove then
        let size_to_remove := size_to_remove - part_size
        let parts := parts.dropLast
        let part_count := u32_sub part_count 1
        if part_size = size_to_remove then Except.ok (parts, part_count)
        else resize_shrink i size_to_remove parts part_count
      else
        Except.ok (parts.set i (vec_resize part (part_size - size_to_remove) default), part_count)

/-- Source: `void resize(size_t new_size)`. -/
def resize [Inhabited ElementT] (p : partial_vector ElementT) (new_size : Nat) :
    Run ElementT (partial_vector ElementT) :=
  if p.size = new_size then Except.ok p
  else
    let finish (r : List (List ElementT) × Nat) : partial_vector ElementT :=
      { p with parts := r.1
               part_count := r.2
               part_offsets := vec_resize p.part_offsets (min p.part_offsets.length r.2) 0
               size := new_size }
    if new_size = 0 then
      Except.ok (finish (vec_resize p.parts 0 [], 0))
    else if p.size = 0 then
      let parts_to_alloc := new_size / p.max_part_size
      let n_last_part_alloc_size := new_size - parts_to_alloc * p.max_part_size
      let part_count := p.part_count + parts_to_alloc + (if n_last_part_alloc_size = 0 then 0 else 1)
      let parts := vec_resize p.parts part_count []
      match resize_fill p.max_part_size parts_to_alloc 0 parts with
      | Except.error e => Except.error e
      | Except.ok parts =>
        if n_last_part_alloc_size > 0 then
          match vec_at parts (u32_sub part_count 1) with
          | Except.error e => Except.error e
          | Except.ok part =>
            Except.ok (finish (parts.set (u32_sub part_count 1)
              (vec_resize part n_last_part_alloc_size default), part_count))
        else Except.ok (finish (parts, part_count))
    else if new_size > p.size then
      let size_to_alloc := new_size - p.size
      match vec_at p.parts (u32_sub p.part_count 1) with
      | Except.error e => Except.error e
      | Except.ok part =>
        let last_part_size := part.length
        let filled : List (List ElementT) × Nat :=
          if last_part_size < p.max_part_size then
            let alloc_size := min (p.max_part_size - last_part_size) size_to_alloc
            (p.parts.set (u32_sub p.part_count 1) (vec_resize part (last_part_size + alloc_size) default),
              size_to_alloc - alloc_size)
          else (p.parts, size_to_alloc)
        match resize_append p.max_part_size filled.2 filled.2 filled.1 p.part_count with
        | Except.error e => Except.error e
        | Except.ok r => Except.ok (finish r)
    else
      let size_to_remove := p.size - new_size
      match resize_shrink p.part_count size_to_remove p.parts p.part_count with
      | Except.error e => Except.error e
      | Except.ok r => Except.ok (finish r)

/-- Source: `void clear()`. -/
def clear [Inhabited ElementT] (p : partial_vector ElementT) : Run ElementT (partial_vector ElementT) :=
  resize p 0

/-- Source: `void insert(iterator const& position, ElementT element)`. -/
def insert (p : partial_vector ElementT) (position : iterator) (element : ElementT) :
    Run ElementT (partial_vector ElementT) :=
  if position.elem_index = p.size then
    Except.ok { p with parts := p.parts ++ [[element]]
                       part_count := p.part_count + 1
                       size := p.size + 1 }
  else
    let elem_info := position.elem_info
    match vec_at p.parts elem_info.part_index with
    | Except.error e => Except.error e
    | Except.ok part =>
      let made_room : Run ElementT (List (List ElementT) × Nat) :=
        if part.length = p.max_part_size then
          let part_n_index := elem_info.part_index + 1
          match vec_at part (u64_sub part.length 1) with
          | Except.error e => Except.error e
          | Except.ok last =>
            let moved : Run ElementT (List (List ElementT) × Nat) :=
              if part_n_index < p.part_count then
                match vec_at p.parts part_n_index with
                | Except.error e => Except.error e
                | Except.ok part_n =>
                  if part_n.length < p.max_part_size then
                    Except.ok (p.parts.set part_n_index (last :: part_n), p.part_count)
                  else
                    Except.ok (p.parts.take part_n_index ++ [last] :: p.parts.drop part_n_index,
                      p.part_count + 1)
              else
                Except.ok (p.parts.take part_n_index ++ [last] :: p.parts.drop part_n_index,
                  p.part_count + 1)
            match moved with
            | Except.error e => Except.error e
            | Except.ok (parts, part_count) =>
              match vec_at parts elem_info.part_index with
              | Except.error e => Except.error e
              | Except.ok part_t =>
                match vec_erase part_t (u64_sub part_t.length 1) with
                | Except.error e => Except.error e
                | Except.ok part_t => Except.ok (parts.set elem_info.part_index part_t, part_count)
        else Except.ok (p.parts, p.part_count)
      match made_room with
      | Except.error e => Except.error e
      | Except.ok (parts, part_count) =>
        match vec_at parts elem_info.part_index with
        | Except.error e => Except.error e
        | Except.ok part_t =>
          match vec_insert part_t elem_info.element_offset element with
          | Except.error e => Except.error e
          | Except.ok part_t =>
            Except.ok { p with parts := parts.set elem_info.part_index part_t
                               part_count := part_count
                               part_offsets := vec_resize p.part_offsets (elem_info.part_index + 1) 0
                               size := p.size + 1 }

/-- Source: `void remove(size_t index)`. -/
def remove (p : partial_vector ElementT) (index : Nat) : Run ElementT (partial_vector ElementT) :=
  if index ≥ p.size then Except.error (Fault.runtime_error p)
  else
    match find_element p index with
    | Except.error e => Except.error e
    | Except.ok (elem_info, p) =>
      match vec_at p.parts elem_info.part_index with
      | Except.error e => Except.error e
      | Except.ok part =>
        match vec_erase part elem_info.element_offset with
        | Except.error e => Except.error e
        | Except.ok part =>
          let parts :=
            if part.isEmpty then p.parts.eraseIdx elem_info.part_index
            else p.parts.set elem_info.part_index part
          Except.ok { p with parts := parts
                             part_offsets := vec_resize p.part_offsets (elem_info.part_index + 1) 0
                             size := u64_sub p.size 1 }

def SIZE_MAX : Nat := 18446744073709551615

/-- Source: `std::copy(first, last, element_output)` into the caller's storage `output`, of
which `pos` elements precede `element_output`: writing past the storage is undefined. -/
def std_copy {σ β : Type} (src : List β) (output : List β) (pos : Nat) : Except (Fault σ) (List β) :=
  if pos + src.length ≤ output.length then
    Except.ok (output.take pos ++ src ++ output.drop (pos + src.length))
  else Except.error Fault.undefined

/-- The loop `for (uint32_t i = start_elem_info.part_index; i < part_count; i++)` of
`get_contiguous_data`: `fuel` is `part_count - i`, `pos` is `element_output - output`. -/
def get_contiguous_data_loop (parts : List (List ElementT)) (start_elem_info : ElementInfo) :
    Nat → Nat → List ElementT → Nat → Nat → Run ElementT (List ElementT)
  | 0, _, output, _, _ => Except.ok output
  | fuel + 1, i, output, pos, size_to_read =>
    match vec_at parts i with
    | Except.error e => Except.error e
    | Except.ok part =>
      let elem_index := if i = start_elem_info.part_index then start_elem_info.element_offset else 0
      let elem_count := min (u64_sub part.length elem_index) size_to_read
      if elem_index + elem_count ≤ part.length then
        match std_copy ((part.drop elem_index).take elem_count) output pos with
        | Except.error e => Except.error e
        | Except.ok output =>
          get_contiguous_data_loop parts start_elem_info fuel (i + 1) output (pos + elem_count)
            (size_to_read - elem_count)
      else Except.error Fault.undefined

/-- Source: `void get_contiguous_data(void* output, size_t start_index, size_t count) const`:
`output` is the caller's storage, returned as the call leaves it. -/
def get_contiguous_data (p : partial_vector ElementT) (output : List ElementT)
    (start_index count : Nat) : Run ElementT (List ElementT × partial_vector ElementT) :=
  if start_index ≥ p.size then Except.error (Fault.runtime_error p)
  else
    let count := min count (p.size - start_index)
    let size_to_read := count
    match find_element p start_index with
    | Except.error e => Except.error e
    | Except.ok (start_elem_info, p) =>
      match get_contiguous_data_loop p.parts start_elem_info
          (p.part_count - start_elem_info.part_index) start_elem_info.part_index output 0
          size_to_read with
      | Except.error e => Except.error e
      | Except.ok output => Except.ok (output, p)

/-- Source: `void get_contiguous_data(void* output) const`. -/
def get_contiguous_data_all (p : partial_vector ElementT) (output : List ElementT) :
    Run ElementT (List ElementT × partial_vector ElementT) :=
  get_contiguous_data p output 0 SIZE_MAX

/-- Source: `std::vector<ElementT> to_vector(size_t start_index, size_t count = SIZE_MAX) const`. -/
def to_vector [Inhabited ElementT] (p : partial_vector ElementT) (start_index : Nat)
    (count : Nat) : Run ElementT (List ElementT × partial_vector ElementT) :=
  if start_index ≥ p.size then Except.error (Fault.runtime_error p)
  else
    let count := min count (p.size - start_index)
    let data := vec_resize ([] : List ElementT) count default
    get_contiguous_data p data start_index count

/-- Source: `ElementT& operator[](size_t index)`, assigned through the returned reference
(`v[index] = value`). -/
def operator_index_assign (p : partial_vector ElementT) (index : Nat) (value : ElementT) :
    Run ElementT (partial_vector ElementT) :=
  if index ≥ p.size then Except.error (Fault.runtime_error p)
  else
    match find_element p index with
    | Except.error e => Except.error e
    | Except.ok (elem_info, p) =>
      match vec_at p.parts elem_info.part_index with
      | Except.error e => Except.error e
      | Except.ok part =>
        match vec_set part elem_info.element_offset value with
        | Except.error e => Except.error e
        | Except.ok part => Except.ok { p with parts := p.parts.set elem_info.part_index part }

/-- Source: `std::vector<ElementT> to_vector() const`. -/
def to_vector_all [Inhabited ElementT] (p : partial_vector ElementT) :
    Run ElementT (List ElementT × partial_vector ElementT) :=
  to_vector p 0 SIZE_MAX

/-- Source: `size_t get_size() const noexcept`. -/
def get_size (p : partial_vector ElementT) : Nat := p.size

/-- Source: `uint32_t get_part_count() const noexcept`. -/
def get_part_count (p : partial_vector ElementT) : Nat := p.part_count

/-- The loop `for (auto const& element : vector) push_back(element)`. -/
def push_back_each (p : partial_vector ElementT) : List ElementT → Run ElementT (partial_vector ElementT)
  | [] => Except.ok p
  | element :: rest =>
    match push_back p element with
    | Except.error e => Except.error e
    | Except.ok p => push_back_each p rest

/-- Source: `explicit partial_vector(size_t size = 0)`. -/
def new_sized [Inhabited ElementT] (sizeof_ElementT : Nat) (size : Nat) :
    Run ElementT (partial_vector ElementT) :=
  resize (init sizeof_ElementT) size

/-- Source: `explicit partial_vector(std::vector<ElementT> const& vector)`. -/
def new_from_vector (sizeof_ElementT : Nat) (vector : List ElementT) :
    Run ElementT (partial_vector ElementT) :=
  push_back_each (reserve (init sizeof_ElementT) vector.length) vector

/-- Source: `partial_vector(size_t size, ElementT init_value)`. -/
def new_filled (sizeof_ElementT : Nat) (size : Nat) (init_value : ElementT) :
    Run ElementT (partial_vector ElementT) :=
  push_back_each (reserve (init sizeof_ElementT) size) (List.replicate size init_value)

/-- The loop `for (IteratorT iter = first; iter < last; iter++) push_back(*iter)` over the
cursors `first`, `last` into the sequence `range`: `fuel` is `last - iter`. -/
def push_back_range (range : List ElementT) :
    Nat → Nat → partial_vector ElementT → Run ElementT (partial_vector ElementT)
  | 0, _, p => Except.ok p
  | fuel + 1, iter, p =>
    match vec_at range iter with
    | Except.error e => Except.error e
    | Except.ok element =>
      match push_back p element with
      | Except.error e => Except.error e
      | Except.ok p => push_back_range range fuel (iter + 1) p

/-- Source: `partial_vector(IteratorT first, IteratorT last)`, the cursors being positions in
the sequence `range`. -/
def new_from_range (sizeof_ElementT : Nat) (range : List ElementT) (first last : Nat) :
    Run ElementT (partial_vector ElementT) :=
  push_back_range range (last - first) first (reserve (init sizeof_ElementT) (u64_sub last first))

/-- Source: `explicit partial_vector(partial_vector<ElementT> const& another)`. -/
def new_copy (another : partial_vector ElementT) : partial_vector ElementT :=
  { max_part_size := another.max_part_size
    parts := another.parts
    size := another.size
    part_count := another.part_count
    part_offsets := another.part_offsets }

end partial_vector

namespace partial_vector

variable {ElementT : Type}

/-! ## Specification vocabulary -/

/-- The total length of parts `[0, i)`. -/
def part_offset (parts : List (List ElementT)) (i : Nat) : Nat :=
  ((parts.take i).map List.length).sum

/-- The logical contents: the concatenation of the parts. -/
def contents (p : partial_vector ElementT) : List ElementT := p.parts.flatten

/-- Every present offset-cache entry `i` is the total length of parts `[0, i)`, a range
of stored parts. -/
def cache_valid (parts : List (List ElementT)) (part_offsets : List Nat) : Prop :=
  ∀ i, i < part_offsets.length → i ≤ parts.length ∧ part_offsets[i]? = some (part_offset parts i)

/-- The location `info` is the element at global index `index`. -/
def located (parts : List (List ElementT)) (info : ElementInfo) (index : Nat) : Prop :=
  ∃ part, parts[info.part_index]? = some part ∧ info.element_offset < part.length ∧
    part_offset parts info.part_index + info.element_offset = index

/-- A well-formed container: `part_count` is the number of stored parts, the part
lengths sum to `size`, and the offset cache holds true prefix sums. -/
def well_formed (p : partial_vector ElementT) : Prop :=
  p.part_count = p.parts.length ∧ part_offset p.parts p.parts.length = p.size ∧
    cache_valid p.parts p.part_offsets

/-- What index resolution needs: the loops bounded by `part_count` cover the stored
parts, the part lengths sum to `size`, and the offset cache holds true prefix sums. -/
def resolvable (p : partial_vector ElementT) : Prop :=
  p.parts.length ≤ p.part_count ∧ part_offset p.parts p.parts.length = p.size ∧
    cache_valid p.parts p.part_offsets

/-- The loop `for (i = 0; i < n; i++) v.remove(0)` of the drain test. -/
def remove_first_each (p : partial_vector ElementT) : Nat → Run ElementT (partial_vector ElementT)
  | 0 => Except.ok p
  | n + 1 =>
    match remove p 0 with
    | Except.error e => Except.error e
    | Except.ok p => remove_first_each p n

/-- The loop `for (i = 0; i < n; i++) v.insert(v.begin(), x_i)` of the front-insertion
test, the inserted values being listed in `xs`. -/
def insert_front_each (p : partial_vector ElementT) : List ElementT → Run ElementT (partial_vector ElementT)
  | [] => Except.ok p
  | x :: xs =>
    match insert p (begin_ p) x with
    | Except.error e => Except.error e
    | Except.ok p => insert_front_each p xs

/-- A container on which `insert(begin(), x)` inserts at the front: it is well formed
and its first part, when it has one, is not empty, so that `begin()` holds the true
location of element 0. -/
def front_insertable (p : partial_vector ElementT) : Prop :=
  p.part_count = p.parts.length ∧ part_offset p.parts p.parts.length = p.size ∧
    cache_valid p.parts p.part_offsets ∧ ∀ part, p.parts[0]? = some part → part ≠ []

/-- Source: the constraint `sizeof(ElementT) <= PARTIAL_VECTOR_PART_MAX_BYTE_SIZE / 2` in the
`enable_if` of the class template ("Minimum 2 elements per part"). -/
def element_type_accepted (sizeof_ElementT : Nat) : Prop :=
  sizeof_ElementT ≤ PARTIAL_VECTOR_PART_MAX_BYTE_SIZE / 2

/-- Every part holds between 1 and `mx` elements, and every part but the last holds
exactly `mx`. -/
def packed (mx : Nat) (parts : List (List ElementT)) : Prop :=
  ∀ i part, parts[i]? = some part →
    1 ≤ part.length ∧ part.length ≤ mx ∧ (i + 1 < parts.length → part.length = mx)

/-- The part layout of a container of `n` elements filled from the front: the rounded-up
quotient of `n` by `mx` parts, all of `mx` elements but the last, which holds the rest. -/
def part_layout (q : partial_vector ElementT) (n mx : Nat) : Prop :=
  get_part_count q = (n + mx - 1) / mx ∧ q.parts.length = get_part_count q ∧
    ∀ i part, q.parts[i]? = some part →
      (i + 1 < get_part_count q → part.length = mx) ∧
      (i + 1 = get_part_count q → part.length = n - i * mx)

/-! ## Example containers -/

/-- A container with three parts, the second longer than `index / max_part_size`
suggests, and a full offset cache: the estimate overshoots and the backward scan runs. -/
def C1_example : partial_vector Nat :=
  { max_part_size := 2, parts := [[10, 11, 12, 13, 14], [15], [16]], size := 7, part_count := 3,
    part_offsets := [0, 5, 6] }

/-- The container built from the one-element sequence `[1]` with 8192-byte elements
(two elements per part): its only part has room for one more element. -/
def C9_example : partial_vector Nat :=
  { max_part_size := 2, parts := [[1]], size := 1, part_count := 1, part_offsets := [] }

/-- The container built from the sequence `[0, 1, 2, 3]` with 8192-byte elements (two
elements per part): two full parts and an empty offset cache. -/
def C8_example : partial_vector Nat :=
  { max_part_size := 2, parts := [[0, 1], [2, 3]], size := 4, part_count := 2, part_offsets := [] }

/-- The container `C8_example` after `insert(pos, 9)` at the position reached from
`begin()` by two `++`: the offset cache has been resized from length 0 to length 2. -/
def C8_after_insert : partial_vector Nat :=
  { max_part_size := 2, parts := [[0, 1], [9, 2], [3]], size := 5, part_count := 3,
    part_offsets := [0, 0] }

/-- The container built by `push_back` of 1, 2, 3, 4, 5, 6 with 8192-byte elements (two
elements per part): three full parts. -/
def C11_example : partial_vector Nat :=
  { max_part_size := 2, parts := [[1, 2], [3, 4], [5, 6]], size := 6, part_count := 3,
    part_offsets := [] }

/-- The container `C11_example` after `resize(2)`: the size is 2, the parts hold four
elements. -/
def C11_after_shrink : partial_vector Nat :=
  { max_part_size := 2, parts := [[1, 2], [3, 4]], size := 2, part_count := 2,
    part_offsets := [] }

/-- The container `C11_after_shrink` after `resize(3)`. -/
def C11_after_grow : partial_vector Nat :=
  { max_part_size := 2, parts := [[1, 2], [3, 4], [0]], size := 3, part_count := 3,
    part_offsets := [] }

/-- The container built by `partial_vector(3)` with 8192-byte elements and the writes
`v[i] = i` for i = 0, 1, 2. -/
def C12_example : partial_vector Nat :=
  { max_part_size := 2, parts := [[0, 1], [2]], size := 3, part_count := 2,
    part_offsets := [0, 2] }

/-- The container built by `push_back` of 1, 2, 3 with 8192-byte elements: the last
part holds one element. -/
def C20_example : partial_vector Nat :=
  { max_part_size := 2, parts := [[1, 2], [3]], size := 3, part_count := 2,
    part_offsets := [] }

/-- The container `C11_after_shrink` after two calls of `remove(0)`: the size is 0, one
full part is still stored. -/
def C14_after_removes : partial_vector Nat :=
  { max_part_size := 2, parts := [[3, 4]], size := 0, part_count := 2, part_offsets := [0] }

/-- The container `C14_after_removes` after `push_back(7)`. -/
def C14_after_push_back : partial_vector Nat :=
  { max_part_size := 2, parts := [[3, 4, 7]], size := 1, part_count := 1, part_offsets := [0] }

/-- The container built by `push_back(1)` and drained by `remove(0)`, with 8192-byte
elements: no part is stored, `part_count` is still 1. -/
def C15_drained : partial_vector Nat :=
  { max_part_size := 2, parts := [], size := 0, part_count := 1, part_offsets := [0] }

/-- The container `C15_drained` after `resize(1)`. -/
def C15_after_resize : partial_vector Nat :=
  { max_part_size := 2, parts := [[], [0]], size := 1, part_count := 2, part_offsets := [0] }

/-- The container `C20_example` after `remove(2)`. -/
def C20_after_remove : partial_vector Nat :=
  { max_part_size := 2, parts := [[1, 2]], size := 2, part_count := 2, part_offsets := [0, 2] }

/-- A well-formed container with a full part followed by a part with room, and a full
last part. -/
def C21_example : partial_vector Nat :=
  { max_part_size := 2, parts := [[1, 2], [3], [4, 5]], size := 5, part_count := 3,
    part_offsets := [] }

/-- The container `C20_example` after `reserve(8)`: four parts are stored, two of them
reserved and empty, and `part_count` is still 2. -/
def C23_reserved : partial_vector Nat :=
  { max_part_size := 2, parts := [[1, 2], [3], [], []], size := 3, part_count := 2,
    part_offsets := [] }

/-- The container `C23_reserved` after `resize(5)`. -/
def C23_after_resize : partial_vector Nat :=
  { max_part_size := 2, parts := [[1, 2], [3, 0], [], [], [0]], size := 5, part_count := 3,
    part_offsets := [] }

/-- The container `C23_reserved` after `insert(end(), 9)`. -/
def C23_after_insert : partial_vector Nat :=
  { max_part_size := 2, parts := [[1, 2], [3], [], [], [9]], size := 4, part_count := 3,
    part_offsets := [] }

/-- The default-constructed container after `reserve(10)` and `insert(begin(), 1)`, with
8192-byte elements: the element lies behind the five reserved empty parts. -/
def C7_after_insert : partial_vector Nat :=
  { max_part_size := 2, parts := [[], [], [], [], [], [1]], size := 1, part_count := 1,
    part_offsets := [] }

/-- The container `C15_drained` after `insert(begin(), 0)` and `insert(begin(), 1)`. -/
def C7_drained_refilled : partial_vector Nat :=
  { max_part_size := 2, parts := [[1, 0]], size := 2, part_count := 2, part_offsets := [0] }

end partial_vector

namespace partial_vector

variable {ElementT : Type}

/-! ## Prefix sums and the concatenation -/

theorem part_offset_zero (parts : List (List ElementT)) : part_offset parts 0 = 0 := by
  simp [part_offset]

theorem part_offset_succ (parts : List (List ElementT)) (i : Nat) (part : List ElementT)
    (h : parts[i]? = some part) : part_offset parts (i + 1) = part_offset parts i + part.length := by
  simp [part_offset, List.take_succ, h]

theorem part_offset_of_length_le (parts : List (List ElementT)) (i : Nat)
    (h : parts.length ≤ i) : part_offset parts i = part_offset parts parts.length := by
  simp [part_offset, List.take_of_length_le h]

theorem part_offset_total (parts : List (List ElementT)) :
    part_offset parts parts.length = parts.flatten.length := by
  simp [part_offset, List.length_flatten]

theorem part_offset_mono (parts : List (List ElementT)) (i j : Nat) (h : i ≤ j) :
    part_offset parts i ≤ part_offset parts j := by
  induction j with
  | zero => simp [Nat.le_zero.mp h]
  | succ j ih =>
    rcases Nat.lt_or_ge i (j + 1) with h1 | h1
    · have h2 := ih (Nat.lt_succ_iff.mp h1)
      rcases hj : parts[j]? with _ | part
      · have hl : parts.length ≤ j := List.getElem?_eq_none_iff.mp hj
        rw [part_offset_of_length_le parts (j + 1) (by omega)]
        rw [part_offset_of_length_le parts j hl] at h2
        exact h2
      · rw [part_offset_succ parts j part hj]; omega
    · have : i = j + 1 := by omega
      subst this; exact Nat.le_refl _

theorem flatten_getElem?_part_offset (parts : List (List ElementT)) (i o : Nat)
    (part : List ElementT) (h : parts[i]? = some part) (ho : o < part.length) :
    parts.flatten[part_offset parts i + o]? = part[o]? := by
  induction parts generalizing i with
  | nil => simp at h
  | cons hd tl ih =>
    cases i with
    | zero =>
      simp at h
      subst h
      simp [part_offset, List.getElem?_append_left ho]
    | succ i =>
      simp at h
      have := ih i h
      simp only [part_offset, List.take_succ_cons, List.map_cons, List.sum_cons,
        List.flatten_cons] at this ⊢
      rw [List.getElem?_append_right (by omega)]
      rw [← this]
      congr 1
      omega

/-! ## Index resolution -/

theorem cache_valid_append (parts : List (List ElementT)) (cache : List Nat)
    (h : cache_valid parts cache) (hl : cache.length ≤ parts.length) :
    cache_valid parts (cache ++ [part_offset parts cache.length]) := by
  intro i hi
  simp at hi
  rcases Nat.lt_or_ge i cache.length with h1 | h1
  · have := h i h1
    refine ⟨this.1, ?_⟩
    rw [List.getElem?_append_left h1]
    exact this.2
  · have : i = cache.length := by omega
    subst this
    exact ⟨hl, by simp⟩

theorem find_element_forward_spec (parts : List (List ElementT)) (index : Nat) :
    ∀ (fuel i : Nat) (cache : List Nat),
      parts.length ≤ fuel + i → part_offset parts i ≤ index →
      index < part_offset parts parts.length → cache_valid parts cache → i ≤ cache.length →
      ∃ info cache2,
        find_element_forward parts index fuel i (part_offset parts i) cache = Except.ok (info, cache2) ∧
        located parts info index ∧ cache_valid parts cache2 ∧
        info.part_index < cache2.length ∧ i ≤ info.part_index := by
  intro fuel
  induction fuel with
  | zero =>
    intro i cache h1 h2 h3 _ _
    exfalso
    have := part_offset_of_length_le parts i (by omega)
    omega
  | succ fuel ih =>
    intro i cache h1 h2 h3 h4 h5
    have hi : i < parts.length := by
      by_contra hc
      have := part_offset_of_length_le parts i (by omega)
      omega
    have hget : parts[i]? = some parts[i] := List.getElem?_eq_getElem hi
    have hsucc := part_offset_succ parts i parts[i] hget
    have hc2 : cache_valid parts
        (if i ≥ cache.length then cache ++ [part_offset parts i] else cache) ∧
        i < (if i ≥ cache.length then cache ++ [part_offset parts i] else cache).length := by
      by_cases hge : i ≥ cache.length
      · have he : i = cache.length := by omega
        simp only [hge, if_true]
        subst he
        exact ⟨cache_valid_append parts cache h4 (by omega), by simp⟩
      · simp only [hge, if_false]
        exact ⟨h4, by omega⟩
    simp only [find_element_forward, hget]
    by_cases hfound : index ≥ part_offset parts i ∧ index < part_offset parts i + parts[i].length
    · rw [if_pos hfound]
      refine ⟨_, _, rfl, ⟨parts[i], hget, ?_, ?_⟩, hc2.1, hc2.2, Nat.le_refl _⟩
      · show index - part_offset parts i < parts[i].length
        omega
      · show part_offset parts i + (index - part_offset parts i) = index
        omega
    · rw [if_neg hfound]
      rw [← hsucc]
      obtain ⟨info, cache2, e, hl, hv, hlt, hle⟩ :=
        ih (i + 1) _ (by omega) (by omega) h3 hc2.1 hc2.2
      exact ⟨info, cache2, e, hl, hv, hlt, by omega⟩

theorem find_element_backward_spec (parts : List (List ElementT)) (index : Nat) :
    ∀ (n : Nat), n ≤ parts.length → index < part_offset parts n →
      ∃ info, find_element_backward parts index n (part_offset parts n) = Except.ok info ∧
        located parts info index ∧ info.part_index < n := by
  intro n
  induction n with
  | zero =>
    intro _ h
    simp [part_offset_zero] at h
  | succ n ih =>
    intro hn h
    have hi : n < parts.length := by omega
    have hget : parts[n]? = some parts[n] := List.getElem?_eq_getElem hi
    have hsucc := part_offset_succ parts n parts[n] hget
    have hsub : u64_sub (part_offset parts (n + 1)) parts[n].length = part_offset parts n := by
      unfold u64_sub
      rw [if_pos (by omega)]
      omega
    simp only [find_element_backward, hget, hsub]
    by_cases hfound : index ≥ part_offset parts n ∧ index < part_offset parts n + parts[n].length
    · rw [if_pos hfound]
      refine ⟨_, rfl, ⟨parts[n], hget, ?_, ?_⟩, Nat.lt_succ_self n⟩
      · show index - part_offset parts n < parts[n].length
        omega
      · show part_offset parts n + (index - part_offset parts n) = index
        omega
    · rw [if_neg hfound]
      obtain ⟨info, e, hl, hlt⟩ := ih (by omega) (by omega)
      exact ⟨info, e, hl, by omega⟩

/-- On a resolvable container `find_element` returns the true location of every
index below `size`; it changes nothing but the offset cache, which stays valid and
afterwards covers the part found. -/
theorem find_element_spec (p : partial_vector ElementT) (index : Nat)
    (hp : resolvable p) (hi : index < p.size) :
    ∃ info cache2,
      find_element p index = Except.ok (info, { p with part_offsets := cache2 }) ∧
      located p.parts info index ∧ cache_valid p.parts cache2 ∧
      info.part_index < cache2.length := by
  obtain ⟨hcount, hsum, hcache⟩ := hp
  unfold find_element
  generalize hest : (if p.part_offsets.length = 0 then 0
    else min (p.part_offsets.length - 1) (index / p.max_part_size)) = est
  have hest_le : est ≤ p.part_offsets.length := by
    rw [← hest]; split <;> omega
  have hest_lt : est ≠ 0 → est < p.part_offsets.length := by
    rw [← hest]; split <;> omega
  have hoff : (if est = 0 then some 0 else p.part_offsets[est]?) = some (part_offset p.parts est) := by
    by_cases h0 : est = 0
    · simp [h0, part_offset_zero]
    · rw [if_neg h0]
      exact (hcache est (hest_lt h0)).2
  simp only [hoff]
  by_cases hover : part_offset p.parts est > index
  · rw [if_pos hover]
    have hne : est ≠ 0 := by
      intro h0
      rw [h0, part_offset_zero] at hover
      omega
    obtain ⟨info, e, hl, hlt⟩ :=
      find_element_backward_spec p.parts index est (hcache est (hest_lt hne)).1 hover
    rw [e]
    exact ⟨info, p.part_offsets, rfl, hl, hcache, by have := hest_lt hne; omega⟩
  · rw [if_neg hover]
    obtain ⟨info, cache2, e, hl, hv, hlt, _⟩ :=
      find_element_forward_spec p.parts index (p.part_count - est) est p.part_offsets
        (by omega) (by omega) (by omega) hcache hest_le
    rw [e]
    exact ⟨info, cache2, rfl, hl, hv, hlt⟩

theorem well_formed_resolvable {p : partial_vector ElementT} (h : well_formed p) : resolvable p :=
  ⟨Nat.le_of_eq h.1.symm, h.2.1, h.2.2⟩

theorem located_contents (parts : List (List ElementT)) (info : ElementInfo) (index : Nat)
    (h : located parts info index) :
    ∃ part x, parts[info.part_index]? = some part ∧ part[info.element_offset]? = some x ∧
      parts.flatten[index]? = some x := by
  obtain ⟨part, hp, ho, hsum⟩ := h
  refine ⟨part, part[info.element_offset], hp, List.getElem?_eq_getElem ho, ?_⟩
  rw [← hsum, flatten_getElem?_part_offset parts _ _ part hp ho]
  exact List.getElem?_eq_getElem ho

/-- On a resolvable container `operator[]` returns the element of the concatenation of
the parts at every index below `size`, and extends the offset cache only. -/
theorem operator_index_spec (p : partial_vector ElementT) (index : Nat)
    (hp : resolvable p) (hi : index < p.size) :
    ∃ x cache2, (contents p)[index]? = some x ∧
      operator_index p index = Except.ok (x, { p with part_offsets := cache2 }) ∧
      cache_valid p.parts cache2 := by
  obtain ⟨info, cache2, e, hl, hv, _⟩ := find_element_spec p index hp hi
  obtain ⟨part, x, h1, h2, h3⟩ := located_contents p.parts info index hl
  refine ⟨x, cache2, h3, ?_, hv⟩
  unfold operator_index
  rw [if_neg (by omega), e]
  simp [vec_at, h1, h2]

/-- The size of a container is the length of its contents. -/
theorem size_eq_length_contents (p : partial_vector ElementT)
    (h : part_offset p.parts p.parts.length = p.size) : p.size = (contents p).length := by
  rw [← h, part_offset_total]; rfl

/-! ## Splitting the concatenation at a part -/

theorem part_offset_eq_length (parts : List (List ElementT)) (i : Nat) :
    part_offset parts i = (parts.take i).flatten.length := by
  simp [part_offset, List.length_flatten]

theorem getElem?_lt_length {β : Type} (l : List β) (i : Nat) (x : β) (h : l[i]? = some x) :
    i < l.length := by
  by_contra hc
  rw [List.getElem?_eq_none_iff.mpr (by omega)] at h
  exact Option.noConfusion h

theorem split_at_part (parts : List (List ElementT)) (i : Nat) (part : List ElementT)
    (h : parts[i]? = some part) :
    parts = parts.take i ++ part :: parts.drop (i + 1) := by
  have hi := getElem?_lt_length parts i part h
  have hx : parts[i] = part := by
    rw [List.getElem?_eq_getElem hi] at h
    exact Option.some.inj h
  rw [← hx, ← List.drop_eq_getElem_cons hi, List.take_append_drop]

theorem flatten_split (parts : List (List ElementT)) (i : Nat) (part : List ElementT)
    (h : parts[i]? = some part) :
    parts.flatten = (parts.take i).flatten ++ part ++ (parts.drop (i + 1)).flatten := by
  conv_lhs => rw [split_at_part parts i part h]
  simp

theorem flatten_set (parts : List (List ElementT)) (i : Nat) (q : List ElementT)
    (h : i < parts.length) :
    (parts.set i q).flatten = (parts.take i).flatten ++ q ++ (parts.drop (i + 1)).flatten := by
  rw [List.set_eq_take_append_cons_drop, if_pos h]
  simp

theorem flatten_eraseIdx (parts : List (List ElementT)) (i : Nat) :
    (parts.eraseIdx i).flatten = (parts.take i).flatten ++ (parts.drop (i + 1)).flatten := by
  rw [List.eraseIdx_eq_take_drop_succ]
  simp

theorem flatten_eq_nil_of_total (parts : List (List ElementT))
    (h : part_offset parts parts.length = 0) : ∀ part ∈ parts, part = [] := by
  rw [part_offset_total] at h
  exact List.flatten_eq_nil_iff.mp (List.length_eq_zero.mp h)

/-! ## push_back -/

/-- On a container whose part lengths sum to `size` and whose `part_count` is the
number of stored parts (or which holds no element at all), `push_back` appends the
element to the contents and leaves `part_count` the number of stored parts. -/
theorem push_back_spec (p : partial_vector ElementT) (x : ElementT)
    (hsum : part_offset p.parts p.parts.length = p.size)
    (hcount : p.size = 0 ∨ p.part_count = p.parts.length) :
    ∃ q, push_back p x = Except.ok q ∧ contents q = contents p ++ [x] ∧
      q.size = p.size + 1 ∧ q.part_count = q.parts.length ∧
      part_offset q.parts q.parts.length = q.size ∧
      q.part_offsets = p.part_offsets ∧ q.max_part_size = p.max_part_size := by
  have key : ∃ q, push_back p x = Except.ok q ∧ contents q = contents p ++ [x] ∧
      q.size = p.size + 1 ∧ q.part_count = q.parts.length ∧
      q.part_offsets = p.part_offsets ∧ q.max_part_size = p.max_part_size := by
    unfold push_back
    by_cases h0 : p.size = 0
    · rw [if_pos h0]
      have hnil := flatten_eq_nil_of_total p.parts (by rw [hsum, h0])
      have hc : contents p = [] := List.flatten_eq_nil_iff.mpr hnil
      rcases hparts : p.parts with _ | ⟨hd, tl⟩
      · simp [vec_resize, vec_at, contents, hparts]
      · have hhd : hd = [] := hnil hd (by simp [hparts])
        subst hhd
        have := hc
        simp only [contents, hparts] at this
        simp [vec_resize, vec_at, contents, hparts]
        simpa using this
    · rw [if_neg h0]
      have hpc : p.part_count = p.parts.length := by
        rcases hcount with h | h
        · exact absurd h h0
        · exact h
      have hne : 0 < p.parts.length := by
        by_contra hc
        have : p.parts = [] := List.length_eq_zero.mp (by omega)
        rw [this] at hsum
        simp [part_offset] at hsum
        omega
      have hsub : u32_sub p.part_count 1 = p.parts.length - 1 := by
        unfold u32_sub
        rw [if_pos (by omega), hpc]
      have hlast : p.parts[p.parts.length - 1]? = some p.parts[p.parts.length - 1] :=
        List.getElem?_eq_getElem (by omega)
      have hdrop : p.parts.drop (p.parts.length - 1 + 1) = [] :=
        List.drop_of_length_le (by omega)
      have hfl := flatten_split p.parts _ _ hlast
      rw [hdrop] at hfl
      simp only [hsub, vec_at, hlast]
      by_cases hroom : p.parts[p.parts.length - 1].length < p.max_part_size
      · rw [if_pos hroom]
        refine ⟨_, rfl, ?_, rfl, ?_, rfl, rfl⟩
        · show (p.parts.set _ _).flatten = p.parts.flatten ++ [x]
          rw [flatten_set p.parts _ _ (by omega), hdrop, hfl]
          simp
        · show p.part_count = (p.parts.set _ _).length
          simp [hpc]
      · rw [if_neg hroom]
        have hres : vec_resize p.parts (p.parts.length + 1) [] = p.parts ++ [[]] := by
          unfold vec_resize
          rw [List.take_of_length_le (by omega)]
          simp
        have hat : (p.parts ++ [([] : List ElementT)])[p.parts.length]? = some [] := by
          rw [List.getElem?_append_right (Nat.le_refl _)]
          simp
        simp only [hpc, hres, Nat.add_sub_cancel, hat]
        refine ⟨_, rfl, ?_, rfl, ?_, rfl, rfl⟩
        · show ((p.parts ++ [[]]).set _ _).flatten = p.parts.flatten ++ [x]
          rw [List.set_append_right _ _ (Nat.le_refl _)]
          simp
        · show p.parts.length + 1 = ((p.parts ++ [[]]).set _ _).length
          simp
  obtain ⟨q, e, hc, hs, hpc, hcache, hmax⟩ := key
  refine ⟨q, e, hc, hs, hpc, ?_, hcache, hmax⟩
  rw [part_offset_total, hs, size_eq_length_contents p hsum]
  show (contents q).length = _
  rw [hc]
  simp

theorem push_back_each_spec (xs : List ElementT) :
    ∀ (p : partial_vector ElementT), part_offset p.parts p.parts.length = p.size →
      (p.size = 0 ∨ p.part_count = p.parts.length) →
      ∃ q, push_back_each p xs = Except.ok q ∧ contents q = contents p ++ xs ∧
        q.size = p.size + xs.length ∧ part_offset q.parts q.parts.length = q.size ∧
        (q.size = 0 ∨ q.part_count = q.parts.length) ∧
        q.part_offsets = p.part_offsets ∧ q.max_part_size = p.max_part_size := by
  induction xs with
  | nil =>
    intro p hsum hcount
    exact ⟨p, rfl, by simp, by simp, hsum, hcount, rfl, rfl⟩
  | cons x xs ih =>
    intro p hsum hcount
    obtain ⟨q, e, hc, hs, hpc, hsum2, hcache, hmax⟩ := push_back_spec p x hsum hcount
    obtain ⟨r, e2, hc2, hs2, hsum3, hpc2, hcache2, hmax2⟩ := ih q hsum2 (Or.inr hpc)
    refine ⟨r, ?_, ?_, ?_, hsum3, hpc2, by rw [hcache2, hcache], by rw [hmax2, hmax]⟩
    · simp only [push_back_each, e]
      exact e2
    · rw [hc2, hc]; simp
    · rw [hs2, hs]; simp; omega

theorem cache_valid_nil (parts : List (List ElementT)) : cache_valid parts [] := by
  intro i hi
  simp at hi

/-- Reads of a container whose `part_count` is the number of its parts (or which is
empty) return the elements of its contents. -/
theorem reads_spec (q : partial_vector ElementT)
    (hsum : part_offset q.parts q.parts.length = q.size)
    (hcount : q.size = 0 ∨ q.part_count = q.parts.length)
    (hcache : cache_valid q.parts q.part_offsets) (i : Nat) (hi : i < q.size) :
    ∃ x c, (contents q)[i]? = some x ∧
      operator_index q i = Except.ok (x, { q with part_offsets := c }) := by
  have hres : resolvable q := by
    refine ⟨?_, hsum, hcache⟩
    rcases hcount with h | h
    · omega
    · omega
  obtain ⟨x, c, h1, h2, _⟩ := operator_index_spec q i hres hi
  exact ⟨x, c, h1, h2⟩

theorem part_offset_replicate_nil (k i : Nat) :
    part_offset (List.replicate k ([] : List ElementT)) i = 0 := by
  simp [part_offset]

theorem reserve_init (sizeof_ElementT r : Nat) :
    ∃ k, (reserve (init sizeof_ElementT) r : partial_vector ElementT) =
      { (init sizeof_ElementT : partial_vector ElementT) with parts := List.replicate k [] } := by
  refine ⟨((r + (init sizeof_ElementT : partial_vector ElementT).max_part_size - 1) /
    (init sizeof_ElementT : partial_vector ElementT).max_part_size), ?_⟩
  simp only [reserve, vec_resize, init, List.take_nil, List.nil_append, List.length_nil,
    Nat.sub_zero]

/-- From a default-constructed container, reserved or not, pushing a sequence yields
a container whose contents are that sequence and whose reads return its elements. -/
theorem push_back_each_from_empty (sizeof_ElementT : Nat) (start : partial_vector ElementT)
    (hstart : ∃ k, start =
      { (init sizeof_ElementT : partial_vector ElementT) with parts := List.replicate k [] })
    (xs : List ElementT) :
    ∃ q, push_back_each start xs = Except.ok q ∧ contents q = xs ∧ q.size = xs.length ∧
      part_offset q.parts q.parts.length = q.size ∧
      (q.size = 0 ∨ q.part_count = q.parts.length) ∧ q.part_offsets = [] ∧
      q.max_part_size = PARTIAL_VECTOR_PART_MAX_BYTE_SIZE / sizeof_ElementT ∧
      ∀ i, i < xs.length → ∃ x c, xs[i]? = some x ∧
        operator_index q i = Except.ok (x, { q with part_offsets := c }) := by
  obtain ⟨k, hk⟩ := hstart
  have hsum : part_offset start.parts start.parts.length = start.size := by
    rw [hk]
    exact part_offset_replicate_nil k _
  have hsize : start.size = 0 := by rw [hk]; rfl
  have hcon : contents start = [] := by rw [hk]; simp [contents]
  obtain ⟨q, e, hc, hs, hsum2, hpc, hcache, hmax⟩ :=
    push_back_each_spec xs start hsum (Or.inl hsize)
  have hcache2 : q.part_offsets = [] := by rw [hcache, hk]; rfl
  have hc2 : contents q = xs := by rw [hc, hcon]; simp
  have hs2 : q.size = xs.length := by rw [hs, hsize]; simp
  refine ⟨q, e, hc2, hs2, hsum2, hpc, hcache2, by rw [hmax, hk]; rfl, ?_⟩
  intro i hi
  have := reads_spec q hsum2 hpc (by rw [hcache2]; exact cache_valid_nil _) i (by omega)
  rw [hc2] at this
  exact this

/-! ## Bulk extraction -/

theorem take_append_min {β : Type} (a r : List β) (n : Nat) :
    (a ++ r).take n = a.take (min a.length n) ++ r.take (n - min a.length n) := by
  rw [List.take_append_eq_append_take]
  congr 1
  · rw [List.take_eq_take]; omega
  · congr 1; omega

theorem std_copy_spec (σ : Type) {β : Type} (src output : List β) (pos : Nat)
    (h : pos + src.length ≤ output.length) :
    ∃ out1, (std_copy src output pos : Except (Fault σ) (List β)) = Except.ok out1 ∧
      out1.length = output.length ∧ out1.take (pos + src.length) = output.take pos ++ src ∧
      ∀ k, out1.drop (pos + src.length + k) = output.drop (pos + src.length + k) := by
  refine ⟨output.take pos ++ src ++ output.drop (pos + src.length), ?_, ?_, ?_, ?_⟩
  · unfold std_copy
    rw [if_pos h]
  · simp; omega
  · have hl : (output.take pos ++ src).length = pos + src.length := by simp; omega
    rw [List.take_left' hl]
  · intro k
    have hl : (output.take pos ++ src).length = pos + src.length := by simp; omega
    rw [List.drop_append_eq_append_drop, hl]
    rw [List.drop_of_length_le (by omega), List.drop_drop]
    have hk : pos + src.length + (pos + src.length + k - (pos + src.length)) =
        pos + src.length + k := by omega
    rw [hk, List.nil_append]

theorem get_contiguous_data_loop_spec (parts : List (List ElementT)) (info : ElementInfo) :
    ∀ (fuel i : Nat) (output : List ElementT) (pos size_to_read e : Nat),
      info.part_index ≤ i → fuel + i = parts.length →
      e = (if i = info.part_index then info.element_offset else 0) →
      (∀ part, parts[i]? = some part → e ≤ part.length) →
      pos + size_to_read ≤ output.length →
      size_to_read ≤ ((parts.drop i).flatten.drop e).length →
      get_contiguous_data_loop parts info fuel i output pos size_to_read =
        Except.ok (output.take pos ++ ((parts.drop i).flatten.drop e).take size_to_read ++
          output.drop (pos + size_to_read)) := by
  intro fuel
  induction fuel with
  | zero =>
    intro i output pos str e _ hlen _ _ _ havail
    have hd : parts.drop i = [] := List.drop_of_length_le (by omega)
    rw [hd] at havail ⊢
    simp at havail
    subst havail
    simp [get_contiguous_data_loop]
  | succ fuel ih =>
    intro i output pos str e hle hlen he hbound hout havail
    have hi : i < parts.length := by omega
    have hget : parts[i]? = some parts[i] := List.getElem?_eq_getElem hi
    have hE := hbound _ hget
    have hdrop : parts.drop i = parts[i] :: parts.drop (i + 1) := List.drop_eq_getElem_cons hi
    have hsub : u64_sub parts[i].length e = parts[i].length - e := by
      unfold u64_sub
      rw [if_pos hE]
    have hflat : (parts.drop i).flatten.drop e = parts[i].drop e ++ (parts.drop (i + 1)).flatten := by
      rw [hdrop, List.flatten_cons, List.drop_append_of_le_length hE]
    rw [hflat] at havail ⊢
    have hal : (parts[i].drop e).length = parts[i].length - e := by simp
    rw [List.length_append, hal] at havail
    obtain ⟨ec, hec⟩ : ∃ ec, ec = min (parts[i].length - e) str := ⟨_, rfl⟩
    have hec1 : ec ≤ str := by omega
    have hec2 : ec ≤ parts[i].length - e := by omega
    have hsl : ((parts[i].drop e).take ec).length = ec := by
      rw [List.length_take, hal]; omega
    obtain ⟨out1, hcopy, hl1, ht1, hd1⟩ :=
      std_copy_spec (partial_vector ElementT) ((parts[i].drop e).take ec) output pos
        (by rw [hsl]; omega)
    rw [hsl] at ht1 hd1
    simp only [get_contiguous_data_loop, vec_at, hget, ← he, hsub, ← hec]
    rw [if_pos (by omega), hcopy]
    simp only
    rw [ih (i + 1) out1 (pos + ec) (str - ec) 0 (by omega) (by omega)
      (by rw [if_neg (by omega)]) (by intro _ _; omega) (by omega)
      (by rw [List.drop_zero]; omega)]
    rw [ht1, take_append_min, hal, ← hec, hd1 (str - ec), List.drop_zero]
    have hps : pos + ec + (str - ec) = pos + str := by omega
    rw [hps]
    simp only [List.append_assoc]

theorem drop_contents_located (parts : List (List ElementT)) (info : ElementInfo) (index : Nat)
    (h : located parts info index) :
    parts.flatten.drop index = (parts.drop info.part_index).flatten.drop info.element_offset := by
  obtain ⟨part, hp, ho, hsum⟩ := h
  have hi := getElem?_lt_length parts _ _ hp
  have hx : parts[info.part_index] = part := by
    rw [List.getElem?_eq_getElem hi] at hp
    exact Option.some.inj hp
  rw [flatten_split parts _ _ hp, ← hsum, part_offset_eq_length, List.append_assoc,
    ← List.drop_drop, List.drop_left, List.drop_eq_getElem_cons hi, hx, List.flatten_cons]

/-- On a well-formed container, `get_contiguous_data` with a start below `size` and
storage large enough for the clamped count writes the elements from `start_index` on
to the front of the storage. -/
theorem get_contiguous_data_spec (p : partial_vector ElementT) (output : List ElementT)
    (start count : Nat) (hp : well_formed p) (hs : start < p.size)
    (hout : min count (p.size - start) ≤ output.length) :
    ∃ cache2, get_contiguous_data p output start count =
        Except.ok (((contents p).drop start).take count ++
          output.drop (min count (p.size - start)), { p with part_offsets := cache2 }) ∧
      cache_valid p.parts cache2 := by
  obtain ⟨info, cache2, e, hl, hv, _⟩ := find_element_spec p start (well_formed_resolvable hp) hs
  have hdc := drop_contents_located p.parts info start hl
  obtain ⟨part, hpart, ho, hsum⟩ := hl
  have hi := getElem?_lt_length p.parts _ _ hpart
  have hlen : ((contents p).drop start).length = p.size - start := by
    rw [List.length_drop, ← size_eq_length_contents p hp.2.1]
  refine ⟨cache2, ?_, hv⟩
  unfold get_contiguous_data
  rw [if_neg (by omega), e]
  simp only
  rw [get_contiguous_data_loop_spec p.parts info (p.part_count - info.part_index)
    info.part_index output 0 (min count (p.size - start)) info.element_offset
    (Nat.le_refl _) (by rw [hp.1]; omega) (by rw [if_pos rfl])
    (by intro q hq; rw [hpart] at hq; rw [← Option.some.inj hq]; omega)
    (by omega) (by rw [← hdc]; show _ ≤ ((contents p).drop start).length; rw [hlen]; omega)]
  rw [← hdc]
  simp only [List.take_zero, List.nil_append, Nat.zero_add]
  have ht : (List.drop start p.parts.flatten).take (min count (p.size - start)) =
      ((contents p).drop start).take count := by
    show (List.drop start (contents p)).take _ = _
    rw [List.take_eq_take, hlen]
    omega
  rw [ht]

/-- On a well-formed container, `to_vector` with a start below `size` returns the
`count` elements from `start_index` on, as many as there are. -/
theorem to_vector_spec [Inhabited ElementT] (p : partial_vector ElementT)
    (start count : Nat) (hp : well_formed p) (hs : start < p.size) :
    ∃ cache2, to_vector p start count =
        Except.ok (((contents p).drop start).take count, { p with part_offsets := cache2 }) ∧
      cache_valid p.parts cache2 := by
  have hlen : ((contents p).drop start).length = p.size - start := by
    rw [List.length_drop, ← size_eq_length_contents p hp.2.1]
  obtain ⟨cache2, e, hv⟩ := get_contiguous_data_spec p
    (vec_resize ([] : List ElementT) (min count (p.size - start)) default) start
    (min count (p.size - start)) hp hs (by simp [vec_resize])
  refine ⟨cache2, ?_, hv⟩
  unfold to_vector
  rw [if_neg (by omega)]
  simp only
  rw [e]
  have h1 : List.drop (min (min count (p.size - start)) (p.size - start))
      (vec_resize ([] : List ElementT) (min count (p.size - start)) default) = [] := by
    apply List.drop_of_length_le
    simp [vec_resize]
  rw [h1, List.append_nil]
  congr 2
  rw [List.take_eq_take, hlen]
  omega

/-! ## Faults other than the bounds error -/

theorem vec_at_fault {σ β : Type} (v : List β) (i : Nat) (e : Fault σ)
    (h : vec_at v i = Except.error e) : e = Fault.undefined := by
  unfold vec_at at h
  split at h
  · exact Except.noConfusion h
  · injection h with h; exact h.symm

theorem vec_erase_fault {σ β : Type} (v : List β) (i : Nat) (e : Fault σ)
    (h : vec_erase v i = Except.error e) : e = Fault.undefined := by
  unfold vec_erase at h
  split at h
  · exact Except.noConfusion h
  · injection h with h; exact h.symm

theorem find_element_backward_fault (parts : List (List ElementT)) (index : Nat) :
    ∀ (n off : Nat) (e : Fault (partial_vector ElementT)),
      find_element_backward parts index n off = Except.error e → e = Fault.undefined := by
  intro n
  induction n with
  | zero => intro off e h; exact Except.noConfusion h
  | succ n ih =>
    intro off e h
    simp only [find_element_backward] at h
    split at h
    · injection h with h; exact h.symm
    · split at h
      · exact Except.noConfusion h
      · exact ih _ e h

theorem find_element_forward_fault (parts : List (List ElementT)) (index : Nat) :
    ∀ (fuel i off : Nat) (cache : List Nat) (e : Fault (partial_vector ElementT)),
      find_element_forward parts index fuel i off cache = Except.error e → e = Fault.undefined := by
  intro fuel
  induction fuel with
  | zero => intro i off cache e h; exact Except.noConfusion h
  | succ fuel ih =>
    intro i off cache e h
    simp only [find_element_forward] at h
    split at h
    · injection h with h; exact h.symm
    · split at h
      · exact Except.noConfusion h
      · exact ih _ _ _ e h

theorem find_element_fault (p : partial_vector ElementT) (index : Nat)
    (e : Fault (partial_vector ElementT)) (h : find_element p index = Except.error e) :
    e = Fault.undefined := by
  unfold find_element at h
  simp only at h
  split at h
  · injection h with h; exact h.symm
  · split at h
    · split at h
      · exact Except.noConfusion h
      · rename_i e2 he
        injection h with h
        subst h
        exact find_element_backward_fault _ _ _ _ _ he
    · split at h
      · exact Except.noConfusion h
      · rename_i e2 he
        injection h with h
        subst h
        exact find_element_forward_fault _ _ _ _ _ _ _ he

theorem operator_index_fault (p : partial_vector ElementT) (index : Nat)
    (e : Fault (partial_vector ElementT)) (hi : index < p.size)
    (h : operator_index p index = Except.error e) : e = Fault.undefined := by
  unfold operator_index at h
  rw [if_neg (by omega)] at h
  split at h
  · rename_i e2 he
    injection h with h
    subst h
    exact find_element_fault _ _ _ he
  · split at h
    · rename_i e2 he
      injection h with h
      subst h
      exact vec_at_fault _ _ _ he
    · split at h
      · rename_i e2 he
        injection h with h
        subst h
        exact vec_at_fault _ _ _ he
      · exact Except.noConfusion h

theorem remove_fault (p : partial_vector ElementT) (index : Nat)
    (e : Fault (partial_vector ElementT)) (hi : index < p.size)
    (h : remove p index = Except.error e) : e = Fault.undefined := by
  unfold remove at h
  rw [if_neg (by omega)] at h
  split at h
  · rename_i e2 he
    injection h with h
    subst h
    exact find_element_fault _ _ _ he
  · split at h
    · rename_i e2 he
      injection h with h
      subst h
      exact vec_at_fault _ _ _ he
    · split at h
      · rename_i e2 he
        injection h with h
        subst h
        exact vec_erase_fault _ _ _ he
      · exact Except.noConfusion h

theorem std_copy_fault {σ β : Type} (src output : List β) (pos : Nat) (e : Fault σ)
    (h : std_copy src output pos = Except.error e) : e = Fault.undefined := by
  unfold std_copy at h
  split at h
  · exact Except.noConfusion h
  · injection h with h; exact h.symm

theorem get_contiguous_data_loop_fault (parts : List (List ElementT)) (info : ElementInfo) :
    ∀ (fuel i : Nat) (output : List ElementT) (pos str : Nat)
      (e : Fault (partial_vector ElementT)),
      get_contiguous_data_loop parts info fuel i output pos str = Except.error e →
      e = Fault.undefined := by
  intro fuel
  induction fuel with
  | zero => intro i output pos str e h; exact Except.noConfusion h
  | succ fuel ih =>
    intro i output pos str e h
    simp only [get_contiguous_data_loop] at h
    split at h
    · rename_i e2 he
      injection h with h
      subst h
      exact vec_at_fault _ _ _ he
    · generalize (if i = info.part_index then info.element_offset else 0) = ei at h
      split at h
      · split at h
        · rename_i e2 he
          injection h with h
          subst h
          exact std_copy_fault _ _ _ _ he
        · exact ih _ _ _ _ e h
      · injection h with h; exact h.symm

theorem get_contiguous_data_fault (p : partial_vector ElementT) (output : List ElementT)
    (start count : Nat) (e : Fault (partial_vector ElementT)) (hi : start < p.size)
    (h : get_contiguous_data p output start count = Except.error e) : e = Fault.undefined := by
  unfold get_contiguous_data at h
  rw [if_neg (by omega)] at h
  simp only at h
  split at h
  · rename_i e2 he
    injection h with h
    subst h
    exact find_element_fault _ _ _ he
  · split at h
    · rename_i e2 he
      injection h with h
      subst h
      exact get_contiguous_data_loop_fault _ _ _ _ _ _ _ _ he
    · exact Except.noConfusion h

theorem to_vector_fault [Inhabited ElementT] (p : partial_vector ElementT)
    (start count : Nat) (e : Fault (partial_vector ElementT)) (hi : start < p.size)
    (h : to_vector p start count = Except.error e) : e = Fault.undefined := by
  unfold to_vector at h
  rw [if_neg (by omega)] at h
  exact get_contiguous_data_fault _ _ _ _ e hi h

/-! ## Construction from a sequence -/

theorem push_back_range_spec (range : List ElementT) :
    ∀ (fuel iter : Nat) (p : partial_vector ElementT), iter + fuel ≤ range.length →
      push_back_range range fuel iter p = push_back_each p ((range.drop iter).take fuel) := by
  intro fuel
  induction fuel with
  | zero => intro iter p _; simp [push_back_range, push_back_each]
  | succ fuel ih =>
    intro iter p h
    have hi : iter < range.length := by omega
    rw [List.drop_eq_getElem_cons hi, List.take_succ_cons]
    simp only [push_back_range, push_back_each, vec_at, List.getElem?_eq_getElem hi]
    cases push_back p range[iter] with
    | error e => rfl
    | ok q => exact ih (iter + 1) q (by omega)

/-! ## remove -/

theorem take_take_append {β : Type} (l r : List β) (i j : Nat) (hj : j ≤ i) (hi : i ≤ l.length) :
    (l.take i ++ r).take j = l.take j := by
  rw [List.take_append_of_le_length (by simp; omega), List.take_take, Nat.min_eq_left hj]

theorem part_offset_set (parts : List (List ElementT)) (i j : Nat) (q : List ElementT)
    (hj : j ≤ i) : part_offset (parts.set i q) j = part_offset parts j := by
  rcases Nat.lt_or_ge i parts.length with hi | hi
  · unfold part_offset
    rw [List.set_eq_take_append_cons_drop, if_pos hi, take_take_append _ _ _ _ hj (by omega)]
  · rw [List.set_eq_of_length_le hi]

theorem part_offset_eraseIdx (parts : List (List ElementT)) (i j : Nat)
    (hj : j ≤ i) : part_offset (parts.eraseIdx i) j = part_offset parts j := by
  rcases Nat.lt_or_ge i parts.length with hi | hi
  · unfold part_offset
    rw [List.eraseIdx_eq_take_drop_succ, take_take_append _ _ _ _ hj (by omega)]
  · rw [List.eraseIdx_of_length_le hi]

theorem cache_valid_take (parts parts2 : List (List ElementT)) (cache : List Nat) (k : Nat)
    (h : cache_valid parts cache) (hk : k < cache.length) (hlen : k ≤ parts2.length)
    (hsame : ∀ j, j ≤ k → part_offset parts2 j = part_offset parts j) :
    cache_valid parts2 (vec_resize cache (k + 1) 0) := by
  have hres : vec_resize cache (k + 1) 0 = cache.take (k + 1) := by
    unfold vec_resize
    rw [Nat.sub_eq_zero_of_le (by omega)]
    simp
  rw [hres]
  intro j hj
  simp at hj
  refine ⟨by omega, ?_⟩
  rw [List.getElem?_take_of_lt (by omega), (h j (by omega)).2, hsame j (by omega)]

/-- On a resolvable container `remove` erases the element at every index below `size`
from the contents and leaves the container resolvable; `part_count` is not changed. -/
theorem remove_spec (p : partial_vector ElementT) (index : Nat)
    (hp : resolvable p) (hi : index < p.size) :
    ∃ q, remove p index = Except.ok q ∧ contents q = (contents p).eraseIdx index ∧
      q.size = p.size - 1 ∧ resolvable q ∧ q.part_count = p.part_count ∧
      q.max_part_size = p.max_part_size := by
  obtain ⟨info, cache2, e, hl, hv, hlt⟩ := find_element_spec p index hp hi
  obtain ⟨part, hpart, ho, hsum⟩ := hl
  have hpi := getElem?_lt_length p.parts _ _ hpart
  have hfl := flatten_split p.parts _ _ hpart
  have hA : ((p.parts.take info.part_index).flatten).length = part_offset p.parts info.part_index :=
    (part_offset_eq_length _ _).symm
  have hsz : p.size = p.parts.flatten.length := size_eq_length_contents p hp.2.1
  -- the contents after the call, whichever way the part is stored back
  have hcon : ∀ parts2 : List (List ElementT),
      parts2 = (if (part.eraseIdx info.element_offset).isEmpty then
          p.parts.eraseIdx info.part_index
        else p.parts.set info.part_index (part.eraseIdx info.element_offset)) →
      parts2.flatten = p.parts.flatten.eraseIdx index ∧
      (∀ j, j ≤ info.part_index → part_offset parts2 j = part_offset p.parts j) ∧
      info.part_index ≤ parts2.length ∧ parts2.length ≤ p.parts.length := by
    intro parts2 h2
    have herase : p.parts.flatten.eraseIdx index =
        (p.parts.take info.part_index).flatten ++ part.eraseIdx info.element_offset ++
          (p.parts.drop (info.part_index + 1)).flatten := by
      conv_lhs => rw [hfl]
      rw [List.append_assoc, List.eraseIdx_append_of_length_le (by omega),
        List.eraseIdx_append_of_lt_length (by omega), List.append_assoc]
      congr 3
      omega
    by_cases hemp : (part.eraseIdx info.element_offset).isEmpty
    · rw [if_pos hemp] at h2
      have hnil : part.eraseIdx info.element_offset = [] := List.isEmpty_iff.mp hemp
      subst h2
      refine ⟨?_, fun j hj => part_offset_eraseIdx _ _ _ hj, ?_, ?_⟩
      · rw [herase, hnil, flatten_eraseIdx]; simp
      · rw [List.length_eraseIdx, if_pos hpi]; omega
      · exact List.length_eraseIdx_le _ _
    · rw [if_neg hemp] at h2
      subst h2
      refine ⟨?_, fun j hj => part_offset_set _ _ _ _ hj, ?_, ?_⟩
      · rw [herase, flatten_set _ _ _ hpi]
      · rw [List.length_set]; omega
      · rw [List.length_set]
  obtain ⟨hc1, hc2, hc3, hc4⟩ := hcon _ rfl
  have hsub : u64_sub p.size 1 = p.size - 1 := by
    unfold u64_sub
    rw [if_pos (by omega)]
  refine ⟨{ p with
      parts := (if (part.eraseIdx info.element_offset).isEmpty then
          p.parts.eraseIdx info.part_index
        else p.parts.set info.part_index (part.eraseIdx info.element_offset))
      part_offsets := vec_resize cache2 (info.part_index + 1) 0
      size := u64_sub p.size 1 }, ?_, hc1, hsub, ⟨?_, ?_, ?_⟩, rfl, rfl⟩
  · unfold remove
    rw [if_neg (by omega), e]
    simp only [vec_at, hpart, vec_erase, if_pos ho]
  · exact Nat.le_trans hc4 hp.1
  · show part_offset _ _ = u64_sub p.size 1
    rw [part_offset_total, hc1, hsub, List.length_eraseIdx, if_pos (by rw [← hsz]; exact hi),
      hsz]
  · exact cache_valid_take p.parts _ cache2 info.part_index hv hlt hc3 hc2

theorem remove_first_each_spec (k : Nat) :
    ∀ (p : partial_vector ElementT), resolvable p → k ≤ p.size →
      ∃ q, remove_first_each p k = Except.ok q ∧ contents q = (contents p).drop k ∧
        q.size = p.size - k ∧ resolvable q := by
  induction k with
  | zero =>
    intro p hp _
    exact ⟨p, rfl, by simp, by simp, hp⟩
  | succ k ih =>
    intro p hp hk
    obtain ⟨q, e, hc, hs, hres, _, _⟩ := remove_spec p 0 hp (by omega)
    obtain ⟨r, e2, hc2, hs2, hres2⟩ := ih q hres (by omega)
    refine ⟨r, ?_, ?_, by omega, hres2⟩
    · simp only [remove_first_each, e]
      exact e2
    · rw [hc2, hc, List.eraseIdx_zero, ← List.drop_one, List.drop_drop, Nat.add_comm]

/-! ## push_back and the part count -/

theorem push_back_part_count (p : partial_vector ElementT) (x : ElementT)
    (hne : p.size ≠ 0) (hpc : p.part_count = p.parts.length)
    (hsum : part_offset p.parts p.parts.length = p.size) :
    ∃ last, p.parts[p.part_count - 1]? = some last ∧
      ∀ q, push_back p x = Except.ok q →
        q.part_count = if last.length < p.max_part_size then p.part_count else p.part_count + 1 := by
  have hpos : 0 < p.parts.length := by
    by_contra hc
    have : p.parts = [] := List.length_eq_zero.mp (by omega)
    rw [this] at hsum
    simp [part_offset] at hsum
    omega
  have hsub : u32_sub p.part_count 1 = p.part_count - 1 := by
    unfold u32_sub
    rw [if_pos (by omega)]
  have hlast : p.parts[p.part_count - 1]? = some p.parts[p.parts.length - 1] := by
    rw [hpc]
    exact List.getElem?_eq_getElem (by omega)
  refine ⟨_, hlast, ?_⟩
  intro q hq
  unfold push_back at hq
  rw [if_neg hne] at hq
  simp only [hsub, vec_at, hlast] at hq
  by_cases hroom : p.parts[p.parts.length - 1].length < p.max_part_size
  · rw [if_pos hroom] at hq ⊢
    rw [← Except.ok.inj hq]
  · rw [if_neg hroom] at hq ⊢
    split at hq
    · exact Except.noConfusion hq
    · rw [← Except.ok.inj hq]

/-! ## insert -/

theorem mid_getElem? {β : Type} (l r : List β) (a : β) : (l ++ a :: r)[l.length]? = some a := by
  rw [List.getElem?_append_right (Nat.le_refl _)]
  simp

theorem mid_set {β : Type} (l r : List β) (a b : β) : (l ++ a :: r).set l.length b = l ++ b :: r := by
  simp

theorem mid_succ_getElem? {β : Type} (l r : List β) (a : β) :
    (l ++ a :: r)[l.length + 1]? = r[0]? := by
  rw [List.getElem?_append_right (by omega)]
  simp

theorem mid_succ_set {β : Type} (l r : List β) (a b : β) :
    (l ++ a :: r).set (l.length + 1) b = l ++ a :: r.set 0 b := by
  rw [List.set_append_right _ _ (by omega)]
  simp

theorem mid_take_succ {β : Type} (l r : List β) (a : β) :
    (l ++ a :: r).take (l.length + 1) = l ++ [a] := by
  rw [List.take_append_eq_append_take]
  simp

theorem mid_drop_succ {β : Type} (l r : List β) (a : β) :
    (l ++ a :: r).drop (l.length + 1) = r := by
  rw [List.drop_append_eq_append_drop]
  simp

theorem insert_last_split {β : Type} (part : List β) (o : Nat) (x last : β)
    (ho : o < part.length) (hlast : part[part.length - 1]? = some last) :
    (part.eraseIdx (part.length - 1)).take o ++ x :: (part.eraseIdx (part.length - 1)).drop o ++ [last] =
      part.take o ++ x :: part.drop o := by
  have hne : part ≠ [] := by intro h; rw [h] at ho; simp at ho
  have hdl : part.eraseIdx (part.length - 1) = part.dropLast := by
    have h1 : part.length - 1 + 1 = part.length := by omega
    exact (List.dropLast_eq_eraseIdx h1).symm
  have hgl : part.getLast hne = last := by
    rw [List.getLast_eq_getElem, ]
    rw [List.getElem?_eq_getElem (by omega)] at hlast
    exact Option.some.inj hlast
  have hpart : part = part.dropLast ++ [last] := by
    rw [← hgl, List.dropLast_append_getLast]
  rw [hdl]
  have hlen : part.dropLast.length = part.length - 1 := List.length_dropLast _
  conv_rhs => rw [hpart]
  rw [List.take_append_of_le_length (by omega), List.drop_append_of_le_length (by omega)]
  simp

/-- The shape of the parts after an interior `insert` at offset `o` of the part `part`
standing between the parts `l` and `r`: the parts before are untouched, and the target
part together with what follows holds the old elements with `x` put before offset `o`. -/
theorem insert_interior_shape (mx size : Nat) (cache : List Nat) (l r : List (List ElementT))
    (part : List ElementT) (o k : Nat) (x : ElementT) (hk : k ≠ size) (ho : o < part.length) :
    ∃ mid rest,
      insert { max_part_size := mx, parts := l ++ part :: r, size := size,
               part_count := (l ++ part :: r).length, part_offsets := cache }
        { elem_info := { part_index := l.length, element_offset := o }, elem_index := k } x =
      Except.ok { max_part_size := mx, parts := l ++ mid :: rest, size := size + 1,
                  part_count := (l ++ mid :: rest).length,
                  part_offsets := vec_resize cache (l.length + 1) 0 } ∧
      mid ++ rest.flatten = (part.take o ++ x :: part.drop o) ++ r.flatten ∧ mid ≠ [] := by
  have hins : ∀ (v : List ElementT), o ≤ v.length →
      (vec_insert v o x : Run ElementT (List ElementT)) = Except.ok (v.take o ++ x :: v.drop o) := by
    intro v hv
    unfold vec_insert
    rw [if_pos hv]
  by_cases hfull : part.length = mx
  · -- the target part is full
    have hlast : part[part.length - 1]? = some part[part.length - 1] :=
      List.getElem?_eq_getElem (by omega)
    have hsub : u64_sub part.length 1 = part.length - 1 := by
      unfold u64_sub
      rw [if_pos (by omega)]
    have herase : (vec_erase part (part.length - 1) : Run ElementT (List ElementT)) =
        Except.ok (part.eraseIdx (part.length - 1)) := by
      unfold vec_erase
      rw [if_pos (by omega)]
    have hel : (part.eraseIdx (part.length - 1)).length = part.length - 1 := by
      rw [List.length_eraseIdx, if_pos (by omega)]
    have hsplit := insert_last_split part o x _ ho hlast
    have hborrow : ∀ (pn : List ElementT) (r2 : List (List ElementT)), r = pn :: r2 →
        pn.length < mx →
        insert { max_part_size := mx, parts := l ++ part :: r, size := size,
                 part_count := (l ++ part :: r).length, part_offsets := cache }
          { elem_info := { part_index := l.length, element_offset := o }, elem_index := k } x =
        Except.ok { max_part_size := mx,
                    parts := l ++ ((part.eraseIdx (part.length - 1)).take o ++
                      x :: (part.eraseIdx (part.length - 1)).drop o) ::
                      (part[part.length - 1] :: pn) :: r2,
                    size := size + 1,
                    part_count := (l ++ part :: r).length,
                    part_offsets := vec_resize cache (l.length + 1) 0 } := by
      intro pn r2 hr hpn
      subst hr
      unfold insert
      rw [if_neg hk]
      simp only [vec_at, mid_getElem?, if_pos hfull, hsub, hlast, mid_succ_getElem?,
        List.getElem?_cons_zero, mid_succ_set, List.set_cons_zero, herase, mid_set]
      rw [if_pos (by simp), if_pos hpn]
      simp only [hsub, herase, mid_getElem?, mid_set]
      rw [hins _ (by omega)]
    have hnew : (r = [] ∨ ∃ pn r2, r = pn :: r2 ∧ ¬ pn.length < mx) →
        insert { max_part_size := mx, parts := l ++ part :: r, size := size,
                 part_count := (l ++ part :: r).length, part_offsets := cache }
          { elem_info := { part_index := l.length, element_offset := o }, elem_index := k } x =
        Except.ok { max_part_size := mx,
                    parts := l ++ ((part.eraseIdx (part.length - 1)).take o ++
                      x :: (part.eraseIdx (part.length - 1)).drop o) ::
                      [part[part.length - 1]] :: r,
                    size := size + 1,
                    part_count := (l ++ part :: r).length + 1,
                    part_offsets := vec_resize cache (l.length + 1) 0 } := by
      intro hr
      have hmoved : (if l.length + 1 < (l ++ part :: r).length then
            match (vec_at (l ++ part :: r) (l.length + 1) : Run ElementT (List ElementT)) with
            | Except.error e => Except.error e
            | Except.ok part_n =>
              if part_n.length < mx then
                (Except.ok ((l ++ part :: r).set (l.length + 1) (part[part.length - 1] :: part_n),
                  (l ++ part :: r).length) : Run ElementT (List (List ElementT) × Nat))
              else
                Except.ok ((l ++ part :: r).take (l.length + 1) ++
                  [part[part.length - 1]] :: (l ++ part :: r).drop (l.length + 1),
                  (l ++ part :: r).length + 1)
          else
            Except.ok ((l ++ part :: r).take (l.length + 1) ++
              [part[part.length - 1]] :: (l ++ part :: r).drop (l.length + 1),
              (l ++ part :: r).length + 1)) =
          Except.ok (l ++ part :: [part[part.length - 1]] :: r, (l ++ part :: r).length + 1) := by
        rcases hr with hr | ⟨pn, r2, hr, hpn⟩
        · subst hr
          rw [if_neg (by simp)]
          simp only [mid_take_succ, mid_drop_succ, List.append_assoc, List.singleton_append]
        · subst hr
          rw [if_pos (by simp)]
          simp only [vec_at, mid_succ_getElem?, List.getElem?_cons_zero, if_neg hpn,
            mid_take_succ, mid_drop_succ, List.append_assoc, List.singleton_append]
      unfold insert
      rw [if_neg hk]
      simp only [vec_at, mid_getElem?, if_pos hfull, hsub, hlast]
      simp only [vec_at] at hmoved
      rw [hmoved]
      simp only [hsub, herase, mid_getElem?, mid_set]
      rw [hins _ (by omega)]
    by_cases hb : ∃ pn r2, r = pn :: r2 ∧ pn.length < mx
    · obtain ⟨pn, r2, hr, hpn⟩ := hb
      refine ⟨(part.eraseIdx (part.length - 1)).take o ++
        x :: (part.eraseIdx (part.length - 1)).drop o, (part[part.length - 1] :: pn) :: r2,
        ?_, ?_, by simp⟩
      · rw [hborrow pn r2 hr hpn]
        congr 1
        simp [hr]
      · rw [← hsplit, hr]
        simp
    · refine ⟨(part.eraseIdx (part.length - 1)).take o ++
        x :: (part.eraseIdx (part.length - 1)).drop o, [part[part.length - 1]] :: r,
        ?_, ?_, by simp⟩
      · rw [hnew ?_]
        · congr 1
          simp
          omega
        · rcases r with _ | ⟨pn, r2⟩
          · exact Or.inl rfl
          · exact Or.inr ⟨pn, r2, rfl, fun h => hb ⟨pn, r2, rfl, h⟩⟩
      · rw [← hsplit]
        simp
  · -- the target part has room
    refine ⟨part.take o ++ x :: part.drop o, r, ?_, rfl, by simp⟩
    unfold insert
    rw [if_neg hk]
    simp only [vec_at, mid_getElem?, if_neg hfull, hins part (by omega), mid_set]
    congr 1
    simp

theorem part_offset_append_left (l r : List (List ElementT)) (j : Nat) (hj : j ≤ l.length) :
    part_offset (l ++ r) j = part_offset l j := by
  unfold part_offset
  rw [List.take_append_of_le_length hj]

/-- An interior `insert` at the true location of the element at `pos.elem_index` puts
`x` before that element.  The parts before the target part are untouched and the
offset cache is resized to cover the target part. -/
theorem insert_interior_spec (p : partial_vector ElementT) (pos : iterator) (x : ElementT)
    (hpc : p.part_count = p.parts.length) (hsum : part_offset p.parts p.parts.length = p.size)
    (hloc : located p.parts pos.elem_info pos.elem_index) :
    ∃ q, insert p pos x = Except.ok q ∧
      contents q = (contents p).take pos.elem_index ++ x :: (contents p).drop pos.elem_index ∧
      q.size = p.size + 1 ∧ q.part_count = q.parts.length ∧
      part_offset q.parts q.parts.length = q.size ∧
      q.part_offsets = vec_resize p.part_offsets (pos.elem_info.part_index + 1) 0 ∧
      q.max_part_size = p.max_part_size ∧
      (∀ j, j ≤ pos.elem_info.part_index → part_offset q.parts j = part_offset p.parts j) ∧
      pos.elem_info.part_index < q.parts.length ∧
      (∀ part, q.parts[pos.elem_info.part_index]? = some part → part ≠ []) := by
  obtain ⟨part, hpart, ho, hk⟩ := hloc
  rcases p with ⟨mx, parts, size, pc, cache⟩
  rcases pos with ⟨⟨pi, o⟩, k⟩
  simp only at hpc hsum hpart ho hk ⊢
  have hsplit := split_at_part parts pi part hpart
  have hpi := getElem?_lt_length parts pi part hpart
  have hL : (parts.take pi).length = pi := by simp; omega
  generalize parts.take pi = l at hsplit hL
  generalize parts.drop (pi + 1) = r at hsplit
  subst hsplit
  subst hL
  subst hpc
  have hoff : part_offset (l ++ part :: r) l.length = l.flatten.length := by
    rw [part_offset_eq_length, List.take_left]
  have htot : size = l.flatten.length + part.length + r.flatten.length := by
    rw [← hsum, part_offset_total]
    simp
    omega
  rw [hoff] at hk
  obtain ⟨mid, rest, e, hmr, hne⟩ :=
    insert_interior_shape mx size cache l r part o k x (by omega) ho
  have hcon : (l ++ mid :: rest).flatten =
      (l ++ part :: r).flatten.take k ++ x :: (l ++ part :: r).flatten.drop k := by
    have h1 : (l ++ mid :: rest).flatten = l.flatten ++ (mid ++ rest.flatten) := by simp
    rw [h1, hmr, ← hk]
    have h2 : (l ++ part :: r).flatten = l.flatten ++ (part ++ r.flatten) := by simp
    rw [h2, List.take_append, List.drop_append, List.take_append_of_le_length (by omega),
      List.drop_append_of_le_length (by omega)]
    simp
  refine ⟨_, e, hcon, rfl, rfl, ?_, rfl, rfl, ?_, ?_, ?_⟩
  · show part_offset (l ++ mid :: rest) (l ++ mid :: rest).length = size + 1
    rw [part_offset_total, hcon]
    have hlen : (l ++ part :: r).flatten.length = size := by
      rw [← hsum, part_offset_total]
    simp only [List.length_append, List.length_cons, List.length_take, List.length_drop, hlen]
    omega
  · intro j hj
    show part_offset (l ++ mid :: rest) j = part_offset (l ++ part :: r) j
    rw [part_offset_append_left _ _ _ hj, part_offset_append_left _ _ _ hj]
  · show l.length < (l ++ mid :: rest).length
    simp
  · intro q hq
    have hq2 : (l ++ mid :: rest)[l.length]? = some q := hq
    rw [mid_getElem?] at hq2
    rw [← Option.some.inj hq2]
    exact hne

/-! ## Sized construction -/

theorem resize_fill_spec (ElementT : Type) [Inhabited ElementT] (mx : Nat) :
    ∀ (fuel i b : Nat),
      resize_fill mx fuel i
        (List.replicate i (List.replicate mx (default : ElementT)) ++ List.replicate (fuel + b) []) =
      Except.ok (List.replicate (i + fuel) (List.replicate mx (default : ElementT)) ++
        List.replicate b []) := by
  intro fuel
  induction fuel with
  | zero => intro i b; simp [resize_fill]
  | succ fuel ih =>
    intro i b
    have hat : (List.replicate i (List.replicate mx (default : ElementT)) ++
        List.replicate (fuel + 1 + b) [])[i]? = some [] := by
      rw [List.getElem?_append_right (by simp)]
      simp
    have hset : (List.replicate i (List.replicate mx (default : ElementT)) ++
        List.replicate (fuel + 1 + b) []).set i (vec_resize [] mx default) =
        List.replicate (i + 1) (List.replicate mx (default : ElementT)) ++
          List.replicate (fuel + b) [] := by
      rw [List.set_append_right _ _ (by simp)]
      have h1 : fuel + 1 + b = (fuel + b) + 1 := by omega
      simp only [List.length_replicate, Nat.sub_self]
      rw [h1, List.replicate_succ, List.set_cons_zero, List.replicate_succ', List.append_assoc]
      simp [vec_resize]
    simp only [resize_fill, vec_at, hat, hset]
    rw [ih (i + 1) b]
    congr 3
    omega

/-- The parts of the container built by `partial_vector(size)`: `size / max_part_size`
full parts of value-initialised elements and one more part for the remainder. -/
theorem new_sized_spec (ElementT : Type) [Inhabited ElementT] (sizeof_ElementT m : Nat) :
    ∃ q : partial_vector ElementT, new_sized sizeof_ElementT m = Except.ok q ∧
      q.max_part_size = PARTIAL_VECTOR_PART_MAX_BYTE_SIZE / sizeof_ElementT ∧
      q.parts = List.replicate (m / q.max_part_size) (List.replicate q.max_part_size default) ++
        (if m - m / q.max_part_size * q.max_part_size = 0 then []
         else [List.replicate (m - m / q.max_part_size * q.max_part_size) default]) ∧
      q.size = m ∧ q.part_count = q.parts.length ∧ q.part_offsets = [] := by
  obtain ⟨mx, hmx⟩ : ∃ mx, mx = PARTIAL_VECTOR_PART_MAX_BYTE_SIZE / sizeof_ElementT := ⟨_, rfl⟩
  by_cases h0 : m = 0
  · subst h0
    refine ⟨init sizeof_ElementT, ?_, rfl, ?_, rfl, rfl, rfl⟩
    · simp [new_sized, resize, init]
    · simp [init]
  · have hfill := resize_fill_spec ElementT mx (m / mx) 0
      (if m - m / mx * mx = 0 then 0 else 1)
    simp only [List.replicate_zero, List.nil_append, Nat.zero_add] at hfill
    by_cases hlast : m - m / mx * mx = 0
    · refine ⟨{ (init sizeof_ElementT : partial_vector ElementT) with
          parts := List.replicate (m / mx) (List.replicate mx default)
          part_count := m / mx
          size := m }, ?_, rfl, ?_, rfl, ?_, rfl⟩
      · rw [if_pos hlast] at hfill
        simp only [Nat.add_zero, List.replicate_zero, List.append_nil] at hfill
        unfold new_sized resize
        rw [if_neg (by simp [init]; omega)]
        simp only [init, ← hmx]
        simp only [if_neg h0, if_true, if_pos hlast]
        simp only [Nat.zero_add, Nat.add_zero, vec_resize, List.take_nil, List.nil_append,
          List.length_nil, Nat.sub_zero, hfill]
        rw [if_neg (by omega)]
        simp
      · simp only [init, ← hmx]
        rw [if_pos hlast]
        simp
      · simp
    · refine ⟨{ (init sizeof_ElementT : partial_vector ElementT) with
          parts := List.replicate (m / mx) (List.replicate mx default) ++
            [List.replicate (m - m / mx * mx) default]
          part_count := m / mx + 1
          size := m }, ?_, rfl, ?_, rfl, ?_, rfl⟩
      · rw [if_neg hlast] at hfill
        unfold new_sized resize
        rw [if_neg (by simp [init]; omega)]
        simp only [init, ← hmx]
        simp only [if_neg h0, if_true, if_neg hlast]
        simp only [Nat.zero_add, vec_resize, List.take_nil, List.nil_append,
          List.length_nil, Nat.sub_zero, hfill]
        rw [if_pos (by omega)]
        have hsub : ∀ a : Nat, u32_sub (a + 1) 1 = a := by
          intro a
          unfold u32_sub
          rw [if_pos (by omega)]
          omega
        have hat : (List.replicate (m / mx) (List.replicate mx (default : ElementT)) ++
            List.replicate 1 [])[m / mx]? = some [] := by
          rw [List.getElem?_append_right (by simp)]
          simp
        simp only [hsub, vec_at, hat]
        congr 2
        rw [List.set_append_right _ _ (by simp)]
        simp
      · simp only [init, ← hmx]
        rw [if_neg hlast]
      · simp

/-! ## Insertion at the front -/

theorem insert_front_spec (p : partial_vector ElementT) (x : ElementT) (hp : front_insertable p) :
    ∃ q, insert p (begin_ p) x = Except.ok q ∧ contents q = x :: contents p ∧
      q.size = p.size + 1 ∧ front_insertable q ∧ q.max_part_size = p.max_part_size := by
  obtain ⟨hpc, hsum, hcache, hhead⟩ := hp
  by_cases h0 : p.size = 0
  · -- the container is empty: the end branch
    have hnil := flatten_eq_nil_of_total p.parts (by rw [hsum, h0])
    have hparts : p.parts = [] := by
      rcases hparts : p.parts with _ | ⟨hd, tl⟩
      · rfl
      · exfalso
        exact hhead hd (by simp [hparts]) (hnil hd (by simp [hparts]))
    refine ⟨{ p with parts := p.parts ++ [[x]], part_count := p.part_count + 1,
                     size := p.size + 1 }, ?_, ?_, rfl, ⟨?_, ?_, ?_, ?_⟩, rfl⟩
    · unfold insert
      rw [if_pos (by simp [begin_, h0])]
    · simp [contents, hparts]
    · simp [hpc]
    · show part_offset (p.parts ++ [[x]]) (p.parts ++ [[x]]).length = p.size + 1
      rw [part_offset_total, h0, hparts]
      simp
    · intro j hj
      have := hcache j hj
      refine ⟨by simp; omega, ?_⟩
      show p.part_offsets[j]? = some (part_offset (p.parts ++ [[x]]) j)
      rw [part_offset_append_left _ _ _ this.1]
      exact this.2
    · intro part hpart
      have h1 : (p.parts ++ [[x]])[0]? = some part := hpart
      rw [hparts] at h1
      simp at h1
      rw [← h1]
      simp
  · -- the container is not empty: `begin()` is the location of element 0
    have hloc : located p.parts (begin_ p).elem_info (begin_ p).elem_index := by
      rcases hparts : p.parts with _ | ⟨hd, tl⟩
      · exfalso
        rw [hparts] at hsum
        simp [part_offset] at hsum
        omega
      · have hne : hd ≠ [] := hhead hd (by simp [hparts])
        refine ⟨hd, by simp [begin_], ?_, by simp [begin_, part_offset]⟩
        exact List.length_pos.mpr hne
    obtain ⟨q, e, hc, hs, hpc2, hsum2, hcache2, hmax, hsame, hlt, hne⟩ :=
      insert_interior_spec p (begin_ p) x hpc hsum hloc
    refine ⟨q, e, ?_, hs, ⟨hpc2, hsum2, ?_, hne⟩, hmax⟩
    · rw [hc]
      simp [begin_]
    · rw [hcache2]
      intro j hj
      have hj0 : j = 0 := by
        simp [vec_resize, begin_] at hj
        omega
      subst hj0
      refine ⟨Nat.zero_le _, ?_⟩
      rw [part_offset_zero]
      rcases hc0 : p.part_offsets with _ | ⟨c0, cs⟩
      · simp [vec_resize, begin_]
      · have := (hcache 0 (by simp [hc0])).2
        rw [part_offset_zero, hc0] at this
        simp at this
        subst this
        simp [vec_resize, begin_]

theorem insert_front_each_spec (xs : List ElementT) :
    ∀ (p : partial_vector ElementT), front_insertable p →
      ∃ q, insert_front_each p xs = Except.ok q ∧ contents q = xs.reverse ++ contents p ∧
        q.size = p.size + xs.length ∧ front_insertable q ∧
        q.max_part_size = p.max_part_size := by
  induction xs with
  | nil =>
    intro p hp
    exact ⟨p, rfl, by simp, by simp, hp, rfl⟩
  | cons x xs ih =>
    intro p hp
    obtain ⟨q, e, hc, hs, hq, hmax⟩ := insert_front_spec p x hp
    obtain ⟨r, e2, hc2, hs2, hr, hmax2⟩ := ih q hq
    refine ⟨r, ?_, ?_, ?_, hr, by rw [hmax2, hmax]⟩
    · simp only [insert_front_each, e]
      exact e2
    · rw [hc2, hc]
      simp
    · rw [hs2, hs]
      simp
      omega

theorem front_insertable_resolvable {p : partial_vector ElementT} (h : front_insertable p) :
    resolvable p :=
  ⟨Nat.le_of_eq h.1.symm, h.2.1, h.2.2.1⟩

theorem new_sized_front_insertable (ElementT : Type) [Inhabited ElementT]
    (sizeof_ElementT m : Nat) :
    ∃ q : partial_vector ElementT, new_sized sizeof_ElementT m = Except.ok q ∧
      front_insertable q ∧ contents q = List.replicate m default ∧ q.size = m ∧
      q.max_part_size = PARTIAL_VECTOR_PART_MAX_BYTE_SIZE / sizeof_ElementT ∧
      q.part_count = m / q.max_part_size +
        (if m - m / q.max_part_size * q.max_part_size = 0 then 0 else 1) ∧
      (m = 0 → q = init sizeof_ElementT) := by
  obtain ⟨q, e, hmax, hparts, hsize, hpc, hcache⟩ := new_sized_spec ElementT
    sizeof_ElementT m
  obtain ⟨mx, hmx⟩ : ∃ mx, mx = q.max_part_size := ⟨_, rfl⟩
  rw [← hmx] at hparts
  have hle : m / mx * mx ≤ m := Nat.div_mul_le_self m mx
  have hcon : contents q = List.replicate m default := by
    unfold contents
    rw [hparts]
    by_cases hlast : m - m / mx * mx = 0
    · rw [if_pos hlast]
      simp only [List.append_nil, List.flatten_replicate_replicate]
      congr 1
      omega
    · rw [if_neg hlast]
      simp only [List.flatten_append, List.flatten_replicate_replicate, List.flatten_cons,
        List.flatten_nil, List.append_nil, List.append_replicate_replicate]
      congr 1
      omega
  refine ⟨q, e, ⟨hpc, ?_, by rw [hcache]; exact cache_valid_nil _, ?_⟩, hcon, hsize, hmax, ?_, ?_⟩
  · rw [part_offset_total, hsize]
    show (contents q).length = m
    rw [hcon]
    simp
  · intro part hpart
    rw [hparts] at hpart
    by_cases ha : m / mx = 0
    · rw [ha] at hpart hle
      by_cases hlast : m - 0 * mx = 0
      · rw [if_pos hlast] at hpart
        simp at hpart
      · rw [if_neg hlast] at hpart
        simp at hpart
        rw [← hpart]
        intro hc
        have := congrArg List.length hc
        simp at this
        omega
    · have hmxpos : 0 < mx := by
        by_contra hc
        have : mx = 0 := by omega
        rw [this] at ha
        simp at ha
      rw [List.getElem?_append_left
          (by rw [List.length_replicate]; exact Nat.pos_of_ne_zero ha),
        List.getElem?_replicate_of_lt (Nat.pos_of_ne_zero ha)] at hpart
      rw [← Option.some.inj hpart]
      intro hc
      have := congrArg List.length hc
      simp at this
      omega
  · rw [hpc, hparts, ← hmx]
    by_cases hlast : m - m / mx * mx = 0
    · rw [if_pos hlast, if_pos hlast]; simp
    · rw [if_neg hlast, if_neg hlast]; simp
  · intro h0
    subst h0
    simp only [new_sized, resize] at e
    rw [if_pos (by simp [init])] at e
    exact (Except.ok.inj e).symm

/-- The first part is not empty after `push_back`, on a container that holds no
element or whose first part is not empty. -/
theorem push_back_first_part (p : partial_vector ElementT) (x : ElementT)
    (hsum : part_offset p.parts p.parts.length = p.size)
    (hcount : p.size = 0 ∨ p.part_count = p.parts.length)
    (hfirst : p.size = 0 ∨ ∀ part, p.parts[0]? = some part → part ≠ []) :
    ∀ q, push_back p x = Except.ok q → ∀ part, q.parts[0]? = some part → part ≠ [] := by
  intro q hq part hpart
  unfold push_back at hq
  by_cases h0 : p.size = 0
  · rw [if_pos h0] at hq
    have hlen : 0 < (vec_resize p.parts 1 ([] : List ElementT)).length := by
      rcases p.parts with _ | ⟨hd, tl⟩ <;> simp [vec_resize]
    simp only [vec_at, List.getElem?_eq_getElem hlen] at hq
    rw [← Except.ok.inj hq] at hpart
    simp only [List.getElem?_set_self hlen] at hpart
    rw [← Option.some.inj hpart]
    simp
  · rw [if_neg h0] at hq
    have hpc : p.part_count = p.parts.length := by
      rcases hcount with h | h
      · exact absurd h h0
      · exact h
    have hf : ∀ part, p.parts[0]? = some part → part ≠ [] := by
      rcases hfirst with h | h
      · exact absurd h h0
      · exact h
    have hne : 0 < p.parts.length := by
      by_contra hc
      have : p.parts = [] := List.length_eq_zero.mp (by omega)
      rw [this] at hsum
      simp [part_offset] at hsum
      omega
    have hsub : u32_sub p.part_count 1 = p.parts.length - 1 := by
      unfold u32_sub
      rw [if_pos (by omega), hpc]
    have hlast : p.parts[p.parts.length - 1]? = some p.parts[p.parts.length - 1] :=
      List.getElem?_eq_getElem (by omega)
    simp only [hsub, vec_at, hlast] at hq
    by_cases hroom : p.parts[p.parts.length - 1].length < p.max_part_size
    · rw [if_pos hroom] at hq
      rw [← Except.ok.inj hq] at hpart
      simp only [List.getElem?_set] at hpart
      by_cases hz : p.parts.length - 1 = 0
      · rw [if_pos hz, if_pos (by omega)] at hpart
        rw [← Option.some.inj hpart]
        simp
      · rw [if_neg hz] at hpart
        exact hf part hpart
    · rw [if_neg hroom] at hq
      have hres : vec_resize p.parts (p.parts.length + 1) [] = p.parts ++ [[]] := by
        unfold vec_resize
        rw [List.take_of_length_le (by omega)]
        simp
      have hat : (p.parts ++ [([] : List ElementT)])[p.parts.length]? = some [] := by
        rw [List.getElem?_append_right (Nat.le_refl _)]
        simp
      simp only [hpc, hres, Nat.add_sub_cancel, hat] at hq
      rw [← Except.ok.inj hq] at hpart
      simp only [List.set_append_right _ _ (Nat.le_refl _)] at hpart
      rw [List.getElem?_append_left hne] at hpart
      exact hf part hpart

theorem push_back_each_first_part (xs : List ElementT) :
    ∀ (p : partial_vector ElementT), part_offset p.parts p.parts.length = p.size →
      (p.size = 0 ∨ p.part_count = p.parts.length) →
      (p.size = 0 ∨ ∀ part, p.parts[0]? = some part → part ≠ []) →
      ∀ q, push_back_each p xs = Except.ok q →
        (q.size = 0 ∨ ∀ part, q.parts[0]? = some part → part ≠ []) := by
  induction xs with
  | nil =>
    intro p _ _ hfirst q hq
    simp only [push_back_each] at hq
    rw [← Except.ok.inj hq]
    exact hfirst
  | cons x xs ih =>
    intro p hsum hcount hfirst q hq
    obtain ⟨r, e, _, _, hpc, hsum2, _, _⟩ := push_back_spec p x hsum hcount
    have hr := push_back_first_part p x hsum hcount hfirst r e
    simp only [push_back_each, e] at hq
    exact ih r hsum2 (Or.inr hpc) (Or.inr hr) q hq

theorem new_filled_front_insertable (sizeof_ElementT m : Nat) (v : ElementT) :
    ∃ q : partial_vector ElementT, new_filled sizeof_ElementT m v = Except.ok q ∧
      front_insertable q ∧ contents q = List.replicate m v ∧ q.size = m := by
  obtain ⟨q, e, hc, hs, hsum, hpc, hcache, _, _⟩ :=
    push_back_each_from_empty sizeof_ElementT (reserve (init sizeof_ElementT) m)
      (reserve_init sizeof_ElementT m) (List.replicate m v)
  obtain ⟨k, hk⟩ : ∃ k, (reserve (init sizeof_ElementT) m : partial_vector ElementT) =
      { (init sizeof_ElementT : partial_vector ElementT) with parts := List.replicate k [] } :=
    reserve_init sizeof_ElementT m
  have hfirst := push_back_each_first_part (List.replicate m v)
    (reserve (init sizeof_ElementT) m)
    (by rw [hk]; exact part_offset_replicate_nil k _) (Or.inl (by rw [hk]; rfl))
    (Or.inl (by rw [hk]; rfl)) q e
  have hsm : q.size = m := by rw [hs]; simp
  by_cases h0 : m = 0
  · subst h0
    have hq : q = reserve (init sizeof_ElementT) 0 := by
      have e2 := e
      simp only [List.replicate_zero, push_back_each] at e2
      exact (Except.ok.inj e2).symm
    have hparts : q.parts = [] := by
      rw [hq]
      have hdiv : ∀ mx : Nat, (0 + mx - 1) / mx = 0 := by
        intro mx
        rcases Nat.eq_zero_or_pos mx with h | h
        · subst h; rfl
        · exact Nat.div_eq_of_lt (by omega)
      simp only [reserve, init, vec_resize, hdiv]
      rfl
    refine ⟨q, e, ⟨?_, hsum, by rw [hcache]; exact cache_valid_nil _, ?_⟩, hc, hsm⟩
    · rw [hparts, hq]
      rfl
    · intro part hpart
      rw [hparts] at hpart
      simp at hpart
  · refine ⟨q, e, ⟨?_, hsum, by rw [hcache]; exact cache_valid_nil _, ?_⟩, hc, hsm⟩
    · rcases hpc with h | h
      · omega
      · exact h
    · rcases hfirst with h | h
      · omega
      · exact h

/-- Front insertions on a front-insertable container: the inserted values come first,
last inserted first, followed by the old contents, and reads return them. -/
theorem insert_front_each_reads (start : partial_vector ElementT) (xs : List ElementT)
    (hfi : front_insertable start) :
    ∃ q, insert_front_each start xs = Except.ok q ∧
      get_size q = (contents start).length + xs.length ∧
      (∀ i, i < xs.length → ∃ y c, xs[xs.length - 1 - i]? = some y ∧
        operator_index q i = Except.ok (y, { q with part_offsets := c })) ∧
      (∀ j, j < (contents start).length → ∃ y c, (contents start)[j]? = some y ∧
        operator_index q (xs.length + j) = Except.ok (y, { q with part_offsets := c })) := by
  obtain ⟨q, e2, hc, hs, hq, _⟩ := insert_front_each_spec xs start hfi
  have hlen : (contents start).length = start.size := (size_eq_length_contents start hfi.2.1).symm
  refine ⟨q, e2, ?_, ?_, ?_⟩
  · show q.size = _
    rw [hs, hlen]
  · intro i hi
    obtain ⟨y, c, hy, hr, _⟩ := operator_index_spec q i (front_insertable_resolvable hq) (by omega)
    refine ⟨y, c, ?_, hr⟩
    rw [hc, List.getElem?_append_left (by simpa using hi), List.getElem?_reverse hi] at hy
    exact hy
  · intro j hj
    obtain ⟨y, c, hy, hr, _⟩ :=
      operator_index_spec q (xs.length + j) (front_insertable_resolvable hq) (by omega)
    refine ⟨y, c, ?_, hr⟩
    rw [hc, List.getElem?_append_right (by simp)] at hy
    simpa using hy

/-! ## Part layout -/

theorem packed_part_offset (mx : Nat) (parts : List (List ElementT)) (h : packed mx parts) :
    ∀ i, i < parts.length → part_offset parts i = i * mx := by
  intro i
  induction i with
  | zero => intro _; simp [part_offset_zero]
  | succ i ih =>
    intro hi
    have hget : parts[i]? = some parts[i] := List.getElem?_eq_getElem (by omega)
    rw [part_offset_succ parts i _ hget, ih (by omega), (h i _ hget).2.2 hi, Nat.succ_mul]

theorem packed_total (mx : Nat) (parts : List (List ElementT)) (h : packed mx parts)
    (i : Nat) (part : List ElementT) (hget : parts[i]? = some part) (hlast : i + 1 = parts.length) :
    part_offset parts parts.length = i * mx + part.length := by
  rw [← hlast, part_offset_succ parts i part hget, packed_part_offset mx parts h i (by omega)]

theorem ceil_div_of_last (mx k last : Nat) (h1 : 1 ≤ last) (h2 : last ≤ mx) :
    (k * mx + last + mx - 1) / mx = k + 1 := by
  apply Nat.div_eq_of_lt_le
  · rw [Nat.succ_mul]; omega
  · rw [Nat.succ_mul, Nat.succ_mul]; omega

/-- A container of `n > 0` elements whose parts are packed has the part layout. -/
theorem part_layout_of_packed (q : partial_vector ElementT) (n mx : Nat)
    (hpc : q.part_count = q.parts.length) (hsum : part_offset q.parts q.parts.length = n)
    (hpk : packed mx q.parts) (hn : 0 < n) : part_layout q n mx := by
  have hne : 0 < q.parts.length := by
    by_contra hc
    have : q.parts = [] := List.length_eq_zero.mp (by omega)
    rw [this] at hsum
    simp [part_offset] at hsum
    omega
  have hlastget : q.parts[q.parts.length - 1]? = some q.parts[q.parts.length - 1] :=
    List.getElem?_eq_getElem (by omega)
  have htot := packed_total mx q.parts hpk _ _ hlastget (by omega)
  have hl := hpk _ _ hlastget
  refine ⟨?_, hpc.symm, ?_⟩
  · show q.part_count = _
    rw [hpc, ← hsum, htot, ceil_div_of_last mx _ _ hl.1 hl.2.1]
    omega
  · intro i part hget
    constructor
    · intro hlt
      exact (hpk i part hget).2.2 (by rw [← hpc]; exact hlt)
    · intro heq
      have := packed_total mx q.parts hpk i part hget (by rw [← hpc]; exact heq)
      omega

theorem push_back_packed (p : partial_vector ElementT) (x : ElementT) (mx : Nat)
    (hmx : p.max_part_size = mx) (hpos : 0 < mx) (hpc : p.part_count = p.parts.length)
    (hsum : part_offset p.parts p.parts.length = p.size) (hpk : packed mx p.parts) :
    ∀ q, push_back p x = Except.ok q → packed mx q.parts := by
  intro q hq
  unfold push_back at hq
  by_cases h0 : p.size = 0
  · rw [if_pos h0] at hq
    have hnil := flatten_eq_nil_of_total p.parts (by rw [hsum, h0])
    have hparts : p.parts = [] := by
      rcases hparts : p.parts with _ | ⟨hd, tl⟩
      · rfl
      · exfalso
        have h1 := (hpk 0 hd (by simp [hparts])).1
        rw [hnil hd (by simp [hparts])] at h1
        simp at h1
    simp only [hparts, vec_resize, vec_at] at hq
    simp at hq
    rw [← hq]
    intro i part hget
    simp only at hget
    rcases i with _ | i
    · simp at hget
      rw [← hget]
      simp
      omega
    · simp at hget
  · rw [if_neg h0] at hq
    have hne : 0 < p.parts.length := by
      by_contra hc
      have : p.parts = [] := List.length_eq_zero.mp (by omega)
      rw [this] at hsum
      simp [part_offset] at hsum
      omega
    have hsub : u32_sub p.part_count 1 = p.parts.length - 1 := by
      unfold u32_sub
      rw [if_pos (by omega), hpc]
    have hlast : p.parts[p.parts.length - 1]? = some p.parts[p.parts.length - 1] :=
      List.getElem?_eq_getElem (by omega)
    have hl := hpk _ _ hlast
    simp only [hsub, vec_at, hlast, hmx] at hq
    by_cases hroom : p.parts[p.parts.length - 1].length < mx
    · rw [if_pos hroom] at hq
      rw [← Except.ok.inj hq]
      intro i part hget
      simp only [List.getElem?_set] at hget
      simp only [List.length_set]
      by_cases hi : p.parts.length - 1 = i
      · rw [if_pos hi, if_pos (by omega)] at hget
        rw [← Option.some.inj hget]
        simp only [List.length_append, List.length_singleton]
        exact ⟨by omega, by omega, fun h => by omega⟩
      · rw [if_neg hi] at hget
        exact hpk i part hget
    · rw [if_neg hroom] at hq
      have hres : vec_resize p.parts (p.parts.length + 1) [] = p.parts ++ [[]] := by
        unfold vec_resize
        rw [List.take_of_length_le (by omega)]
        simp
      have hat : (p.parts ++ [([] : List ElementT)])[p.parts.length]? = some [] := by
        rw [List.getElem?_append_right (Nat.le_refl _)]
        simp
      simp only [hpc, hres, Nat.add_sub_cancel, hat] at hq
      rw [← Except.ok.inj hq]
      simp only [List.set_append_right _ _ (Nat.le_refl _), Nat.sub_self, List.set_cons_zero,
        List.nil_append]
      intro i part hget
      simp only [List.length_append, List.length_singleton]
      rcases Nat.lt_or_ge i p.parts.length with hi | hi
      · rw [List.getElem?_append_left hi] at hget
        have hp := hpk i part hget
        refine ⟨hp.1, hp.2.1, fun _ => ?_⟩
        by_cases hlt : i + 1 < p.parts.length
        · exact hp.2.2 hlt
        · have hi2 : i = p.parts.length - 1 := by omega
          subst hi2
          rw [hlast] at hget
          rw [← Option.some.inj hget]
          omega
      · rw [List.getElem?_append_right hi] at hget
        have hi0 : i - p.parts.length = 0 := by
          by_contra hc
          rw [List.getElem?_eq_none_iff.mpr (by simp; omega)] at hget
          exact Option.noConfusion hget
        rw [hi0] at hget
        simp at hget
        rw [← hget]
        exact ⟨by simp, by simp; omega, fun h => by omega⟩

theorem push_back_each_packed (xs : List ElementT) (mx : Nat) (hpos : 0 < mx) :
    ∀ (p : partial_vector ElementT), p.max_part_size = mx → p.part_count = p.parts.length →
      part_offset p.parts p.parts.length = p.size → packed mx p.parts →
      ∃ q, push_back_each p xs = Except.ok q ∧ q.part_count = q.parts.length ∧
        part_offset q.parts q.parts.length = q.size ∧ q.size = p.size + xs.length ∧
        packed mx q.parts := by
  induction xs with
  | nil =>
    intro p _ hpc hsum hpk
    exact ⟨p, rfl, hpc, hsum, by simp, hpk⟩
  | cons x xs ih =>
    intro p hmx hpc hsum hpk
    obtain ⟨q, e, _, hs, hpc2, hsum2, _, hmax⟩ := push_back_spec p x hsum (Or.inr hpc)
    have hpk2 := push_back_packed p x mx hmx hpos hpc hsum hpk q e
    obtain ⟨r, e2, hpc3, hsum3, hs3, hpk3⟩ := ih q (by rw [hmax, hmx]) hpc2 hsum2 hpk2
    refine ⟨r, ?_, hpc3, hsum3, ?_, hpk3⟩
    · simp only [push_back_each, e]
      exact e2
    · rw [hs3, hs]
      simp
      omega

theorem new_sized_packed (ElementT : Type) [Inhabited ElementT] (sizeof_ElementT n : Nat)
    (hpos : 0 < PARTIAL_VECTOR_PART_MAX_BYTE_SIZE / sizeof_ElementT) :
    ∃ q : partial_vector ElementT, new_sized sizeof_ElementT n = Except.ok q ∧
      q.part_count = q.parts.length ∧ part_offset q.parts q.parts.length = n ∧
      packed (PARTIAL_VECTOR_PART_MAX_BYTE_SIZE / sizeof_ElementT) q.parts := by
  obtain ⟨q, e, hmax, hparts, hsize, hpc, _⟩ := new_sized_spec ElementT sizeof_ElementT n
  obtain ⟨q2, e2, hfi, _, hsize2, _⟩ := new_sized_front_insertable ElementT sizeof_ElementT n
  have hq : q2 = q := by
    rw [e] at e2
    exact (Except.ok.inj e2).symm
  subst hq
  obtain ⟨mx, hmx⟩ : ∃ mx, mx = PARTIAL_VECTOR_PART_MAX_BYTE_SIZE / sizeof_ElementT := ⟨_, rfl⟩
  rw [← hmx] at hpos ⊢
  rw [hmax, ← hmx] at hparts
  refine ⟨q2, e, hpc, by rw [hfi.2.1, hsize], ?_⟩
  have hmod : n - n / mx * mx = n % mx := by
    rw [Nat.mod_def, Nat.mul_comm]
  have hlt : n % mx < mx := Nat.mod_lt _ hpos
  rw [hparts, hmod]
  by_cases hr : n % mx = 0
  · rw [if_pos hr, List.append_nil]
    intro i part hget
    have hi : i < n / mx := by
      have := getElem?_lt_length _ _ _ hget
      simpa using this
    rw [List.getElem?_replicate_of_lt hi] at hget
    rw [← Option.some.inj hget]
    simp only [List.length_replicate]
    exact ⟨hpos, Nat.le_refl _, fun _ => trivial⟩
  · rw [if_neg hr]
    intro i part hget
    rcases Nat.lt_or_ge i (n / mx) with hi | hi
    · rw [List.getElem?_append_left (by simpa using hi),
        List.getElem?_replicate_of_lt hi] at hget
      rw [← Option.some.inj hget]
      simp only [List.length_replicate]
      exact ⟨hpos, Nat.le_refl _, fun _ => trivial⟩
    · rw [List.getElem?_append_right (by simpa using hi)] at hget
      simp only [List.length_replicate] at hget
      have hi0 : i - n / mx = 0 := by
        by_contra hc
        rw [List.getElem?_eq_none_iff.mpr (by simp; omega)] at hget
        exact Option.noConfusion hget
      rw [hi0] at hget
      simp at hget
      rw [← hget]
      simp only [List.length_replicate, List.length_append, List.length_singleton]
      exact ⟨by omega, by omega, fun h => by omega⟩

/-! ## The end iterator -/

/-- On a container that stores at least one part and whose `part_count` is the number
of stored parts, `end()` has index `size` and the location one past the last element of
the last part. -/
theorem end_of_nonempty (p : partial_vector ElementT) (hpc : p.part_count = p.parts.length)
    (hne : 0 < p.parts.length) :
    ∃ last, p.parts[p.part_count - 1]? = some last ∧
      end_ p = Except.ok { elem_info := { part_index := p.part_count - 1,
                                          element_offset := last.length },
                           elem_index := p.size } := by
  have hsub : u32_sub p.part_count 1 = p.part_count - 1 := by
    unfold u32_sub
    rw [if_pos (by omega)]
  have hlast : p.parts[p.part_count - 1]? = some p.parts[p.parts.length - 1] := by
    rw [hpc]
    exact List.getElem?_eq_getElem (by omega)
  refine ⟨_, hlast, ?_⟩
  unfold end_
  simp only [hsub, vec_at, hlast]

/-! ## insert into a full part: borrow or split -/

/-- Interior `insert` into a full part whose right neighbour has room: the last element
of the part moves to the front of the neighbour, the part count stays. -/
theorem insert_borrow_case (mx size : Nat) (cache : List Nat) (l r2 : List (List ElementT))
    (part pn : List ElementT) (o k : Nat) (x last : ElementT) (hk : k ≠ size)
    (ho : o < part.length) (hfull : part.length = mx)
    (hlast : part[part.length - 1]? = some last) (hpn : pn.length < mx) :
    insert { max_part_size := mx, parts := l ++ part :: pn :: r2, size := size,
             part_count := (l ++ part :: pn :: r2).length, part_offsets := cache }
      { elem_info := { part_index := l.length, element_offset := o }, elem_index := k } x =
    Except.ok { max_part_size := mx,
                parts := l ++ (part.dropLast.take o ++ x :: part.dropLast.drop o) ::
                  (last :: pn) :: r2,
                size := size + 1,
                part_count := (l ++ part :: pn :: r2).length,
                part_offsets := vec_resize cache (l.length + 1) 0 } := by
  have hdl : part.eraseIdx (part.length - 1) = part.dropLast := by
    have h1 : part.length - 1 + 1 = part.length := by omega
    exact (List.dropLast_eq_eraseIdx h1).symm
  have hsub : u64_sub part.length 1 = part.length - 1 := by
    unfold u64_sub
    rw [if_pos (by omega)]
  have herase : (vec_erase part (part.length - 1) : Run ElementT (List ElementT)) =
      Except.ok part.dropLast := by
    unfold vec_erase
    rw [if_pos (by omega), hdl]
  have hins : (vec_insert part.dropLast o x : Run ElementT (List ElementT)) =
      Except.ok (part.dropLast.take o ++ x :: part.dropLast.drop o) := by
    unfold vec_insert
    rw [if_pos (by rw [List.length_dropLast]; omega)]
  unfold insert
  rw [if_neg hk]
  simp only [vec_at, mid_getElem?, if_pos hfull, hsub, hlast, mid_succ_getElem?,
    List.getElem?_cons_zero, mid_succ_set, List.set_cons_zero, herase, mid_set]
  rw [if_pos (by simp), if_pos hpn]
  simp only [hsub, herase, mid_getElem?, mid_set]
  rw [hins]

/-- Interior `insert` into a full part that has no right neighbour, or a full one: a new
part holding the last element of the part is inserted after it, the part count grows by
one. -/
theorem insert_split_case (mx size : Nat) (cache : List Nat) (l r : List (List ElementT))
    (part : List ElementT) (o k : Nat) (x last : ElementT) (hk : k ≠ size)
    (ho : o < part.length) (hfull : part.length = mx)
    (hlast : part[part.length - 1]? = some last)
    (hr : r = [] ∨ ∃ pn r2, r = pn :: r2 ∧ ¬ pn.length < mx) :
    insert { max_part_size := mx, parts := l ++ part :: r, size := size,
             part_count := (l ++ part :: r).length, part_offsets := cache }
      { elem_info := { part_index := l.length, element_offset := o }, elem_index := k } x =
    Except.ok { max_part_size := mx,
                parts := l ++ (part.dropLast.take o ++ x :: part.dropLast.drop o) ::
                  [last] :: r,
                size := size + 1,
                part_count := (l ++ part :: r).length + 1,
                part_offsets := vec_resize cache (l.length + 1) 0 } := by
  have hdl : part.eraseIdx (part.length - 1) = part.dropLast := by
    have h1 : part.length - 1 + 1 = part.length := by omega
    exact (List.dropLast_eq_eraseIdx h1).symm
  have hsub : u64_sub part.length 1 = part.length - 1 := by
    unfold u64_sub
    rw [if_pos (by omega)]
  have herase : (vec_erase part (part.length - 1) : Run ElementT (List ElementT)) =
      Except.ok part.dropLast := by
    unfold vec_erase
    rw [if_pos (by omega), hdl]
  have hins : (vec_insert part.dropLast o x : Run ElementT (List ElementT)) =
      Except.ok (part.dropLast.take o ++ x :: part.dropLast.drop o) := by
    unfold vec_insert
    rw [if_pos (by rw [List.length_dropLast]; omega)]
  have hmoved : (if l.length + 1 < (l ++ part :: r).length then
        match (vec_at (l ++ part :: r) (l.length + 1) : Run ElementT (List ElementT)) with
        | Except.error e => Except.error e
        | Except.ok part_n =>
          if part_n.length < mx then
            (Except.ok ((l ++ part :: r).set (l.length + 1) (last :: part_n),
              (l ++ part :: r).length) : Run ElementT (List (List ElementT) × Nat))
          else
            Except.ok ((l ++ part :: r).take (l.length + 1) ++
              [last] :: (l ++ part :: r).drop (l.length + 1),
              (l ++ part :: r).length + 1)
      else
        Except.ok ((l ++ part :: r).take (l.length + 1) ++
          [last] :: (l ++ part :: r).drop (l.length + 1),
          (l ++ part :: r).length + 1)) =
      Except.ok (l ++ part :: [last] :: r, (l ++ part :: r).length + 1) := by
    rcases hr with hr | ⟨pn, r2, hr, hpn⟩
    · subst hr
      rw [if_neg (by simp)]
      simp only [mid_take_succ, mid_drop_succ, List.append_assoc, List.singleton_append]
    · subst hr
      rw [if_pos (by simp)]
      simp only [vec_at, mid_succ_getElem?, List.getElem?_cons_zero, if_neg hpn,
        mid_take_succ, mid_drop_succ, List.append_assoc, List.singleton_append]
  unfold insert
  rw [if_neg hk]
  simp only [vec_at, mid_getElem?, if_pos hfull, hsub, hlast]
  simp only [vec_at] at hmoved
  rw [hmoved]
  simp only [hsub, herase, mid_getElem?, mid_set]
  rw [hins]

/-- Interior `insert` into a part that is not full: only that part changes. -/
theorem insert_room_case (mx size : Nat) (cache : List Nat) (l r : List (List ElementT))
    (part : List ElementT) (o k : Nat) (x : ElementT) (hk : k ≠ size)
    (ho : o < part.length) (hroom : part.length ≠ mx) :
    insert { max_part_size := mx, parts := l ++ part :: r, size := size,
             part_count := (l ++ part :: r).length, part_offsets := cache }
      { elem_info := { part_index := l.length, element_offset := o }, elem_index := k } x =
    Except.ok { max_part_size := mx,
                parts := l ++ (part.take o ++ x :: part.drop o) :: r,
                size := size + 1,
                part_count := (l ++ part :: r).length,
                part_offsets := vec_resize cache (l.length + 1) 0 } := by
  have hins : (vec_insert part o x : Run ElementT (List ElementT)) =
      Except.ok (part.take o ++ x :: part.drop o) := by
    unfold vec_insert
    rw [if_pos (by omega)]
  unfold insert
  rw [if_neg hk]
  simp only [vec_at, mid_getElem?, if_neg hroom, hins, mid_set]

/-! ## Unit steps: next_element and previous_element -/

/-- A global index has at most one location. -/
theorem located_unique (parts : List (List ElementT)) (a b : ElementInfo) (i : Nat)
    (ha : located parts a i) (hb : located parts b i) : a = b := by
  obtain ⟨pa, hpa, hoa, hsa⟩ := ha
  obtain ⟨pb, hpb, hob, hsb⟩ := hb
  have hsa1 := part_offset_succ parts _ _ hpa
  have hsb1 := part_offset_succ parts _ _ hpb
  have hidx : a.part_index = b.part_index := by
    rcases Nat.lt_trichotomy a.part_index b.part_index with h | h | h
    · have := part_offset_mono parts (a.part_index + 1) b.part_index h
      omega
    · exact h
    · have := part_offset_mono parts (b.part_index + 1) a.part_index h
      omega
  rcases a with ⟨ai, ao⟩
  rcases b with ⟨bi, bo⟩
  simp only at hidx hsa hsb hpa hpb
  subst hidx
  have : ao = bo := by omega
  subst this
  rfl

/-- Without empty parts, `next_element` maps the location of index i to the location of
index i + 1, when that index exists. -/
theorem next_located (p : partial_vector ElementT) (a : ElementInfo) (i : Nat)
    (hne : ∀ part ∈ p.parts, part ≠ []) (ha : located p.parts a i)
    (hi : i + 1 < part_offset p.parts p.parts.length) :
    ∃ b, next_element p a = Except.ok b ∧ located p.parts b (i + 1) := by
  obtain ⟨part, hpa, hoa, hsa⟩ := ha
  have hs1 := part_offset_succ p.parts _ _ hpa
  unfold next_element
  simp only [vec_at, hpa]
  by_cases h : a.element_offset + 1 < part.length
  · rw [if_pos h]
    exact ⟨_, rfl, part, hpa, h, by simp only; omega⟩
  · rw [if_neg h]
    refine ⟨_, rfl, ?_⟩
    rcases hn : p.parts[a.part_index + 1]? with _ | pn
    · have hl : p.parts.length ≤ a.part_index + 1 := List.getElem?_eq_none_iff.mp hn
      have := part_offset_of_length_le p.parts (a.part_index + 1) hl
      omega
    · have hmem : pn ∈ p.parts := List.getElem?_mem hn
      have hpos : 0 < pn.length := List.length_pos.mpr (hne pn hmem)
      exact ⟨pn, hn, hpos, by simp only; omega⟩

/-- Without empty parts, `previous_element` maps the location of index i + 1 to the
location of index i. -/
theorem prev_located (p : partial_vector ElementT) (b : ElementInfo) (i : Nat)
    (hne : ∀ part ∈ p.parts, part ≠ []) (hb : located p.parts b (i + 1)) :
    ∃ a, previous_element p b = Except.ok a ∧ located p.parts a i := by
  obtain ⟨part, hpb, hob, hsb⟩ := hb
  unfold previous_element
  by_cases h : b.element_offset > 0
  · rw [if_pos h]
    exact ⟨_, rfl, part, hpb, by simp only; omega, by simp only; omega⟩
  · rw [if_neg h]
    have hidx : b.part_index ≠ 0 := by
      intro h0
      rw [h0, part_offset_zero] at hsb
      omega
    obtain ⟨j, hj⟩ := Nat.exists_eq_succ_of_ne_zero hidx
    have hsub : u32_sub b.part_index 1 = j := by
      unfold u32_sub
      rw [if_pos (by omega)]
      omega
    have hlt := getElem?_lt_length p.parts _ _ hpb
    have hjl : j < p.parts.length := by omega
    have hpj : p.parts[j]? = some p.parts[j] := List.getElem?_eq_getElem hjl
    have hmem : p.parts[j] ∈ p.parts := List.getElem_mem hjl
    have hpos : 0 < (p.parts[j]).length := List.length_pos.mpr (hne _ hmem)
    have hs1 := part_offset_succ p.parts j _ hpj
    have hsub2 : u32_sub (p.parts[j]).length 1 = (p.parts[j]).length - 1 := by
      unfold u32_sub
      rw [if_pos (by omega)]
    rw [hj] at hsb
    simp only [vec_at, hsub, hpj, hsub2]
    refine ⟨_, rfl, p.parts[j], hpj, by simp only; omega, ?_⟩
    simp only [Nat.succ_eq_add_one] at hsb
    simp only
    omega

/-! ## Claims -/

/-- C1: in a well-formed container (part_count is the number of stored parts, the part
lengths sum to size, every present cache entry i is the total length of parts [0, i)),
for every index below size `find_element` returns a location (p, o) with p below
part_count, o below the length of part p and (total length of parts [0, p)) + o = index,
whichever scan is taken; `operator[]` then returns the index-th element of the
concatenation of the parts, and only the offset cache is extended, with true prefix sums. -/
theorem C1_find_element_resolves (p : partial_vector ElementT) (index : Nat)
    (hp : well_formed p) (hi : index < p.size) :
    ∃ info cache2 part x,
      find_element p index = Except.ok (info, { p with part_offsets := cache2 }) ∧
      info.part_index < p.part_count ∧
      p.parts[info.part_index]? = some part ∧
      info.element_offset < part.length ∧
      part_offset p.parts info.part_index + info.element_offset = index ∧
      part[info.element_offset]? = some x ∧
      (contents p)[index]? = some x ∧
      operator_index p index = Except.ok (x, { p with part_offsets := cache2 }) ∧
      well_formed { p with part_offsets := cache2 } := by
  obtain ⟨info, cache2, e, hl, hv, _⟩ := find_element_spec p index (well_formed_resolvable hp) hi
  obtain ⟨part, x, h1, h2, h3⟩ := located_contents p.parts info index hl
  obtain ⟨part2, h1b, ho, hsum⟩ := hl
  have hpart : part2 = part := by
    rw [h1] at h1b
    exact (Option.some.inj h1b).symm
  subst hpart
  have hlt : info.part_index < p.parts.length := by
    by_contra hc
    rw [List.getElem?_eq_none_iff.mpr (by omega)] at h1
    exact Option.noConfusion h1
  refine ⟨info, cache2, part2, x, e, by rw [hp.1]; exact hlt, h1, ho, hsum, h2, h3, ?_,
    ⟨hp.1, hp.2.1, hv⟩⟩
  unfold operator_index
  rw [if_neg (by omega), e]
  simp [vec_at, h1, h2]

theorem C1_example_well_formed : well_formed C1_example := by
  refine ⟨rfl, rfl, ?_⟩
  intro i hi
  have h3 : i < 3 := hi
  interval_cases i <;> exact ⟨by decide, rfl⟩

theorem C1_find_element_resolves_witness :
    well_formed C1_example ∧ 3 < C1_example.size ∧
    ∃ info cache2 part x,
      find_element C1_example 3 = Except.ok (info, { C1_example with part_offsets := cache2 }) ∧
      info.part_index < C1_example.part_count ∧
      C1_example.parts[info.part_index]? = some part ∧
      info.element_offset < part.length ∧
      part_offset C1_example.parts info.part_index + info.element_offset = 3 ∧
      part[info.element_offset]? = some x ∧
      (contents C1_example)[3]? = some x ∧
      operator_index C1_example 3 = Except.ok (x, { C1_example with part_offsets := cache2 }) ∧
      well_formed { C1_example with part_offsets := cache2 } :=
  ⟨C1_example_well_formed, by decide,
    C1_find_element_resolves C1_example 3 C1_example_well_formed (by decide)⟩

/-- C2: from an empty container, also after `reserve(r)`, the calls `push_back(i)` for
i = 0..n-1 leave `get_size() == n` and `v[i] == i` for every i below n; and `push_back(x)`
on a well-formed container with contents C succeeds and yields contents C ++ [x], size
one larger, and a part count that is again the number of stored parts. -/
theorem C2_push_back_appends (sizeof_ElementT r n : Nat) (p : partial_vector ElementT)
    (x : ElementT) (hp : well_formed p) :
    (∀ start : partial_vector Nat,
      start = init sizeof_ElementT ∨ start = reserve (init sizeof_ElementT) r →
      ∃ q, push_back_each start (List.range n) = Except.ok q ∧ get_size q = n ∧
        ∀ i, i < n → ∃ c, operator_index q i = Except.ok (i, { q with part_offsets := c })) ∧
    (∃ q, push_back p x = Except.ok q ∧ contents q = contents p ++ [x] ∧
      get_size q = get_size p + 1 ∧ q.part_count = q.parts.length ∧
      part_offset q.parts q.parts.length = q.size ∧ q.part_offsets = p.part_offsets) := by
  constructor
  · intro start hstart
    have hk : ∃ k, start =
        { (init sizeof_ElementT : partial_vector Nat) with parts := List.replicate k [] } := by
      rcases hstart with h | h
      · exact ⟨0, by rw [h]; rfl⟩
      · rw [h]; exact reserve_init sizeof_ElementT r
    obtain ⟨q, e, _, hs, _, _, _, _, hread⟩ :=
      push_back_each_from_empty sizeof_ElementT start hk (List.range n)
    refine ⟨q, e, by simpa [get_size] using hs, ?_⟩
    intro i hi
    obtain ⟨y, c, hy, hr⟩ := hread i (by simpa using hi)
    rw [List.getElem?_range hi] at hy
    rw [← Option.some.inj hy] at hr
    exact ⟨c, hr⟩
  · obtain ⟨q, e, hc, hs, hpc, hsum, hcache, _⟩ :=
      push_back_spec p x hp.2.1 (Or.inr hp.1)
    exact ⟨q, e, hc, hs, hpc, hsum, hcache⟩

theorem C2_push_back_appends_witness :
    well_formed C1_example ∧
    ((∀ start : partial_vector Nat, start = init 8192 ∨ start = reserve (init 8192) 5 →
      ∃ q, push_back_each start (List.range 3) = Except.ok q ∧ get_size q = 3 ∧
        ∀ i, i < 3 → ∃ c, operator_index q i = Except.ok (i, { q with part_offsets := c })) ∧
    (∃ q, push_back C1_example 17 = Except.ok q ∧ contents q = contents C1_example ++ [17] ∧
      get_size q = get_size C1_example + 1 ∧ q.part_count = q.parts.length ∧
      part_offset q.parts q.parts.length = q.size ∧ q.part_offsets = C1_example.part_offsets)) :=
  ⟨C1_example_well_formed, C2_push_back_appends 8192 5 3 C1_example 17 C1_example_well_formed⟩

/-- C3 (as stated, at the empty sequence): the container built from the empty
sequence is empty, and `to_vector()` on it raises the bounds error instead of returning
the empty sequence, since its start index 0 is not below the size 0. -/
theorem C3_empty_round_trip_throws :
    new_from_vector 8 ([] : List Nat) = Except.ok (init 8) ∧
    to_vector_all (init 8 : partial_vector Nat) = Except.error (Fault.runtime_error (init 8)) ∧
    ¬ ∃ q c, new_from_vector 8 ([] : List Nat) = Except.ok q ∧
      to_vector_all q = Except.ok (([] : List Nat), c) := by
  refine ⟨by decide, by decide, ?_⟩
  rintro ⟨q, c, h1, h2⟩
  have hq : q = init 8 := by
    have h3 : new_from_vector 8 ([] : List Nat) = Except.ok (init 8) := by decide
    rw [h3] at h1
    exact (Except.ok.inj h1).symm
  subst hq
  have h4 : to_vector_all (init 8 : partial_vector Nat) =
      Except.error (Fault.runtime_error (init 8)) := by decide
  rw [h4] at h2
  exact Except.noConfusion h2

/-- C3 (amended): for every non-empty flat sequence S (of a length a `size_t` holds),
constructing a partial_vector from S and then calling `to_vector()` with no arguments
returns a sequence equal to S, changing nothing but the offset cache; for the empty
sequence the container is built and `to_vector()` raises the bounds error, leaving the
container as it is. -/
theorem C3_round_trip_nonempty [Inhabited ElementT] (sizeof_ElementT : Nat) (S : List ElementT)
    (hlen : S.length ≤ SIZE_MAX) :
    (S ≠ [] → ∃ q c, new_from_vector sizeof_ElementT S = Except.ok q ∧
      to_vector_all q = Except.ok (S, { q with part_offsets := c })) ∧
    (S = [] → ∃ q, new_from_vector sizeof_ElementT S = Except.ok q ∧
      to_vector_all q = Except.error (Fault.runtime_error q)) := by
  obtain ⟨q, e, hc, hs, hsum, hpc, hcache, _, _⟩ :=
    push_back_each_from_empty sizeof_ElementT (reserve (init sizeof_ElementT) S.length)
      (reserve_init sizeof_ElementT S.length) S
  constructor
  · intro hne
    have hpos : 0 < S.length := List.length_pos.mpr hne
    have hwf : well_formed q := by
      refine ⟨?_, hsum, by rw [hcache]; exact cache_valid_nil _⟩
      rcases hpc with h | h
      · omega
      · exact h
    obtain ⟨c, e2, _⟩ := to_vector_spec q 0 SIZE_MAX hwf (by omega)
    refine ⟨q, c, e, ?_⟩
    unfold to_vector_all
    rw [e2, hc, List.drop_zero, List.take_of_length_le hlen]
  · intro hnil
    refine ⟨q, e, ?_⟩
    have h0 : q.size = 0 := by rw [hs, hnil]; rfl
    unfold to_vector_all to_vector
    rw [if_pos (by omega)]

theorem C3_round_trip_nonempty_witness :
    [5, 8, 2, 3, 7].length ≤ SIZE_MAX ∧
    (([5, 8, 2, 3, 7] : List Nat) ≠ [] →
      ∃ q c, new_from_vector 4096 [5, 8, 2, 3, 7] = Except.ok q ∧
        to_vector_all q = Except.ok ([5, 8, 2, 3, 7], { q with part_offsets := c })) ∧
    (([5, 8, 2, 3, 7] : List Nat) = [] →
      ∃ q, new_from_vector 4096 [5, 8, 2, 3, 7] = Except.ok q ∧
        to_vector_all q = Except.error (Fault.runtime_error q)) :=
  ⟨by decide, C3_round_trip_nonempty 4096 [5, 8, 2, 3, 7] (by decide)⟩

/-- C4: for every flat sequence S, the container constructed from S by value, and the
one constructed from the cursor pair (S.begin(), S.end()), has `get_size() == |S|` and
`v[i] == S[i]` for every i below |S|. -/
theorem C4_construct_from_sequence (sizeof_ElementT : Nat) (S : List ElementT) :
    (∃ q, new_from_vector sizeof_ElementT S = Except.ok q ∧ get_size q = S.length ∧
      ∀ i, i < S.length → ∃ x c, S[i]? = some x ∧
        operator_index q i = Except.ok (x, { q with part_offsets := c })) ∧
    (∃ q, new_from_range sizeof_ElementT S 0 S.length = Except.ok q ∧ get_size q = S.length ∧
      ∀ i, i < S.length → ∃ x c, S[i]? = some x ∧
        operator_index q i = Except.ok (x, { q with part_offsets := c })) := by
  constructor
  · obtain ⟨q, e, _, hs, _, _, _, _, hread⟩ :=
      push_back_each_from_empty sizeof_ElementT (reserve (init sizeof_ElementT) S.length)
        (reserve_init sizeof_ElementT S.length) S
    exact ⟨q, e, hs, hread⟩
  · obtain ⟨q, e, _, hs, _, _, _, _, hread⟩ :=
      push_back_each_from_empty sizeof_ElementT
        (reserve (init sizeof_ElementT) (u64_sub S.length 0))
        (reserve_init sizeof_ElementT (u64_sub S.length 0)) S
    refine ⟨q, ?_, hs, hread⟩
    unfold new_from_range
    rw [Nat.sub_zero, push_back_range_spec S S.length 0 _ (by omega), List.drop_zero,
      List.take_length]
    exact e

/-- C5: for every well-formed container, every start below size and every count,
`to_vector(start, count)` returns a sequence of length exactly min(count, size - start)
whose j-th element equals `v[start + j]`, whatever parts the range spans; the count is
clamped and the call does not fail. -/
theorem C5_to_vector_clamps [Inhabited ElementT] (p : partial_vector ElementT)
    (start count : Nat) (hp : well_formed p) (hs : start < p.size) :
    ∃ data c, to_vector p start count = Except.ok (data, { p with part_offsets := c }) ∧
      data.length = min count (p.size - start) ∧
      data = ((contents p).drop start).take count ∧
      ∀ j, j < data.length → ∃ x c2, data[j]? = some x ∧
        operator_index p (start + j) = Except.ok (x, { p with part_offsets := c2 }) := by
  obtain ⟨c, e, _⟩ := to_vector_spec p start count hp hs
  have hlen : (((contents p).drop start).take count).length = min count (p.size - start) := by
    rw [List.length_take, List.length_drop, ← size_eq_length_contents p hp.2.1]
  refine ⟨_, c, e, hlen, rfl, ?_⟩
  intro j hj
  rw [hlen] at hj
  obtain ⟨x, c2, hx, hr, _⟩ := operator_index_spec p (start + j) (well_formed_resolvable hp) (by omega)
  refine ⟨x, c2, ?_, hr⟩
  rw [List.getElem?_take_of_lt (by omega), List.getElem?_drop]
  exact hx

theorem C5_to_vector_clamps_witness :
    well_formed C1_example ∧ 3 < C1_example.size ∧
    ∃ data c, to_vector C1_example 3 10 = Except.ok (data, { C1_example with part_offsets := c }) ∧
      data.length = min 10 (C1_example.size - 3) ∧
      data = ((contents C1_example).drop 3).take 10 ∧
      ∀ j, j < data.length → ∃ x c2, data[j]? = some x ∧
        operator_index C1_example (3 + j) = Except.ok (x, { C1_example with part_offsets := c2 }) :=
  ⟨C1_example_well_formed, by decide,
    C5_to_vector_clamps C1_example 3 10 C1_example_well_formed (by decide)⟩

/-- C6: `operator[](index)` and `remove(index)` raise the bounds error exactly when
index >= size, `get_contiguous_data` and `to_vector(start, count)` exactly when
start >= size, and in every call that raises it the container is in the state it was
called in (and the caller's storage is untouched). -/
theorem C6_bounds_errors_atomic [Inhabited ElementT] (p : partial_vector ElementT)
    (index start count : Nat) (output : List ElementT) :
    ((∃ s, operator_index p index = Except.error (Fault.runtime_error s)) ↔ index ≥ p.size) ∧
    (∀ s, operator_index p index = Except.error (Fault.runtime_error s) → s = p) ∧
    ((∃ s, remove p index = Except.error (Fault.runtime_error s)) ↔ index ≥ p.size) ∧
    (∀ s, remove p index = Except.error (Fault.runtime_error s) → s = p) ∧
    ((∃ s, get_contiguous_data p output start count = Except.error (Fault.runtime_error s)) ↔
      start ≥ p.size) ∧
    (∀ s, get_contiguous_data p output start count = Except.error (Fault.runtime_error s) →
      s = p) ∧
    ((∃ s, to_vector p start count = Except.error (Fault.runtime_error s)) ↔ start ≥ p.size) ∧
    (∀ s, to_vector p start count = Except.error (Fault.runtime_error s) → s = p) := by
  have key : ∀ {ρ : Type} (r : Run ElementT ρ) (k : Nat),
      (k ≥ p.size → r = Except.error (Fault.runtime_error p)) →
      (k < p.size → ∀ e, r = Except.error e → e = Fault.undefined) →
      ((∃ s, r = Except.error (Fault.runtime_error s)) ↔ k ≥ p.size) ∧
      (∀ s, r = Except.error (Fault.runtime_error s) → s = p) := by
    intro ρ r k hthrow hfault
    have hno : k < p.size → ∀ s, r ≠ Except.error (Fault.runtime_error s) := by
      intro hk s hs
      exact Fault.noConfusion (hfault hk _ hs)
    constructor
    · constructor
      · rintro ⟨s, hs⟩
        by_contra hc
        exact hno (by omega) s hs
      · intro hk
        exact ⟨p, hthrow hk⟩
    · intro s hs
      rcases Nat.lt_or_ge k p.size with hk | hk
      · exact absurd hs (hno hk s)
      · rw [hthrow hk] at hs
        injection hs with hs
        injection hs with hs
        exact hs.symm
  have h1 := key (operator_index p index) index
    (by intro h; unfold operator_index; rw [if_pos h])
    (fun h e he => operator_index_fault p index e h he)
  have h2 := key (remove p index) index
    (by intro h; unfold remove; rw [if_pos h])
    (fun h e he => remove_fault p index e h he)
  have h3 := key (get_contiguous_data p output start count) start
    (by intro h; unfold get_contiguous_data; rw [if_pos h])
    (fun h e he => get_contiguous_data_fault p output start count e h he)
  have h4 := key (to_vector p start count) start
    (by intro h; unfold to_vector; rw [if_pos h])
    (fun h e he => to_vector_fault p start count e h he)
  exact ⟨h1.1, h1.2, h2.1, h2.2, h3.1, h3.2, h4.1, h4.2⟩

/-- C9 (failing input): on the container built from the sequence [1] with two elements
per part, whose only part has room for one more element, `insert(end(), 2)` does not
fill that part the way `push_back(2)` and the grow path of `resize` do: it creates a
second part and `part_count()` becomes 2, where `push_back(2)` appends into the only
part and `part_count()` stays 1. -/
theorem C9_insert_at_end_adds_part :
    new_from_vector 8192 [1] = Except.ok C9_example ∧
    end_ C9_example = Except.ok ⟨⟨0, 1⟩, 1⟩ ∧
    insert C9_example ⟨⟨0, 1⟩, 1⟩ 2 =
      Except.ok { C9_example with parts := [[1], [2]], part_count := 2, size := 2 } ∧
    push_back C9_example 2 = Except.ok { C9_example with parts := [[1, 2]], size := 2 } ∧
    (insert C9_example ⟨⟨0, 1⟩, 1⟩ 2).map get_part_count ≠
      (push_back C9_example 2).map get_part_count := by
  decide

/-- What the end branch of `insert` does next to `push_back`: on every well-formed
non-empty container, `insert(pos, x)` with pos.index == size and `push_back(x)` both
succeed and give the same logical contents C ++ [x] and the same size; the end branch
adds a trailing part holding only x whatever room the last part has, so its
part_count() is one larger than before, while `push_back` leaves part_count() unchanged
when the last part has spare capacity and increases it by one otherwise.  In both
results part_count() is the number of stored parts. -/
theorem insert_at_end_appends (p : partial_vector ElementT) (pos : iterator) (x : ElementT)
    (hp : well_formed p) (hne : 0 < p.size) (hpos : pos.elem_index = p.size) :
    ∃ a b last, insert p pos x = Except.ok a ∧ push_back p x = Except.ok b ∧
      contents a = contents p ++ [x] ∧ contents b = contents p ++ [x] ∧
      get_size a = get_size p + 1 ∧ get_size b = get_size p + 1 ∧
      a.parts = p.parts ++ [[x]] ∧ get_part_count a = get_part_count p + 1 ∧
      p.parts[p.part_count - 1]? = some last ∧
      get_part_count b =
        (if last.length < p.max_part_size then get_part_count p else get_part_count p + 1) ∧
      a.part_count = a.parts.length ∧ b.part_count = b.parts.length := by
  obtain ⟨b, e, hc, hs, hpc, _, _, _⟩ := push_back_spec p x hp.2.1 (Or.inr hp.1)
  obtain ⟨last, hlast, hcount⟩ := push_back_part_count p x (by omega) hp.1 hp.2.1
  refine ⟨{ p with parts := p.parts ++ [[x]], part_count := p.part_count + 1, size := p.size + 1 },
    b, last, ?_, e, ?_, hc, rfl, hs, rfl, rfl, hlast, hcount b e, ?_, hpc⟩
  · unfold insert
    rw [if_pos hpos]
  · simp [contents]
  · simp [hp.1]

theorem insert_at_end_appends_example :
    well_formed C1_example ∧ 0 < C1_example.size ∧
    (⟨⟨2, 1⟩, 7⟩ : iterator).elem_index = C1_example.size ∧
    ∃ a b last, insert C1_example ⟨⟨2, 1⟩, 7⟩ 17 = Except.ok a ∧
      push_back C1_example 17 = Except.ok b ∧
      contents a = contents C1_example ++ [17] ∧ contents b = contents C1_example ++ [17] ∧
      get_size a = get_size C1_example + 1 ∧ get_size b = get_size C1_example + 1 ∧
      a.parts = C1_example.parts ++ [[17]] ∧ get_part_count a = get_part_count C1_example + 1 ∧
      C1_example.parts[C1_example.part_count - 1]? = some last ∧
      get_part_count b =
        (if last.length < C1_example.max_part_size then get_part_count C1_example
          else get_part_count C1_example + 1) ∧
      a.part_count = a.parts.length ∧ b.part_count = b.parts.length :=
  ⟨C1_example_well_formed, by decide, rfl,
    insert_at_end_appends C1_example ⟨⟨2, 1⟩, 7⟩ 17 C1_example_well_formed (by decide) rfl⟩

/-- C10: on every well-formed container with contents C of length n and every index
below n, `remove(index)` succeeds, leaves size n - 1, and afterwards `v[j] == C[j]` for
j < index and `v[j] == C[j + 1]` for index <= j < n - 1; and on the container built by
pushing the sequence xs, k calls of `remove(0)` (k <= |xs|) leave size |xs| - k and the
remaining elements xs[k..] in their original order, so |xs| calls drain it to size 0. -/
theorem C10_remove_shifts_tail (p : partial_vector ElementT) (index : Nat)
    (sizeof_ElementT : Nat) (xs : List ElementT) (k : Nat)
    (hp : well_formed p) (hi : index < p.size) (hk : k ≤ xs.length) :
    (∃ q, remove p index = Except.ok q ∧ get_size q = get_size p - 1 ∧
      (∀ j, j < index → ∃ y c, (contents p)[j]? = some y ∧
        operator_index q j = Except.ok (y, { q with part_offsets := c })) ∧
      (∀ j, index ≤ j → j < get_size p - 1 → ∃ y c, (contents p)[j + 1]? = some y ∧
        operator_index q j = Except.ok (y, { q with part_offsets := c }))) ∧
    (∃ built q, push_back_each (init sizeof_ElementT) xs = Except.ok built ∧
      remove_first_each built k = Except.ok q ∧ get_size q = xs.length - k ∧
      contents q = xs.drop k ∧ (k = xs.length → get_size q = 0) ∧
      ∀ j, j < xs.length - k → ∃ y c, xs[k + j]? = some y ∧
        operator_index q j = Except.ok (y, { q with part_offsets := c })) := by
  constructor
  · obtain ⟨q, e, hc, hs, hres, _, _⟩ := remove_spec p index (well_formed_resolvable hp) hi
    refine ⟨q, e, hs, ?_, ?_⟩
    · intro j hj
      obtain ⟨y, c, hy, hr, _⟩ := operator_index_spec q j hres (by omega)
      rw [hc, List.getElem?_eraseIdx_of_lt _ _ _ hj] at hy
      exact ⟨y, c, hy, hr⟩
    · intro j hj hlt
      obtain ⟨y, c, hy, hr, _⟩ := operator_index_spec q j hres (by rw [hs]; exact hlt)
      rw [hc, List.getElem?_eraseIdx_of_ge _ _ _ hj] at hy
      exact ⟨y, c, hy, hr⟩
  · obtain ⟨built, e, hc, hs, hsum, hpc, hcache, _, _⟩ :=
      push_back_each_from_empty sizeof_ElementT (init sizeof_ElementT) ⟨0, rfl⟩ xs
    have hres : resolvable built := by
      refine ⟨?_, hsum, by rw [hcache]; exact cache_valid_nil _⟩
      rcases hpc with h | h
      · have hnil := flatten_eq_nil_of_total built.parts (by rw [hsum, h])
        have hxs : xs = [] := by
          rw [← hc]
          exact List.flatten_eq_nil_iff.mpr hnil
        subst hxs
        have hb : built = init sizeof_ElementT := by
          simp only [push_back_each] at e
          exact (Except.ok.inj e).symm
        rw [hb]
        exact Nat.le_refl _
      · omega
    obtain ⟨q, e2, hc2, hs2, hres2⟩ := remove_first_each_spec k built hres (by omega)
    refine ⟨built, q, e, e2, by rw [← hs]; exact hs2, by rw [hc2, hc], ?_, ?_⟩
    · intro hkn
      show q.size = 0
      omega
    · intro j hj
      obtain ⟨y, c, hy, hr, _⟩ := operator_index_spec q j hres2 (by omega)
      rw [hc2, hc, List.getElem?_drop] at hy
      exact ⟨y, c, hy, hr⟩

theorem C10_remove_shifts_tail_witness :
    well_formed C1_example ∧ 5 < C1_example.size ∧ 3 ≤ [4, 5, 6].length ∧
    ((∃ q, remove C1_example 5 = Except.ok q ∧ get_size q = get_size C1_example - 1 ∧
      (∀ j, j < 5 → ∃ y c, (contents C1_example)[j]? = some y ∧
        operator_index q j = Except.ok (y, { q with part_offsets := c })) ∧
      (∀ j, 5 ≤ j → j < get_size C1_example - 1 → ∃ y c, (contents C1_example)[j + 1]? = some y ∧
        operator_index q j = Except.ok (y, { q with part_offsets := c }))) ∧
    (∃ built q, push_back_each (init 8192) [4, 5, 6] = Except.ok built ∧
      remove_first_each built 3 = Except.ok q ∧ get_size q = [4, 5, 6].length - 3 ∧
      contents q = [4, 5, 6].drop 3 ∧ (3 = [4, 5, 6].length → get_size q = 0) ∧
      ∀ j, j < [4, 5, 6].length - 3 → ∃ y c, [4, 5, 6][3 + j]? = some y ∧
        operator_index q j = Except.ok (y, { q with part_offsets := c }))) :=
  ⟨C1_example_well_formed, by decide, by decide,
    C10_remove_shifts_tail C1_example 5 8192 [4, 5, 6] 3 C1_example_well_formed
      (by decide) (by decide)⟩

/-- Front insertion on a new container: on the container built by sized construction with
m elements, value-initialised or filled with a value v (the default-constructed empty
container for m = 0), with contents C, the calls
`insert(begin(), x)` for x running through xs yield `get_size() == |C| + |xs|`,
`v[i] == xs[|xs| - 1 - i]` for i < |xs| and `v[|xs| + j] == C[j]` for j < |C|; from empty
with x_i = i this gives `v[i] == n - 1 - i`; and from size 2058 with 8-byte elements
(two parts), 2048 insertions give size 4106. -/
theorem front_insertion_from_fresh [Inhabited ElementT] (sizeof_ElementT m n : Nat)
    (xs : List ElementT) (v : ElementT) :
    (∃ start q : partial_vector ElementT,
      new_sized sizeof_ElementT m = Except.ok start ∧ (m = 0 → start = init sizeof_ElementT) ∧
      get_size start = m ∧ contents start = List.replicate m default ∧
      insert_front_each start xs = Except.ok q ∧
      get_size q = (contents start).length + xs.length ∧
      (∀ i, i < xs.length → ∃ y c, xs[xs.length - 1 - i]? = some y ∧
        operator_index q i = Except.ok (y, { q with part_offsets := c })) ∧
      (∀ j, j < (contents start).length → ∃ y c, (contents start)[j]? = some y ∧
        operator_index q (xs.length + j) = Except.ok (y, { q with part_offsets := c }))) ∧
    (∃ start q : partial_vector ElementT,
      new_filled sizeof_ElementT m v = Except.ok start ∧
      get_size start = m ∧ contents start = List.replicate m v ∧
      insert_front_each start xs = Except.ok q ∧
      get_size q = (contents start).length + xs.length ∧
      (∀ i, i < xs.length → ∃ y c, xs[xs.length - 1 - i]? = some y ∧
        operator_index q i = Except.ok (y, { q with part_offsets := c })) ∧
      (∀ j, j < (contents start).length → ∃ y c, (contents start)[j]? = some y ∧
        operator_index q (xs.length + j) = Except.ok (y, { q with part_offsets := c }))) ∧
    (∃ q : partial_vector Nat,
      insert_front_each (init sizeof_ElementT) (List.range n) = Except.ok q ∧ get_size q = n ∧
      ∀ i, i < n → ∃ c, operator_index q i = Except.ok (n - 1 - i, { q with part_offsets := c })) ∧
    (∀ ys : List Nat, ys.length = 2048 →
      ∃ start q, new_sized 8 2058 = Except.ok start ∧ get_size start = 2058 ∧
        get_part_count start = 2 ∧ insert_front_each start ys = Except.ok q ∧
        get_size q = 4106) := by
  refine ⟨?_, ?_, ?_, ?_⟩
  · obtain ⟨start, e, hfi, hcon, hsize, _, _, hinit⟩ :=
      new_sized_front_insertable ElementT sizeof_ElementT m
    obtain ⟨q, e2, hs, h1, h2⟩ := insert_front_each_reads start xs hfi
    exact ⟨start, q, e, hinit, hsize, hcon, e2, hs, h1, h2⟩
  · obtain ⟨start, e, hfi, hcon, hsize⟩ := new_filled_front_insertable sizeof_ElementT m v
    obtain ⟨q, e2, hs, h1, h2⟩ := insert_front_each_reads start xs hfi
    exact ⟨start, q, e, hsize, hcon, e2, hs, h1, h2⟩
  · have hfi : front_insertable (init sizeof_ElementT : partial_vector Nat) :=
      ⟨rfl, rfl, cache_valid_nil _, by intro part h; simp [init] at h⟩
    obtain ⟨q, e2, hs, h1, _⟩ := insert_front_each_reads _ (List.range n) hfi
    have hcon : contents (init sizeof_ElementT : partial_vector Nat) = [] := rfl
    rw [hcon] at hs
    refine ⟨q, e2, by simpa using hs, ?_⟩
    intro i hi
    obtain ⟨y, c, hy, hr⟩ := h1 i (by simpa using hi)
    rw [List.length_range, List.getElem?_range (by omega)] at hy
    rw [← Option.some.inj hy] at hr
    exact ⟨c, hr⟩
  · intro ys hys
    obtain ⟨start, e, hfi, _, hsize, hmax, hpc, _⟩ :=
      new_sized_front_insertable Nat 8 2058
    obtain ⟨q, e2, _, hs, _, _⟩ := insert_front_each_spec ys start hfi
    have hmx : start.max_part_size = 2048 := by
      rw [hmax]
      decide
    refine ⟨start, q, e, hsize, ?_, e2, ?_⟩
    · show start.part_count = 2
      rw [hpc, hmx]
      decide
    · show q.size = 4106
      rw [hs, hsize, hys]

/-- C7 (failing input): two empty containers on which front insertion fails, with two
elements per part.  After `reserve(10)` the default-constructed container has size 0 and
five reserved empty parts; `insert(begin(), 1)` takes the end branch, appends the part [1]
behind them and counts one part, so that `get_size()` is 1 but `v[0]` scans only the empty
first part and indexes the part sequence with the `UINT32_MAX` location; the same happens
with 8-byte elements.  After `push_back(1)` and `remove(0)` the container has size 0 and
the stale part count 1; two calls of `insert(begin(), x)` fill the single part, and the
third, finding it full, reads the right neighbour `parts[1]` that the part count
announces and that is not stored.  From the default-constructed container and after
`clear()` the same three calls succeed and `v[0]` reads the last inserted value. -/
theorem C7_front_insertion_fails_on_reserved_or_drained :
    get_size (reserve (init 8192 : partial_vector Nat) 10) = 0 ∧
    (reserve (init 8192 : partial_vector Nat) 10).parts = [[], [], [], [], []] ∧
    insert (reserve (init 8192 : partial_vector Nat) 10)
      (begin_ (reserve (init 8192 : partial_vector Nat) 10)) 1 = Except.ok C7_after_insert ∧
    insert_front_each (reserve (init 8192 : partial_vector Nat) 10) [1] =
      Except.ok C7_after_insert ∧
    get_size C7_after_insert = 1 ∧
    (find_element C7_after_insert 0).map Prod.fst = Except.ok ⟨UINT32_MAX, UINT32_MAX⟩ ∧
    operator_index C7_after_insert 0 = Except.error Fault.undefined ∧
    (reserve (init 8 : partial_vector Nat) 10).parts = [[]] ∧
    (insert_front_each (reserve (init 8 : partial_vector Nat) 10) [1]).map
      (fun q => (q.parts, get_part_count q, get_size q)) = Except.ok ([[], [1]], 1, 1) ∧
    (insert_front_each (reserve (init 8 : partial_vector Nat) 10) [1] >>= fun q =>
      operator_index q 0) = Except.error Fault.undefined ∧
    (push_back (init 8192) 1 >>= fun p => remove p 0) = Except.ok C15_drained ∧
    get_size C15_drained = 0 ∧
    insert_front_each C15_drained [0, 1] = Except.ok C7_drained_refilled ∧
    insert C7_drained_refilled (begin_ C7_drained_refilled) 2 = Except.error Fault.undefined ∧
    insert_front_each C15_drained [0, 1, 2] = Except.error Fault.undefined ∧
    (insert_front_each (init 8192) [0, 1, 2] >>= fun q => operator_index q 0).map Prod.fst =
      Except.ok 2 ∧
    (clear C20_example >>= fun p => insert_front_each p [0, 1, 2] >>= fun q =>
      operator_index q 0).map Prod.fst = Except.ok 2 := by
  and_intros <;> decide

/-- C8 (failing input): on the container built from [0, 1, 2, 3] with two elements per
part, the iterator reached from `begin()` by two `++` has index 2 and the true location
of element 2; `insert(pos, 9)` puts 9 before that element in the parts, but resizes the
empty offset cache to two zero entries, so that afterwards `v[2]` returns 3 instead of 9
and `v[3]`, `v[4]` run into undefined behaviour.  With the position obtained as
`begin() + 2` the cache already covers the part and `v[2]` returns 9. -/
theorem C8_insert_after_increment_misreads :
    new_from_vector 8192 [0, 1, 2, 3] = Except.ok C8_example ∧
    iterator_inc C8_example (begin_ C8_example) = Except.ok ⟨⟨0, 1⟩, 1⟩ ∧
    iterator_inc C8_example ⟨⟨0, 1⟩, 1⟩ = Except.ok ⟨⟨1, 0⟩, 2⟩ ∧
    insert C8_example ⟨⟨1, 0⟩, 2⟩ 9 = Except.ok C8_after_insert ∧
    contents C8_after_insert = [0, 1, 9, 2, 3] ∧ get_size C8_after_insert = 5 ∧
    (operator_index C8_after_insert 2).map Prod.fst = Except.ok 3 ∧
    operator_index C8_after_insert 3 = Except.error Fault.undefined ∧
    operator_index C8_after_insert 4 = Except.error Fault.undefined ∧
    iterator_add C8_example (begin_ C8_example) 2 =
      Except.ok (⟨⟨1, 0⟩, 2⟩, { C8_example with part_offsets := [0, 2] }) ∧
    insert { C8_example with part_offsets := [0, 2] } ⟨⟨1, 0⟩, 2⟩ 9 =
      Except.ok { C8_after_insert with part_offsets := [0, 2] } ∧
    (operator_index { C8_after_insert with part_offsets := [0, 2] } 2).map Prod.fst =
      Except.ok 9 := by
  decide

theorem C12_example_well_formed : well_formed C12_example := by
  refine ⟨rfl, rfl, ?_⟩
  intro i hi
  have h2 : i < 2 := hi
  interval_cases i <;> exact ⟨by decide, rfl⟩

/-- C11 (failing input): on the container built by `push_back` of 1..6 with two elements
per part, `resize(2)` pops the last part and then stops, because the popped part's
length equals the amount still to remove; the size becomes 2 while the parts still hold
1, 2, 3, 4.  After `resize(3)` the size is 3, `v[0]` and `v[1]` are unchanged, and `v[2]`
returns the old element 3 instead of the default value 0. -/
theorem C11_shrink_then_grow_keeps_old_element :
    push_back_each (init 8192) [1, 2, 3, 4, 5, 6] = Except.ok C11_example ∧
    well_formed C11_example ∧ contents C11_example = [1, 2, 3, 4, 5, 6] ∧
    resize C11_example 2 = Except.ok C11_after_shrink ∧
    resize C11_after_shrink 3 = Except.ok C11_after_grow ∧
    get_size C11_after_grow = 3 ∧
    (operator_index C11_after_grow 0).map Prod.fst = Except.ok 1 ∧
    (operator_index C11_after_grow 1).map Prod.fst = Except.ok 2 ∧
    (operator_index C11_after_grow 2).map Prod.fst = Except.ok 3 ∧
    (default : Nat) = 0 :=
  ⟨by decide, ⟨rfl, rfl, cache_valid_nil _⟩, by decide, by decide, by decide, by decide,
    by decide, by decide, by decide, by decide⟩

/-- C12 (failing input): on the container built by `partial_vector(3)` with two elements
per part and written with `v[i] = i`, `reserve(1)` resizes the part sequence to one part
and so drops the second part; the size is still 3, `v[0]` and `v[1]` still read 0 and 1,
and reading `v[2]` indexes the part sequence out of bounds.  `reserve(0)` drops every
part.  `reserve` with a large argument and `shrink_to_fit` keep the reads. -/
theorem C12_reserve_drops_parts :
    (new_sized 8192 3 >>= fun p => operator_index_assign p 0 0 >>= fun p =>
      operator_index_assign p 1 1 >>= fun p => operator_index_assign p 2 2) =
      Except.ok C12_example ∧
    well_formed C12_example ∧
    (operator_index C12_example 2).map Prod.fst = Except.ok 2 ∧
    reserve C12_example 1 = { C12_example with parts := [[0, 1]] } ∧
    get_size (reserve C12_example 1) = 3 ∧
    (operator_index (reserve C12_example 1) 0).map Prod.fst = Except.ok 0 ∧
    (operator_index (reserve C12_example 1) 1).map Prod.fst = Except.ok 1 ∧
    operator_index (reserve C12_example 1) 2 = Except.error Fault.undefined ∧
    (reserve C12_example 0).parts = [] ∧
    operator_index (reserve C12_example 0) 0 = Except.error Fault.undefined ∧
    (operator_index (reserve C12_example 5) 2).map Prod.fst = Except.ok 2 ∧
    (operator_index (shrink_to_fit C12_example) 2).map Prod.fst = Except.ok 2 :=
  ⟨by decide, C12_example_well_formed, by decide, by decide, by decide, by decide, by decide,
    by decide, by decide, by decide, by decide, by decide⟩

/-- C13 (failing input): on the container built by `push_back` of 1..6 with two elements
per part, in which the part lengths sum to the size 6, the shrinking `resize(2)` leaves
size 2 while the stored parts hold four elements. -/
theorem C13_shrink_breaks_size_invariant :
    push_back_each (init 8192) [1, 2, 3, 4, 5, 6] = Except.ok C11_example ∧
    part_offset C11_example.parts C11_example.parts.length = C11_example.size ∧
    C11_example.part_count = C11_example.parts.length ∧
    resize C11_example 2 = Except.ok C11_after_shrink ∧
    C11_after_shrink.size = 2 ∧
    part_offset C11_after_shrink.parts C11_after_shrink.parts.length = 4 ∧
    part_offset C11_after_shrink.parts C11_after_shrink.parts.length ≠ C11_after_shrink.size := by
  decide

/-- C14 (failing input): with two elements per part, after `push_back` of 1..6,
`resize(2)` (which leaves four elements stored under size 2) and two calls of
`remove(0)`, the size is 0 while the full part [3, 4] is still stored; `push_back(7)`
takes the branch for an empty container and appends to that part, which then holds
three elements. -/
theorem C14_push_back_overfills_part :
    push_back_each (init 8192) [1, 2, 3, 4, 5, 6] = Except.ok C11_example ∧
    resize C11_example 2 = Except.ok C11_after_shrink ∧
    (remove C11_after_shrink 0 >>= fun p => remove p 0) = Except.ok C14_after_removes ∧
    push_back C14_after_removes 7 = Except.ok C14_after_push_back ∧
    C14_after_push_back.parts = [[3, 4, 7]] ∧ C14_after_push_back.max_part_size = 2 ∧
    ¬ ∀ part ∈ C14_after_push_back.parts, part.length ≤ C14_after_push_back.max_part_size := by
  decide

/-- C15 (failing input): with two elements per part, after `push_back(1)` and
`remove(0)` no part is stored but `part_count` is still 1; `resize(1)` then takes the
branch for an empty container, adds the new part count to the stale one and resizes the
part sequence to two parts, of which only the last receives the element: the first
stored part has length 0. -/
theorem C15_resize_after_drain_leaves_empty_part :
    (push_back (init 8192) 1 >>= fun p => remove p 0) = Except.ok C15_drained ∧
    resize C15_drained 1 = Except.ok C15_after_resize ∧
    C15_after_resize.parts = [[], [0]] ∧
    ¬ ∀ part ∈ C15_after_resize.parts, part.length ≠ 0 := by
  decide

/-- C17 (failing input): on a default-constructed (empty) container `end()` computes
`part_count - 1`, which wraps to `UINT32_MAX`, and indexes the empty part sequence with
it: undefined behaviour, where the claim has a location equal to `begin()`; the same
after `clear()`.  On the non-empty container built from 1, 2, 3 `end()` has index 3 and
location (1, 1): the last part and its length. -/
theorem C17_end_of_empty_is_out_of_range :
    (init 8 : partial_vector Nat).parts = [] ∧ get_size (init 8 : partial_vector Nat) = 0 ∧
    u32_sub (init 8 : partial_vector Nat).part_count 1 = UINT32_MAX ∧
    end_ (init 8 : partial_vector Nat) = Except.error Fault.undefined ∧
    (clear C20_example >>= fun p => end_ p) = Except.error Fault.undefined ∧
    end_ C20_example = Except.ok ⟨⟨1, 1⟩, 3⟩ := by
  decide

/-- C19 (failing input): on the container built from 0, 1, 2, 3 with two elements per
part, `insert(pos, 9)` at the position reached from `begin()` by two `++` resizes the
empty offset cache to two entries; entry 1 is the zero the resize filled in, while parts
[0, 1) hold two elements. -/
theorem C19_insert_fills_cache_with_zero :
    new_from_vector 8192 [0, 1, 2, 3] = Except.ok C8_example ∧
    (iterator_inc C8_example (begin_ C8_example) >>= fun it => iterator_inc C8_example it) =
      Except.ok ⟨⟨1, 0⟩, 2⟩ ∧
    C8_example.part_offsets = [] ∧
    insert C8_example ⟨⟨1, 0⟩, 2⟩ 9 = Except.ok C8_after_insert ∧
    C8_after_insert.part_offsets[1]? = some 0 ∧
    part_offset C8_after_insert.parts 1 = 2 ∧
    ¬ cache_valid C8_after_insert.parts C8_after_insert.part_offsets := by
  refine ⟨by decide, by decide, by decide, by decide, by decide, by decide, ?_⟩
  intro h
  have h1 := (h 1 (by decide)).2
  exact absurd h1 (by decide)

/-- C20 (failing input): on the container built by `push_back` of 1, 2, 3 with two
elements per part, the element at index 2 is the only element of the last part;
`remove(2)` erases that part, so one part is stored, but `part_count()` still returns 2. -/
theorem C20_remove_keeps_part_count :
    push_back_each (init 8192) [1, 2, 3] = Except.ok C20_example ∧
    well_formed C20_example ∧ C20_example.parts[1]? = some [3] ∧
    get_part_count C20_example = 2 ∧
    remove C20_example 2 = Except.ok C20_after_remove ∧
    C20_after_remove.parts = [[1, 2]] ∧ C20_after_remove.parts.length = 1 ∧
    get_part_count C20_after_remove = 2 :=
  ⟨by decide, ⟨rfl, rfl, cache_valid_nil _⟩, by decide, by decide, by decide, by decide,
    by decide, by decide⟩

/-- C16 (as stated, with two elements per part): a container of 10 * 2 + 10 = 30
elements, built by sized construction or by 30 `push_back` calls, occupies 15 parts,
not 11. -/
theorem C16_thirty_elements_fifteen_parts :
    (init 8192 : partial_vector Nat).max_part_size = 2 ∧
    (new_sized 8192 (10 * 2 + 10) : Run Nat (partial_vector Nat)).map get_part_count =
      Except.ok 15 ∧
    (push_back_each (init 8192) (List.range (10 * 2 + 10))).map get_part_count =
      Except.ok 15 := by
  decide

/-- C16 (amended): for every accepted element size and every n > 0, the container built
by sized construction with n elements, and the one built by n `push_back` calls from
empty, has `part_count()` equal to n / max_part_size rounded up, every part but the last
holding max_part_size elements and the last the rest; so size max_part_size occupies 1
part, max_part_size + 1 occupies 2 parts (the first full, the second holding 1 element),
10 * max_part_size + 10 occupies 11 parts when max_part_size is at least 10, and size
2058 with 8-byte elements gives `part_count() == 2`. -/
theorem C16_part_layout [Inhabited ElementT] (sizeof_ElementT n : Nat) (xs : List ElementT)
    (h1 : 1 ≤ sizeof_ElementT) (h2 : sizeof_ElementT ≤ 8192) (hn : 0 < n)
    (hxs : xs.length = n) :
    (∃ q : partial_vector ElementT, new_sized sizeof_ElementT n = Except.ok q ∧
      part_layout q n (PARTIAL_VECTOR_PART_MAX_BYTE_SIZE / sizeof_ElementT)) ∧
    (∃ q, push_back_each (init sizeof_ElementT) xs = Except.ok q ∧
      part_layout q n (PARTIAL_VECTOR_PART_MAX_BYTE_SIZE / sizeof_ElementT)) ∧
    (∀ q : partial_vector ElementT,
      part_layout q n (PARTIAL_VECTOR_PART_MAX_BYTE_SIZE / sizeof_ElementT) →
      (n = PARTIAL_VECTOR_PART_MAX_BYTE_SIZE / sizeof_ElementT → get_part_count q = 1) ∧
      (n = PARTIAL_VECTOR_PART_MAX_BYTE_SIZE / sizeof_ElementT + 1 →
        get_part_count q = 2 ∧
        q.parts.map List.length = [PARTIAL_VECTOR_PART_MAX_BYTE_SIZE / sizeof_ElementT, 1]) ∧
      (10 ≤ PARTIAL_VECTOR_PART_MAX_BYTE_SIZE / sizeof_ElementT →
        n = 10 * (PARTIAL_VECTOR_PART_MAX_BYTE_SIZE / sizeof_ElementT) + 10 →
        get_part_count q = 11)) ∧
    (∃ q : partial_vector Nat, new_sized 8 2058 = Except.ok q ∧ get_part_count q = 2) := by
  obtain ⟨mx, hmx⟩ : ∃ mx, mx = PARTIAL_VECTOR_PART_MAX_BYTE_SIZE / sizeof_ElementT := ⟨_, rfl⟩
  have hpos : 0 < mx := by
    rw [hmx]
    apply Nat.div_pos _ h1
    unfold PARTIAL_VECTOR_PART_MAX_BYTE_SIZE
    omega
  rw [← hmx]
  refine ⟨?_, ?_, ?_, ?_⟩
  · obtain ⟨q, e, hpc, hsum, hpk⟩ := new_sized_packed ElementT sizeof_ElementT n (by rw [← hmx]; exact hpos)
    rw [← hmx] at hpk
    exact ⟨q, e, part_layout_of_packed q n mx hpc hsum hpk hn⟩
  · obtain ⟨q, e, hpc, hsum, hs, hpk⟩ :=
      push_back_each_packed xs mx hpos (init sizeof_ElementT) hmx.symm rfl rfl
        (by intro i part h; simp [init] at h)
    refine ⟨q, e, part_layout_of_packed q n mx hpc ?_ hpk hn⟩
    rw [hsum, hs, hxs]
    simp [init]
  · intro q hl
    obtain ⟨hcount, hlen, hparts⟩ := hl
    refine ⟨?_, ?_, ?_⟩
    · intro hnm
      rw [hcount, hnm]
      apply Nat.div_eq_of_lt_le <;> omega
    · intro hnm
      have hc2 : get_part_count q = 2 := by
        rw [hcount, hnm]
        apply Nat.div_eq_of_lt_le <;> omega
      refine ⟨hc2, ?_⟩
      rw [hc2] at hlen hparts
      rcases hq : q.parts with _ | ⟨a, _ | ⟨b, _ | ⟨c, tl⟩⟩⟩
      · rw [hq] at hlen; simp at hlen
      · rw [hq] at hlen; simp at hlen
      · rw [hq] at hparts
        have ha := (hparts 0 a (by simp)).1 (by omega)
        have hb := (hparts 1 b (by simp)).2 (by omega)
        simp [ha, hb, hnm]
      · rw [hq] at hlen; simp at hlen
    · intro h10 hnm
      rw [hcount, hnm]
      apply Nat.div_eq_of_lt_le <;> omega
  · obtain ⟨q, e, hpc, hsum, hpk⟩ := new_sized_packed Nat 8 2058 (by decide)
    have hl := part_layout_of_packed q 2058 _ hpc hsum hpk (by decide)
    refine ⟨q, e, ?_⟩
    rw [hl.1]
    decide

theorem C16_part_layout_witness :
    1 ≤ 4096 ∧ 4096 ≤ 8192 ∧ 0 < 5 ∧ [1, 2, 3, 4, 5].length = 5 ∧
    ((∃ q : partial_vector Nat, new_sized 4096 5 = Except.ok q ∧
      part_layout q 5 (PARTIAL_VECTOR_PART_MAX_BYTE_SIZE / 4096)) ∧
    (∃ q, push_back_each (init 4096) [1, 2, 3, 4, 5] = Except.ok q ∧
      part_layout q 5 (PARTIAL_VECTOR_PART_MAX_BYTE_SIZE / 4096)) ∧
    (∀ q : partial_vector Nat,
      part_layout q 5 (PARTIAL_VECTOR_PART_MAX_BYTE_SIZE / 4096) →
      (5 = PARTIAL_VECTOR_PART_MAX_BYTE_SIZE / 4096 → get_part_count q = 1) ∧
      (5 = PARTIAL_VECTOR_PART_MAX_BYTE_SIZE / 4096 + 1 →
        get_part_count q = 2 ∧
        q.parts.map List.length = [PARTIAL_VECTOR_PART_MAX_BYTE_SIZE / 4096, 1]) ∧
      (10 ≤ PARTIAL_VECTOR_PART_MAX_BYTE_SIZE / 4096 →
        5 = 10 * (PARTIAL_VECTOR_PART_MAX_BYTE_SIZE / 4096) + 10 →
        get_part_count q = 11)) ∧
    (∃ q : partial_vector Nat, new_sized 8 2058 = Except.ok q ∧ get_part_count q = 2)) :=
  ⟨by decide, by decide, by decide, by decide,
    C16_part_layout 4096 5 [1, 2, 3, 4, 5] (by decide) (by decide) (by decide) (by decide)⟩

/-- C18: for every element byte size s with 1 <= s <= 8192 the element type is accepted
and `max_part_size` is 16384 / s rounded down, which is at least 2; a byte size is
accepted exactly when it is at most 8192, half the budget; and `max_part_size` is 2048
for 8-byte elements. -/
theorem C18_max_part_size_arithmetic (s : Nat) (h1 : 1 ≤ s) (h2 : s ≤ 8192) :
    element_type_accepted s ∧
    (init s : partial_vector ElementT).max_part_size = 16384 / s ∧
    (init s : partial_vector ElementT).max_part_size * s ≤ 16384 ∧
    16384 < ((init s : partial_vector ElementT).max_part_size + 1) * s ∧
    2 ≤ (init s : partial_vector ElementT).max_part_size ∧
    (∀ t, element_type_accepted t ↔ t ≤ 8192) ∧
    (init 8 : partial_vector ElementT).max_part_size = 2048 := by
  have hacc : ∀ t, element_type_accepted t ↔ t ≤ 8192 := by
    intro t
    unfold element_type_accepted PARTIAL_VECTOR_PART_MAX_BYTE_SIZE
    omega
  have hm : (init s : partial_vector ElementT).max_part_size = 16384 / s := rfl
  refine ⟨(hacc s).mpr h2, hm, ?_, ?_, ?_, hacc, rfl⟩
  · rw [hm]
    exact Nat.div_mul_le_self 16384 s
  · rw [hm, Nat.mul_comm]
    exact Nat.lt_mul_div_succ 16384 (by omega)
  · rw [hm]
    exact (Nat.le_div_iff_mul_le (by omega)).mpr (by omega)

theorem C18_max_part_size_arithmetic_witness :
    1 ≤ 24 ∧ 24 ≤ 8192 ∧
    (element_type_accepted 24 ∧
    (init 24 : partial_vector Nat).max_part_size = 16384 / 24 ∧
    (init 24 : partial_vector Nat).max_part_size * 24 ≤ 16384 ∧
    16384 < ((init 24 : partial_vector Nat).max_part_size + 1) * 24 ∧
    2 ≤ (init 24 : partial_vector Nat).max_part_size ∧
    (∀ t, element_type_accepted t ↔ t ≤ 8192) ∧
    (init 8 : partial_vector Nat).max_part_size = 2048) :=
  ⟨by decide, by decide, C18_max_part_size_arithmetic 24 (by decide) (by decide)⟩

/-- C21: on a well-formed container, an interior `insert` at offset o of the part
`part` at index pi does the following.  When the part holds exactly max_part_size
elements and the right neighbour exists with fewer than max_part_size elements, the
part's last element becomes the neighbour's first element and `part_count()` is
unchanged; when there is no such neighbour, a new part holding exactly that last element
is inserted right after the target and `part_count()` grows by exactly one; in both
cases the target keeps max_part_size elements.  When the part is not full, only the
target part changes and `part_count()` is unchanged. -/
theorem C21_borrow_before_split (p : partial_vector ElementT) (pos : iterator) (x : ElementT)
    (part : List ElementT) (hp : well_formed p) (hint : pos.elem_index ≠ p.size)
    (hpart : p.parts[pos.elem_info.part_index]? = some part)
    (ho : pos.elem_info.element_offset < part.length) :
    (part.length = p.max_part_size → ∀ last, part[part.length - 1]? = some last →
      (∀ pn, p.parts[pos.elem_info.part_index + 1]? = some pn →
        pn.length < p.max_part_size →
        ∃ q, insert p pos x = Except.ok q ∧
          q.parts = p.parts.take pos.elem_info.part_index ++
            (part.dropLast.take pos.elem_info.element_offset ++
              x :: part.dropLast.drop pos.elem_info.element_offset) ::
            (last :: pn) :: p.parts.drop (pos.elem_info.part_index + 2) ∧
          get_part_count q = get_part_count p ∧ q.parts.length = p.parts.length ∧
          (last :: pn).length ≤ p.max_part_size) ∧
      ((p.parts[pos.elem_info.part_index + 1]? = none ∨
          ∃ pn, p.parts[pos.elem_info.part_index + 1]? = some pn ∧
            ¬ pn.length < p.max_part_size) →
        ∃ q, insert p pos x = Except.ok q ∧
          q.parts = p.parts.take pos.elem_info.part_index ++
            (part.dropLast.take pos.elem_info.element_offset ++
              x :: part.dropLast.drop pos.elem_info.element_offset) ::
            [last] :: p.parts.drop (pos.elem_info.part_index + 1) ∧
          get_part_count q = get_part_count p + 1 ∧
          q.parts.length = p.parts.length + 1) ∧
      (part.dropLast.take pos.elem_info.element_offset ++
        x :: part.dropLast.drop pos.elem_info.element_offset).length = p.max_part_size) ∧
    (part.length ≠ p.max_part_size →
      ∃ q, insert p pos x = Except.ok q ∧
        q.parts = p.parts.set pos.elem_info.part_index
          (part.take pos.elem_info.element_offset ++
            x :: part.drop pos.elem_info.element_offset) ∧
        get_part_count q = get_part_count p ∧ q.parts.length = p.parts.length) := by
  have hpc := hp.1
  rcases p with ⟨mx, parts, size, pc, cache⟩
  rcases pos with ⟨⟨pi, o⟩, k⟩
  simp only at hpc hpart ho hint ⊢
  have hsplit := split_at_part parts pi part hpart
  have hpi := getElem?_lt_length parts pi part hpart
  have hL : (parts.take pi).length = pi := by simp; omega
  have hdrop2 : parts.drop (pi + 2) = (parts.drop (pi + 1)).drop 1 := by
    rw [List.drop_drop]
  rw [hdrop2]
  have htake : parts.take pi = parts.take pi := rfl
  generalize parts.drop (pi + 1) = r at hsplit ⊢
  revert htake
  generalize parts.take pi = l at hsplit hL ⊢
  intro _
  subst hsplit
  subst hL
  subst hpc
  refine ⟨?_, ?_⟩
  · intro hfull last hlast
    refine ⟨?_, ?_, ?_⟩
    · intro pn hpn hlt
      rw [mid_succ_getElem?] at hpn
      rcases r with _ | ⟨pn2, r2⟩
      · simp at hpn
      · simp at hpn
        subst hpn
        refine ⟨_, insert_borrow_case mx size cache l r2 part pn2 o k x last hint ho hfull
          hlast hlt, ?_, rfl, ?_, ?_⟩
        · simp
        · simp
        · simp only [List.length_cons]
          omega
    · intro hr
      have hr2 : r = [] ∨ ∃ pn r2, r = pn :: r2 ∧ ¬ pn.length < mx := by
        rw [mid_succ_getElem?] at hr
        rcases r with _ | ⟨pn, r2⟩
        · exact Or.inl rfl
        · right
          rcases hr with h | ⟨pn3, h, hn⟩
          · simp at h
          · simp at h
            subst h
            exact ⟨pn, r2, rfl, hn⟩
      refine ⟨_, insert_split_case mx size cache l r part o k x last hint ho hfull hlast hr2,
        ?_, rfl, ?_⟩
      · simp
      · simp
        omega
    · simp only [List.length_append, List.length_cons, List.length_take, List.length_drop,
        List.length_dropLast]
      omega
  · intro hroom
    refine ⟨_, insert_room_case mx size cache l r part o k x hint ho hroom, ?_, rfl, ?_⟩
    · simp
    · simp

theorem C21_example_well_formed : well_formed C21_example :=
  ⟨rfl, rfl, fun i hi => absurd hi (Nat.not_lt_zero i)⟩

theorem C21_borrow_before_split_witness :
    well_formed C21_example ∧
    (∃ q, insert C21_example ⟨⟨0, 1⟩, 1⟩ 9 = Except.ok q ∧
      q.parts = [[1, 9], [2, 3], [4, 5]] ∧ get_part_count q = 3) ∧
    (∃ q, insert C21_example ⟨⟨2, 0⟩, 3⟩ 9 = Except.ok q ∧
      q.parts = [[1, 2], [3], [9, 4], [5]] ∧ get_part_count q = 4) ∧
    (∃ q, insert C21_example ⟨⟨1, 0⟩, 2⟩ 9 = Except.ok q ∧
      q.parts = [[1, 2], [9, 3], [4, 5]] ∧ get_part_count q = 3) := by
  refine ⟨C21_example_well_formed, ?_, ?_, ?_⟩
  · obtain ⟨q, h1, h2, h3, _⟩ :=
      ((C21_borrow_before_split C21_example ⟨⟨0, 1⟩, 1⟩ 9 [1, 2] C21_example_well_formed
        (by decide) rfl (by decide)).1 rfl 2 rfl).1 [3] rfl (by decide)
    exact ⟨q, h1, h2, h3⟩
  · obtain ⟨q, h1, h2, h3, _⟩ :=
      ((C21_borrow_before_split C21_example ⟨⟨2, 0⟩, 3⟩ 9 [4, 5] C21_example_well_formed
        (by decide) rfl (by decide)).1 rfl 5 rfl).2.1 (Or.inl rfl)
    exact ⟨q, h1, h2, h3⟩
  · obtain ⟨q, h1, h2, h3, _⟩ :=
      (C21_borrow_before_split C21_example ⟨⟨1, 0⟩, 2⟩ 9 [3] C21_example_well_formed
        (by decide) rfl (by decide)).2 (by decide)
    exact ⟨q, h1, h2, h3⟩

/-- C22: on a well-formed container without empty parts, for every i with
i + 1 < size the resolver locates i and i + 1, `next_element` maps the first location
to the second and `previous_element` the second to the first, whatever the state of the
offset cache, and so do the iterator's `++` and `--`; and when the container holds an
element, decrementing `end()` yields the location `find_element(size - 1)` of the last
element. -/
theorem C22_unit_steps_agree_with_resolver (p : partial_vector ElementT)
    (hp : well_formed p) (hne : ∀ part ∈ p.parts, part ≠ []) :
    (∀ i, i + 1 < p.size → ∃ a b c1 c2,
      find_element p i = Except.ok (a, { p with part_offsets := c1 }) ∧
      find_element p (i + 1) = Except.ok (b, { p with part_offsets := c2 }) ∧
      (∀ c, next_element { p with part_offsets := c } a = Except.ok b) ∧
      (∀ c, previous_element { p with part_offsets := c } b = Except.ok a) ∧
      (∀ c, iterator_inc { p with part_offsets := c } ⟨a, i⟩ = Except.ok ⟨b, i + 1⟩) ∧
      (∀ c, iterator_dec { p with part_offsets := c } ⟨b, i + 1⟩ = Except.ok ⟨a, i⟩)) ∧
    (0 < p.size → ∃ e z c3,
      end_ p = Except.ok e ∧
      find_element p (p.size - 1) = Except.ok (z, { p with part_offsets := c3 }) ∧
      iterator_dec p e = Except.ok ⟨z, p.size - 1⟩ ∧
      (∀ c, iterator_dec { p with part_offsets := c } e = Except.ok ⟨z, p.size - 1⟩)) := by
  have hr := well_formed_resolvable hp
  obtain ⟨hpc, hsum, hcache⟩ := hp
  refine ⟨?_, ?_⟩
  · intro i hi
    obtain ⟨a, c1, hfa, hla, _, _⟩ := find_element_spec p i hr (by omega)
    obtain ⟨b, c2, hfb, hlb, _, _⟩ := find_element_spec p (i + 1) hr hi
    have hnext : ∀ c, next_element { p with part_offsets := c } a = Except.ok b := by
      intro c
      obtain ⟨b2, hn, hl2⟩ := next_located { p with part_offsets := c } a i hne hla
        (by rw [hsum]; exact hi)
      rw [hn, located_unique p.parts b2 b (i + 1) hl2 hlb]
    have hprev : ∀ c, previous_element { p with part_offsets := c } b = Except.ok a := by
      intro c
      obtain ⟨a2, hn, hl2⟩ := prev_located { p with part_offsets := c } b i hne hlb
      rw [hn, located_unique p.parts a2 a i hl2 hla]
    refine ⟨a, b, c1, c2, hfa, hfb, hnext, hprev, ?_, ?_⟩
    · intro c
      unfold iterator_inc
      simp only [hnext c]
    · intro c
      unfold iterator_dec
      simp only [hprev c]
      simp [u64_sub]
  · intro hsz
    have hlen : 0 < p.parts.length := by
      rcases Nat.eq_zero_or_pos p.parts.length with h0 | h0
      · rw [h0, part_offset_zero] at hsum
        omega
      · exact h0
    obtain ⟨last, hlast, hend⟩ := end_of_nonempty p hpc hlen
    obtain ⟨z, c3, hfz, hlz, _, _⟩ := find_element_spec p (p.size - 1) hr (by omega)
    have hmem : last ∈ p.parts := List.getElem?_mem hlast
    have hpos : 0 < last.length := List.length_pos.mpr (hne last hmem)
    have hs1 := part_offset_succ p.parts _ _ hlast
    have hpc1 : p.part_count - 1 + 1 = p.parts.length := by omega
    rw [hpc1, hsum] at hs1
    have hloc : located p.parts ⟨p.part_count - 1, last.length - 1⟩ (p.size - 1) :=
      ⟨last, hlast, by simp only; omega, by simp only; omega⟩
    have hz := located_unique p.parts _ z (p.size - 1) hloc hlz
    have hdec : ∀ c, iterator_dec { p with part_offsets := c }
        ⟨⟨p.part_count - 1, last.length⟩, p.size⟩ = Except.ok ⟨z, p.size - 1⟩ := by
      intro c
      unfold iterator_dec previous_element
      simp only [gt_iff_lt, if_pos hpos]
      rw [hz]
      have h1 : 1 ≤ p.size := hsz
      simp only [u64_sub, if_pos h1]
    refine ⟨_, z, c3, hend, hfz, ?_, hdec⟩
    exact hdec p.part_offsets

theorem C22_unit_steps_agree_with_resolver_witness :
    well_formed C21_example ∧ (∀ part ∈ C21_example.parts, part ≠ []) ∧
    (∀ i, i + 1 < C21_example.size → ∃ a b c1 c2,
      find_element C21_example i = Except.ok (a, { C21_example with part_offsets := c1 }) ∧
      find_element C21_example (i + 1) =
        Except.ok (b, { C21_example with part_offsets := c2 }) ∧
      (∀ c, next_element { C21_example with part_offsets := c } a = Except.ok b) ∧
      (∀ c, previous_element { C21_example with part_offsets := c } b = Except.ok a) ∧
      (∀ c, iterator_inc { C21_example with part_offsets := c } ⟨a, i⟩ =
        Except.ok ⟨b, i + 1⟩) ∧
      (∀ c, iterator_dec { C21_example with part_offsets := c } ⟨b, i + 1⟩ =
        Except.ok ⟨a, i⟩)) ∧
    (0 < C21_example.size → ∃ e z c3,
      end_ C21_example = Except.ok e ∧
      find_element C21_example (C21_example.size - 1) =
        Except.ok (z, { C21_example with part_offsets := c3 }) ∧
      iterator_dec C21_example e = Except.ok ⟨z, C21_example.size - 1⟩ ∧
      (∀ c, iterator_dec { C21_example with part_offsets := c } e =
        Except.ok ⟨z, C21_example.size - 1⟩)) :=
  ⟨C21_example_well_formed, by decide,
    C22_unit_steps_agree_with_resolver C21_example C21_example_well_formed (by decide)⟩

/-- C23 (failing input): on the well-formed container built by `push_back` of 1, 2, 3
with two elements per part, `reserve(8)` resizes the part sequence to four parts while
`part_count` stays 2.  A following `resize(5)` fills the last counted part and appends the
new part behind the two reserved empty parts: five parts are stored, `part_count()` is 3,
and `v[4]` finds no part within `part_count` and indexes the part sequence out of bounds.
A following `insert(end(), 9)` likewise appends behind the reserved parts and `v[3]` is
out of bounds.  Without the `reserve`, the same `resize` and `insert` leave three parts,
`part_count()` 3, and `v[4]` reads 0, `v[3]` reads 9. -/
theorem C23_growth_after_reserve_is_lost :
    push_back_each (init 8192) [1, 2, 3] = Except.ok C20_example ∧
    part_offset C20_example.parts C20_example.parts.length = C20_example.size ∧
    get_part_count C20_example = C20_example.parts.length ∧
    contents C20_example = [1, 2, 3] ∧
    reserve C20_example 8 = C23_reserved ∧
    resize C23_reserved 5 = Except.ok C23_after_resize ∧
    get_part_count C23_after_resize = 3 ∧ C23_after_resize.parts.length = 5 ∧
    get_size C23_after_resize = 5 ∧
    operator_index C23_after_resize 4 = Except.error Fault.undefined ∧
    (resize C20_example 5).map (fun q => (q.parts, get_part_count q)) =
      Except.ok ([[1, 2], [3, 0], [0]], 3) ∧
    (resize C20_example 5 >>= fun q => operator_index q 4).map Prod.fst = Except.ok 0 ∧
    end_ C23_reserved = Except.ok ⟨⟨1, 1⟩, 3⟩ ∧
    insert C23_reserved ⟨⟨1, 1⟩, 3⟩ 9 = Except.ok C23_after_insert ∧
    get_part_count C23_after_insert = 3 ∧ C23_after_insert.parts.length = 5 ∧
    get_size C23_after_insert = 4 ∧
    operator_index C23_after_insert 3 = Except.error Fault.undefined ∧
    (insert C20_example ⟨⟨1, 1⟩, 3⟩ 9).map (fun q => (q.parts, get_part_count q)) =
      Except.ok ([[1, 2], [3], [9]], 3) ∧
    (insert C20_example ⟨⟨1, 1⟩, 3⟩ 9 >>= fun q => operator_index q 3).map Prod.fst =
      Except.ok 9 := by
  and_intros <;> decide

/-- C24 (failing input): the container built by `push_back` of 1, 2, 3 with two elements
per part holds its last element alone in the last part; `remove(2)` erases that part, so
one part is stored while `part_count` is still 2.  `v[0]` and `v[1]` still read 1 and 2,
but `to_vector(0, 2)`, `to_vector(1, 1)` and `to_vector()` run their part loop up to
`part_count` and index the part sequence at 1, past its single part.  For `operator[]`:
after `push_back` of 0, 1, 2, 3 and an `insert` at the position reached from `begin()` by
two `++`, `find_element(3)` returns the part index `UINT32_MAX` and `v[3]` indexes the
part sequence with it. -/
theorem C24_to_vector_reads_past_parts :
    push_back_each (init 8192) [1, 2, 3] = Except.ok C20_example ∧
    remove C20_example 2 = Except.ok C20_after_remove ∧
    C20_after_remove.parts.length = 1 ∧ C20_after_remove.part_count = 2 ∧
    get_size C20_after_remove = 2 ∧
    (operator_index C20_after_remove 0).map Prod.fst = Except.ok 1 ∧
    (operator_index C20_after_remove 1).map Prod.fst = Except.ok 2 ∧
    (find_element C20_after_remove 0).map Prod.fst = Except.ok ⟨0, 0⟩ ∧
    vec_at C20_after_remove.parts 1 =
      (Except.error Fault.undefined : Run Nat (List Nat)) ∧
    to_vector C20_after_remove 0 2 = Except.error Fault.undefined ∧
    to_vector C20_after_remove 1 1 = Except.error Fault.undefined ∧
    to_vector_all C20_after_remove = Except.error Fault.undefined ∧
    push_back_each (init 8192) [0, 1, 2, 3] = Except.ok C8_example ∧
    insert C8_example ⟨⟨1, 0⟩, 2⟩ 9 = Except.ok C8_after_insert ∧
    get_size C8_after_insert = 5 ∧ C8_after_insert.parts.length = 3 ∧
    (find_element C8_after_insert 3).map Prod.fst = Except.ok ⟨UINT32_MAX, UINT32_MAX⟩ ∧
    operator_index C8_after_insert 3 = Except.error Fault.undefined := by
  and_intros <;> decide

end partial_vector
